import Mathlib

/-!
# MimirPrompt backend: cache service and token guard

A shallow embedding of `internal/cache/cache.go`, `internal/middleware/middleware.go`
and `internal/handlers/auth_handler.go`, followed by the properties proved of it.

Conventions of the embedding

* A Go `string` is a Lean `String`, read as its sequence of characters (`String.data`);
  strings are valid UTF-8 throughout.
* A Go `[]byte` is a `List Nat`.
* A `time.Time` is an `Int`: nanoseconds since the Unix epoch. A `time.Duration` is an
  `Int` of nanoseconds. Every call of `time.Now()` in the source is an explicit
  argument of the embedded function.
* A Go `map[string]T` is an association list `List (String × T)`: lookup returns the
  first binding of a key, assignment and `delete` drop every older binding of the key.
* A method that mutates its receiver returns the new receiver; a returned `error`
  is an `Option String` (`none` is `nil`) or the `error` side of an `Except`.
* The mutex calls (`c.mu.Lock()` and friends) are dropped: every method body runs as
  one atomic step on the store.
* A Go panic is the `error` side of an `Except` whose error type is `gin.Panic`.

Code outside the repository

* `github.com/golang-jwt/jwt/v5` is a dependency of the repository, not part of it.
  Namespace `jwt` models the functions of it that the repository calls (`Parse`,
  `NewWithClaims`, `SignedString`, the default claims validation), after the
  behaviour the package documents. What that package itself builds on (HMAC,
  base64url, JSON) is the parameter `jwt.Primitives`.
* `github.com/gin-gonic/gin` is a dependency as well. Namespace `gin` models the
  request context as far as the guards use it: `c.Next()` and `c.Abort()` are
  recorded in the context instead of running or cutting a handler chain.
-/

set_option autoImplicit false

namespace gomap

/-- Map lookup, `v, found := m[key]`. -/
def get {V : Type} (m : List (String × V)) (key : String) : Option V :=
  match m with
  | [] => none
  | (k, v) :: rest => if k = key then some v else get rest key

/-- The builtin `delete(m, key)`. -/
def delete {V : Type} (m : List (String × V)) (key : String) : List (String × V) :=
  m.filter (fun kv => decide (kv.1 ≠ key))

/-- Map assignment, `m[key] = v`. -/
def set {V : Type} (m : List (String × V)) (key : String) (v : V) : List (String × V) :=
  (key, v) :: delete m key

end gomap

namespace cache

/-- CacheItem represents a cached item with expiration. -/
structure CacheItem where
  Value : List Nat
  Expiration : Int
deriving DecidableEq, Repr

/-- InMemoryCache is a simple in-memory cache; `items` is the `map[string]CacheItem`. -/
structure InMemoryCache where
  items : List (String × CacheItem)
deriving DecidableEq, Repr

/-- The store built inside `GetCache`: `make(map[string]CacheItem)`. -/
def InMemoryCache.new : InMemoryCache :=
  { items := [] }

/-- Get retrieves a value from cache. `now` is the value of `time.Now()`;
`now.After(item.Expiration)` is the strict comparison `item.Expiration < now`. -/
def InMemoryCache.Get (c : InMemoryCache) (now : Int) (key : String) :
    Except String (List Nat) :=
  match gomap.get c.items key with
  | none => .error ("key not found: " ++ key)
  | some item =>
    if item.Expiration < now then .error ("key expired: " ++ key)
    else .ok item.Value

/-- Set stores a value in cache with TTL. `marshal` is `json.Marshal` on the values
the caller stores; `now` is the value of `time.Now()`. Returns the store after the
call and the returned error. -/
def InMemoryCache.Set {V : Type} (marshal : V → Except String (List Nat))
    (c : InMemoryCache) (now : Int) (key : String) (value : V) (ttl : Int) :
    InMemoryCache × Option String :=
  match marshal value with
  | .error err => (c, some ("failed to marshal value: " ++ err))
  | .ok data =>
    ({ items := gomap.set c.items key { Value := data, Expiration := now + ttl } }, none)

/-- Delete removes a key from cache. -/
def InMemoryCache.Delete (c : InMemoryCache) (key : String) : InMemoryCache × Option String :=
  ({ items := gomap.delete c.items key }, none)

/-- The loop condition of `DeleteByPrefix`:
`len(key) >= len(prefix) && key[:len(prefix)] == prefix`. -/
def hasPrefix (key pfx : String) : Bool :=
  decide (key.data.length ≥ pfx.data.length) && decide (key.data.take pfx.data.length = pfx.data)

/-- DeleteByPrefix removes all keys with given prefix: the `range` loop visits the
entries of the map and deletes the matching keys one by one. -/
def InMemoryCache.DeleteByPrefix (c : InMemoryCache) (pfx : String) :
    InMemoryCache × Option String :=
  ({ items := c.items.foldl
      (fun m kv => if hasPrefix kv.1 pfx then gomap.delete m kv.1 else m) c.items }, none)

/-- One tick of `cleanup`: the body of the `for range ticker.C` loop, run at time `now`. -/
def InMemoryCache.cleanup (c : InMemoryCache) (now : Int) : InMemoryCache :=
  { items := c.items.foldl
      (fun m kv => if kv.2.Expiration < now then gomap.delete m kv.1 else m) c.items }

/-- Cache key constants. -/
def KeyTags : String := "cache:tags"

/-- TTL constants: `5 * time.Minute` in nanoseconds. -/
def TTLTags : Int := 5 * 60 * 1000000000

/-- An operation on the store, as issued by a request flow or by the sweep timer. -/
inductive Op (V : Type) where
  | Get (key : String)
  | Set (key : String) (value : V) (ttl : Int)
  | Delete (key : String)
  | DeleteByPrefix (pfx : String)
  | cleanup

/-- The store after one operation run at time `now`. -/
def InMemoryCache.step {V : Type} (marshal : V → Except String (List Nat))
    (c : InMemoryCache) (now : Int) : Op V → InMemoryCache
  | .Get _ => c
  | .Set key value ttl => (c.Set marshal now key value ttl).1
  | .Delete key => (c.Delete key).1
  | .DeleteByPrefix pfx => (c.DeleteByPrefix pfx).1
  | .cleanup => c.cleanup now

/-- The store after a sequence of operations, each with the time it ran at. -/
def InMemoryCache.run {V : Type} (marshal : V → Except String (List Nat))
    (c : InMemoryCache) : List (Int × Op V) → InMemoryCache
  | [] => c
  | (now, op) :: rest => (c.step marshal now op).run marshal rest

/-- The operation assigns key `key`. -/
def Op.setsKey {V : Type} (key : String) : Op V → Bool
  | .Set k _ _ => decide (k = key)
  | _ => false

/-- The read failed: what the spec calls `NotFound`. -/
def isNotFound (r : Except String (List Nat)) : Bool :=
  match r with
  | .error _ => true
  | .ok _ => false

end cache

namespace strings

/-- The pieces of a character sequence between the occurrences of `sep`. -/
def splitChars (sep : Char) : List Char → List (List Char)
  | [] => [[]]
  | c :: cs =>
    match splitChars sep cs with
    | [] => [[]]
    | p :: ps => if c = sep then [] :: p :: ps else (c :: p) :: ps

/-- The call `strings.Split(s, sep)` for a separator of one character. -/
def Split (s : String) (sep : Char) : List String :=
  (splitChars sep s.data).map String.mk

end strings

namespace goint

/-- The value of an integer expression in the 64-bit `int` of Go: arithmetic wraps
around. -/
def wrap (n : Int) : Int :=
  (n + 9223372036854775808) % 18446744073709551616 - 9223372036854775808

/-- The sum `a + b` of two `int`. -/
def add (a b : Int) : Int := wrap (a + b)

/-- The difference `a - b` of two `int`. -/
def sub (a b : Int) : Int := wrap (a - b)

/-- The product `a * b` of two `int`. -/
def mul (a b : Int) : Int := wrap (a * b)

/-- The quotient `a / b` of two `int`: truncated toward zero; a zero divisor is a
run-time panic, returned as the error. -/
def div (a b : Int) : Except String Int :=
  if b = 0 then .error "runtime error: integer divide by zero"
  else .ok (wrap (Int.tdiv a b))

end goint

namespace time

/-- The seconds from the zero of `time.Time` (1 January of year 1) to the Unix epoch: the
constant `unixToInternal` of package `time`. -/
def unixToInternal : Int := 62135596800

end time

namespace jwt

/-- A value held in a `map[string]interface{}` (a token header or `jwt.MapClaims`).
`int` and `int64` are the Go integers a caller puts into a claims map before signing;
a JSON number read back from a token is a `float64`, here the rational it denotes.
Arrays and objects carry no payload: the guards never look inside one. -/
inductive Value where
  | null
  | bool (b : Bool)
  | int (n : Int)
  | int64 (n : Int)
  | float64 (x : ℚ)
  | string (s : String)
  | array
  | object
deriving DecidableEq, Repr

/-- The dynamic type name Go prints in an `interface conversion` panic. -/
def Value.typeName : Option Value → String
  | none => "nil"
  | some .null => "nil"
  | some (.bool _) => "bool"
  | some (.int _) => "int"
  | some (.int64 _) => "int64"
  | some (.float64 _) => "float64"
  | some (.string _) => "string"
  | some .array => "[]interface \x7b\x7d"
  | some .object => "map[string]interface \x7b\x7d"

/-- The float64 nearest to the integer `n` (ties to even), as an integer: what
`strconv.ParseFloat` returns for the decimal digits of `n`. Go integers are below
`2^64`, far from the float64 overflow threshold. -/
def roundFloat64 (n : Int) : Int :=
  let a := n.natAbs
  let e := Nat.log2 a + 1 - 53
  let q := a / 2 ^ e
  let r := a % 2 ^ e
  let q1 := if 2 ^ e < 2 * r ∨ (2 * r = 2 ^ e ∧ q % 2 = 1) then q + 1 else q
  n.sign * ((q1 * 2 ^ e : Nat) : Int)

/-- What `json.Unmarshal` into `interface{}` yields for the JSON text that
`json.Marshal` wrote for a value: every number comes back as a `float64`. -/
def Value.viaJSON : Value → Value
  | .int n => .float64 (roundFloat64 n)
  | .int64 n => .float64 (roundFloat64 n)
  | v => v

/-- The conversion `int(f)` of a `float64`: truncation toward zero. Outside the
`int` range the Go specification leaves the result to the implementation; the value
here is the one amd64 produces. -/
def goInt (x : ℚ) : Int :=
  let t := Int.tdiv x.num x.den
  if -(2 ^ 63) ≤ t ∧ t < 2 ^ 63 then t else -(2 ^ 63)

/-- The functions of the Go standard library that the token code is built on. They are
outside the repository and are parameters of the embedding:
`hmac alg key msg` is the HMAC of `msg` under `key` with the hash of method `alg`
(`crypto/hmac`), `EncodeSegment`/`DecodeSegment` are `base64.RawURLEncoding`, and
`jsonMarshal`/`jsonUnmarshal` are `encoding/json` on a `map[string]interface{}`. -/
structure Primitives where
  hmac : String → List Nat → String → List Nat
  EncodeSegment : List Nat → String
  DecodeSegment : String → Option (List Nat)
  jsonMarshal : List (String × Value) → List Nat
  jsonUnmarshal : List Nat → Option (List (String × Value))

/-- The documented behaviour of those functions that the proofs rely on: decoding
inverts encoding; an encoded segment is written in the base64url alphabet, which has
neither `.` nor the space; a marshalled map unmarshals to a map with the same keys,
each value as `Value.viaJSON` gives it. -/
structure Primitives.Lawful (P : Primitives) : Prop where
  decode_encode : ∀ b, P.DecodeSegment (P.EncodeSegment b) = some b
  alphabet : ∀ b c, c ∈ (P.EncodeSegment b).data → c ≠ '.' ∧ c ≠ ' '
  unmarshal_marshal : ∀ o, ∃ o1, P.jsonUnmarshal (P.jsonMarshal o) = some o1 ∧
    ∀ k, gomap.get o1 k = (gomap.get o k).map Value.viaJSON

/-- The registered signing methods, by family. -/
inductive SigningMethod where
  | HMAC (Name : String)
  | RSA (Name : String)
  | RSAPSS (Name : String)
  | ECDSA (Name : String)
  | Ed25519
  | None
deriving DecidableEq, Repr

/-- The method `jwt.SigningMethodHS256`. -/
def SigningMethodHS256 : SigningMethod := .HMAC "HS256"

/-- The value of `m.Alg()`. -/
def SigningMethod.Alg : SigningMethod → String
  | .HMAC n => n
  | .RSA n => n
  | .RSAPSS n => n
  | .ECDSA n => n
  | .Ed25519 => "EdDSA"
  | .None => "none"

/-- The lookup `jwt.GetSigningMethod(alg)` in the table of registered methods. -/
def GetSigningMethod (alg : String) : Option SigningMethod :=
  if alg = "HS256" ∨ alg = "HS384" ∨ alg = "HS512" then some (.HMAC alg)
  else if alg = "RS256" ∨ alg = "RS384" ∨ alg = "RS512" then some (.RSA alg)
  else if alg = "PS256" ∨ alg = "PS384" ∨ alg = "PS512" then some (.RSAPSS alg)
  else if alg = "ES256" ∨ alg = "ES384" ∨ alg = "ES512" then some (.ECDSA alg)
  else if alg = "EdDSA" then some .Ed25519
  else if alg = "none" then some .None
  else none

/-- The error values of the package that the parser returns. -/
inductive Error where
  | ErrTokenMalformed
  | ErrTokenUnverifiable
  | ErrTokenSignatureInvalid
  | ErrTokenInvalidClaims
  | ErrSignatureInvalid
  | ErrInvalidKeyType
deriving DecidableEq, Repr

/-- The interface `jwt.Claims`, with the two implementations of the package. -/
inductive Claims where
  | MapClaims (m : List (String × Value))
  | RegisteredClaims
deriving DecidableEq, Repr

/-- The struct `jwt.Token`. -/
structure Token where
  Raw : String
  Method : Option SigningMethod
  Header : List (String × Value)
  Claims : Claims
  Signature : List Nat
  Valid : Bool
deriving DecidableEq, Repr

/-- The constructor `jwt.NewWithClaims(method, claims)`. -/
def NewWithClaims (method : SigningMethod) (claims : List (String × Value)) : Token :=
  { Raw := "", Method := some method,
    Header := [("typ", .string "JWT"), ("alg", .string method.Alg)],
    Claims := .MapClaims claims, Signature := [], Valid := false }

/-- The header `NewWithClaims` builds for `SigningMethodHS256`. -/
def hs256Header : List (String × Value) :=
  [("typ", .string "JWT"), ("alg", .string "HS256")]

/-- The method `Sign(signingString, key)` for a `[]byte` key: only the HMAC family
signs with such a key. -/
def SigningMethod.Sign (P : Primitives) (m : SigningMethod) (signingString : String)
    (key : List Nat) : Except Error (List Nat) :=
  match m with
  | .HMAC n => .ok (P.hmac n key signingString)
  | _ => .error .ErrInvalidKeyType

/-- The method `Verify(signingString, sig, key)` for a `[]byte` key: the HMAC family
recomputes the code and compares it with `hmac.Equal`. -/
def SigningMethod.Verify (P : Primitives) (m : SigningMethod) (signingString : String)
    (sig : List Nat) (key : List Nat) : Option Error :=
  match m with
  | .HMAC n => if sig = P.hmac n key signingString then none else some .ErrSignatureInvalid
  | _ => some .ErrInvalidKeyType

/-- The method `token.SigningString()`. -/
def Token.SigningString (P : Primitives) (t : Token) : String :=
  match t.Claims with
  | .MapClaims m =>
    P.EncodeSegment (P.jsonMarshal t.Header) ++ "." ++ P.EncodeSegment (P.jsonMarshal m)
  | .RegisteredClaims =>
    P.EncodeSegment (P.jsonMarshal t.Header) ++ "." ++ P.EncodeSegment (P.jsonMarshal [])

/-- The method `token.SignedString(key)`: the token string and the error. -/
def Token.SignedString (P : Primitives) (t : Token) (key : List Nat) : String × Option Error :=
  let sstr := t.SigningString P
  match t.Method with
  | none => ("", some .ErrInvalidKeyType)
  | some m =>
    match m.Sign P sstr key with
    | .error e => ("", some e)
    | .ok sig => (sstr ++ "." ++ P.EncodeSegment sig, none)

/-- The instant a `NumericDate` claim denotes, in nanoseconds since the Unix epoch, as
`newNumericDateFromSeconds` builds it: `math.Modf` splits the float64 into its integer
part `round` and its fraction `frac`, `time.Unix(int64(round), int64(frac*1e9))` makes
the time and `NewNumericDate` truncates it to the second. The conversion
`int64(round)` is `goInt`: beyond the int64 range it gives the least int64. The
nanosecond count `int64(frac*1e9)` is negative exactly when the float64 product is at
most `-1`, that is when the exact product is at most `-1 + 2^-54`; `time.Unix` then
takes one second off. `time.Time` keeps the seconds since year 1, the sum
`sec + unixToInternal` in 64-bit arithmetic, which wraps around; the truncation clears
the nanoseconds and keeps these seconds. The validator compares them with those of
the clock reading. -/
def numericDate (x : ℚ) : Int :=
  let round : Int := Int.tdiv x.num x.den
  let frac : ℚ := x - round
  let sec : Int := goInt x
  let sec : Int := if frac * 1000000000 ≤ -1 + 1 / 2 ^ 54 then goint.wrap (sec - 1) else sec
  (goint.wrap (sec + time.unixToInternal) - time.unixToInternal) * 1000000000

/-- The check of `exp` by the default validator: an absent or zero claim passes, a
claim that is not a number fails, a number passes while `now` is before it. -/
def verifyExpiresAt (claims : List (String × Value)) (now : Int) : Bool :=
  match gomap.get claims "exp" with
  | none => true
  | some (.float64 x) => if x = 0 then true else decide (now < numericDate x)
  | some _ => false

/-- The check of `nbf` by the default validator: an absent or zero claim passes, a
claim that is not a number fails, a number passes once `now` has reached it. -/
def verifyNotBefore (claims : List (String × Value)) (now : Int) : Bool :=
  match gomap.get claims "nbf" with
  | none => true
  | some (.float64 x) => if x = 0 then true else decide (numericDate x ≤ now)
  | some _ => false

/-- The default `Validator.Validate(claims)` at clock reading `now`: `exp` and `nbf`
are checked, `iat`, `aud`, `iss` and `sub` are not. -/
def Validate (claims : List (String × Value)) (now : Int) : Option Error :=
  if verifyExpiresAt claims now && verifyNotBefore claims now then none
  else some .ErrTokenInvalidClaims

/-- The method `Parser.ParseUnverified`: split the token, decode header and claims,
look the signing method up. Returns the token, the segments and the error. -/
def ParseUnverified (P : Primitives) (tokenString : String) :
    Option Token × List String × Option Error :=
  let parts := strings.Split tokenString '.'
  if parts.length ≠ 3 then (none, parts, some .ErrTokenMalformed)
  else
    let token : Token :=
      { Raw := tokenString, Method := none, Header := [], Claims := .MapClaims [],
        Signature := [], Valid := false }
    match P.DecodeSegment (parts.getD 0 "") with
    | none => (some token, parts, some .ErrTokenMalformed)
    | some headerBytes =>
      match P.jsonUnmarshal headerBytes with
      | none => (some token, parts, some .ErrTokenMalformed)
      | some header =>
        let token := { token with Header := header }
        match P.DecodeSegment (parts.getD 1 "") with
        | none => (some token, parts, some .ErrTokenMalformed)
        | some claimBytes =>
          match P.jsonUnmarshal claimBytes with
          | none => (some token, parts, some .ErrTokenMalformed)
          | some claims =>
            let token := { token with Claims := .MapClaims claims }
            match gomap.get header "alg" with
            | some (.string method) =>
              match GetSigningMethod method with
              | none => (some token, parts, some .ErrTokenUnverifiable)
              | some m => (some { token with Method := some m }, parts, none)
            | _ => (some token, parts, some .ErrTokenUnverifiable)

/-- The function `jwt.Parse(tokenString, keyFunc)` with the default parser, run at
clock reading `now`: parse, decode the signature, ask `keyFunc` for the key, verify
the signature, validate the claims. Returns the token and the error. -/
def Parse (P : Primitives) (now : Int) (tokenString : String)
    (keyFunc : Token → Except Error (List Nat)) : Option Token × Option Error :=
  match ParseUnverified P tokenString with
  | (token, _, some err) => (token, some err)
  | (none, _, none) => (none, some .ErrTokenMalformed)
  | (some token, parts, none) =>
    match P.DecodeSegment (parts.getD 2 "") with
    | none => (some token, some .ErrTokenMalformed)
    | some sig =>
      let token := { token with Signature := sig }
      let text := parts.getD 0 "" ++ "." ++ parts.getD 1 ""
      match keyFunc token with
      | .error _ => (some token, some .ErrTokenUnverifiable)
      | .ok key =>
        match token.Method with
        | none => (some token, some .ErrTokenUnverifiable)
        | some m =>
          match m.Verify P text sig key with
          | some _ => (some token, some .ErrTokenSignatureInvalid)
          | none =>
            match token.Claims with
            | .MapClaims claims =>
              match Validate claims now with
              | some _ => (some token, some .ErrTokenInvalidClaims)
              | none => (some { token with Valid := true }, none)
            | .RegisteredClaims => (some token, some .ErrTokenInvalidClaims)

end jwt

namespace gin

/-- A value stored under a key of the request context by `c.Set`. -/
inductive KeyValue where
  | int (n : Int)
  | string (s : String)
deriving DecidableEq, Repr

/-- What `c.JSON(status, gin.H ...)` writes: the status code and the fields of the body. -/
structure Response where
  status : Nat
  body : List (String × String)
deriving DecidableEq, Repr

/-- The part of `gin.Context` the guards touch: the request headers (one value per
header name), the `Keys` map, the response written so far, whether `c.Abort()` was
called (no later handler of the chain runs), and whether `c.Next()` was called (the
rest of the chain ran). -/
structure Context where
  Header : List (String × String)
  Keys : List (String × KeyValue)
  Writer : Option Response
  aborted : Bool
  forwarded : Bool
deriving DecidableEq, Repr

/-- A Go panic raised inside a handler, with the context as it was at that point. -/
structure Panic where
  message : String
  c : Context
deriving DecidableEq, Repr

/-- The call `c.GetHeader(key)`: the value of the header, or the empty string. -/
def Context.GetHeader (c : Context) (key : String) : String :=
  (gomap.get c.Header key).getD ""

/-- The call `c.Set(key, value)`. -/
def Context.Set (c : Context) (key : String) (value : KeyValue) : Context :=
  { c with Keys := gomap.set c.Keys key value }

/-- The call `c.Get(key)`. -/
def Context.Get (c : Context) (key : String) : Option KeyValue :=
  gomap.get c.Keys key

/-- The call `c.JSON(code, obj)`. -/
def Context.JSON (c : Context) (code : Nat) (obj : List (String × String)) : Context :=
  { c with Writer := some { status := code, body := obj } }

/-- The call `c.Abort()`. -/
def Context.Abort (c : Context) : Context :=
  { c with aborted := true }

/-- The call `c.Next()`. -/
def Context.Next (c : Context) : Context :=
  { c with forwarded := true }

/-- A request as it reaches a guard: the given headers, nothing stored, nothing
written, neither aborted nor forwarded. -/
def Context.request (header : List (String × String)) : Context :=
  { Header := header, Keys := [], Writer := none, aborted := false, forwarded := false }

end gin

namespace http

/-- The constant `http.StatusUnauthorized`. -/
def StatusUnauthorized : Nat := 401

end http

namespace time

/-- The constant `time.Hour`, in nanoseconds. -/
def Hour : Int := 3600 * 1000000000

/-- The method `t.Unix()`: whole seconds since the epoch. -/
def Unix (t : Int) : Int := t / 1000000000

end time

namespace handlers

/-- The function `generateToken` creates a new JWT token. `jwtSecret` is the package
variable of that name; `now1` and `now2` are the two readings of `time.Now()`, in the
order the body takes them. Returns the token string, `expiresIn` and the error. -/
def generateToken (P : jwt.Primitives) (jwtSecret : List Nat) (now1 now2 : Int)
    (userID : Int) (username : String) : String × Int × Option jwt.Error :=
  let expirationTime := now1 + 24 * time.Hour
  let expiresIn : Int := 24 * 60 * 60
  let claims : List (String × jwt.Value) :=
    [("user_id", .int userID),
     ("username", .string username),
     ("exp", .int64 (time.Unix expirationTime)),
     ("iat", .int64 (time.Unix now2))]
  let token := jwt.NewWithClaims jwt.SigningMethodHS256 claims
  let (tokenString, err) := token.SignedString P jwtSecret
  (tokenString, expiresIn, err)

/-- The claims map `generateToken` builds, on its own. -/
def issuedClaims (now1 now2 : Int) (userID : Int) (username : String) :
    List (String × jwt.Value) :=
  [("user_id", .int userID),
   ("username", .string username),
   ("exp", .int64 (time.Unix (now1 + 24 * time.Hour))),
   ("iat", .int64 (time.Unix now2))]

end handlers

namespace middleware

/-- The key function both guards pass to `jwt.Parse`: a token whose method is not of
the HMAC family gets `jwt.ErrSignatureInvalid`, any other token the secret. -/
def keyFunc (jwtSecret : List Nat) (token : jwt.Token) : Except jwt.Error (List Nat) :=
  match token.Method with
  | some (.HMAC _) => .ok jwtSecret
  | _ => .error .ErrSignatureInvalid

/-- The panic of a failed type assertion `v.(T)` on a claim. -/
def conversionPanic (v : Option jwt.Value) (want : String) (c : gin.Context) : gin.Panic :=
  { message := "interface conversion: interface \x7b\x7d is " ++ jwt.Value.typeName v
      ++ ", not " ++ want,
    c := c }

/-- The handler `AuthRequired()` returns: a middleware that requires JWT
authentication. `jwtSecret` is what `getJWTSecret()` returns, `now` the clock reading
inside `jwt.Parse`. -/
def AuthRequired (P : jwt.Primitives) (jwtSecret : List Nat) (now : Int) (c : gin.Context) :
    Except gin.Panic gin.Context :=
  let authHeader := c.GetHeader "Authorization"
  if authHeader = "" then
    .ok ((c.JSON http.StatusUnauthorized [("error", "Authorization header required")]).Abort)
  else
    let parts := strings.Split authHeader ' '
    if parts.length ≠ 2 ∨ parts.getD 0 "" ≠ "Bearer" then
      .ok ((c.JSON http.StatusUnauthorized
        [("error", "Invalid authorization header format")]).Abort)
    else
      let tokenString := parts.getD 1 ""
      match jwt.Parse P now tokenString (keyFunc jwtSecret) with
      | (_, some _) =>
        .ok ((c.JSON http.StatusUnauthorized [("error", "Invalid or expired token")]).Abort)
      | (none, none) =>
        .error { message := "invalid memory address or nil pointer dereference", c := c }
      | (some token, none) =>
        if !token.Valid then
          .ok ((c.JSON http.StatusUnauthorized [("error", "Invalid or expired token")]).Abort)
        else
          match token.Claims with
          | .RegisteredClaims =>
            .ok ((c.JSON http.StatusUnauthorized [("error", "Invalid token claims")]).Abort)
          | .MapClaims claims =>
            match gomap.get claims "user_id" with
            | some (.float64 f) =>
              let userID := jwt.goInt f
              match gomap.get claims "username" with
              | some (.string username) =>
                .ok (((c.Set "userID" (.int userID)).Set "username" (.string username)).Next)
              | v => .error (conversionPanic v "string" c)
            | v => .error (conversionPanic v "float64" c)

/-- The handler `OptionalAuth()` returns: a middleware that optionally validates JWT. -/
def OptionalAuth (P : jwt.Primitives) (jwtSecret : List Nat) (now : Int) (c : gin.Context) :
    Except gin.Panic gin.Context :=
  let authHeader := c.GetHeader "Authorization"
  if authHeader = "" then .ok c.Next
  else
    let parts := strings.Split authHeader ' '
    if parts.length ≠ 2 ∨ parts.getD 0 "" ≠ "Bearer" then .ok c.Next
    else
      let tokenString := parts.getD 1 ""
      match jwt.Parse P now tokenString (keyFunc jwtSecret) with
      | (some token, none) =>
        if token.Valid then
          match token.Claims with
          | .MapClaims claims =>
            match gomap.get claims "user_id" with
            | some (.float64 f) =>
              let c := c.Set "userID" (.int (jwt.goInt f))
              match gomap.get claims "username" with
              | some (.string username) => .ok (c.Set "username" (.string username)).Next
              | v => .error (conversionPanic v "string" c)
            | v => .error (conversionPanic v "float64" c)
          | .RegisteredClaims => .ok c.Next
        else .ok c.Next
      | (none, none) =>
        .error { message := "invalid memory address or nil pointer dereference", c := c }
      | (_, some _) => .ok c.Next

/-- The context after `AuthRequired` has turned a request away: the 401 response
with the given error message is written and the chain is aborted. -/
def rejected (c : gin.Context) (msg : String) : gin.Context :=
  (c.JSON http.StatusUnauthorized [("error", msg)]).Abort

end middleware

namespace reference

/-!
A small executable instance of `jwt.Primitives`, used to run the guards on concrete
requests. Its codec is not base64url over JSON text and its `hmac` is not a
cryptographic hash: it is a stand-in that satisfies `jwt.Primitives.Lawful`.
-/

/-- The decimal digits of a number, lowest first, as characters. -/
def encodeNat (n : Nat) : List Char :=
  (Nat.digits 10 n).map (fun d => Char.ofNat (d + 48))

/-- The number written by `encodeNat`. -/
def decodeNat (cs : List Char) : Nat :=
  Nat.ofDigits 10 (cs.map (fun c => c.toNat - 48))

/-- Every number of the list in digits, each closed by an underscore. -/
def encodeList : List Nat → List Char
  | [] => []
  | n :: ns => encodeNat n ++ '_' :: encodeList ns

/-- The stand-in for `base64.RawURLEncoding.EncodeToString`. -/
def EncodeSegment (b : List Nat) : String :=
  String.mk (encodeList b)

/-- The stand-in for `base64.RawURLEncoding.DecodeString`: fails on a character
outside the alphabet and on an unterminated last number. -/
def DecodeSegment (s : String) : Option (List Nat) :=
  if s.data.all (fun c => c.isDigit || c == '_') then
    match (strings.splitChars '_' s.data).reverse with
    | [] :: ps => some (ps.reverse.map decodeNat)
    | _ => none
  else none

/-- A string as its length followed by its character codes. -/
def encodeString (s : String) : List Nat :=
  s.data.length :: s.data.map Char.toNat

/-- Reads a string written by `encodeString` off the front of the input. -/
def decodeString : List Nat → Option (String × List Nat)
  | [] => none
  | len :: rest =>
    if len ≤ rest.length then
      some (String.mk ((rest.take len).map Char.ofNat), rest.drop len)
    else none

/-- An integer as a sign flag and its absolute value. -/
def encodeInt (n : Int) : List Nat :=
  [if n < 0 then 1 else 0, n.natAbs]

/-- Reads an integer written by `encodeInt` off the front of the input. -/
def decodeInt : List Nat → Option (Int × List Nat)
  | s :: a :: rest => some (if s = 0 then (a : Int) else -(a : Int), rest)
  | _ => none

/-- A value as a tag followed by its content; both Go integer types are written as
a number. -/
def encodeValue : jwt.Value → List Nat
  | .null => [0]
  | .bool b => [1, if b then 1 else 0]
  | .int n => 2 :: encodeInt n
  | .int64 n => 2 :: encodeInt n
  | .float64 x => 3 :: (encodeInt x.num ++ [x.den])
  | .string s => 4 :: encodeString s
  | .array => [5]
  | .object => [6]

/-- Reads a value off the front of the input; an integer number comes back as the
nearest float64. -/
def decodeValue : List Nat → Option (jwt.Value × List Nat)
  | 0 :: rest => some (.null, rest)
  | 1 :: b :: rest => some (.bool (b != 0), rest)
  | 2 :: rest =>
    match decodeInt rest with
    | some (n, r) => some (.float64 (jwt.roundFloat64 n), r)
    | none => none
  | 3 :: rest =>
    match decodeInt rest with
    | some (n, d :: r) => some (.float64 (mkRat n d), r)
    | _ => none
  | 4 :: rest =>
    match decodeString rest with
    | some (s, r) => some (.string s, r)
    | none => none
  | 5 :: rest => some (.array, rest)
  | 6 :: rest => some (.object, rest)
  | _ => none

/-- The entries of a map, key then value, one after the other. -/
def encodeEntries : List (String × jwt.Value) → List Nat
  | [] => []
  | (k, v) :: o => encodeString k ++ (encodeValue v ++ encodeEntries o)

/-- Reads `n` entries off the front of the input. -/
def decodeEntries : Nat → List Nat → Option (List (String × jwt.Value) × List Nat)
  | 0, rest => some ([], rest)
  | n + 1, input =>
    match decodeString input with
    | none => none
    | some (k, r1) =>
      match decodeValue r1 with
      | none => none
      | some (v, r2) =>
        match decodeEntries n r2 with
        | none => none
        | some (o, r3) => some ((k, v) :: o, r3)

/-- The stand-in for `json.Marshal` of a map: the number of entries, then the entries. -/
def jsonMarshal (o : List (String × jwt.Value)) : List Nat :=
  o.length :: encodeEntries o

/-- The stand-in for `json.Unmarshal` into a map: fails on input it cannot read to
the end. -/
def jsonUnmarshal : List Nat → Option (List (String × jwt.Value))
  | [] => none
  | n :: rest =>
    match decodeEntries n rest with
    | some (o, []) => some o
    | _ => none

/-- The stand-in for the HMAC: the key followed by the method name and the message. -/
def hmac (alg : String) (key : List Nat) (msg : String) : List Nat :=
  key ++ (alg.data ++ '.' :: msg.data).map Char.toNat

/-- The reference instance of the primitives. -/
def primitives : jwt.Primitives :=
  { hmac := hmac, EncodeSegment := EncodeSegment, DecodeSegment := DecodeSegment,
    jsonMarshal := jsonMarshal, jsonUnmarshal := jsonUnmarshal }

/-- The signing secret of the examples: the bytes of `"secret"`. -/
def secret : List Nat := [115, 101, 99, 114, 101, 116]

/-- A token string over claims of one's choice, signed with HS256 under `key`: what an
issuer holding the key produces with `NewWithClaims` and `SignedString`. -/
def signed (P : jwt.Primitives) (key : List Nat) (claims : List (String × jwt.Value)) : String :=
  ((jwt.NewWithClaims jwt.SigningMethodHS256 claims).SignedString P key).1

/-- A token signed under the secret for subject (7, alice) that expires at second 100
and is not valid before second 50. -/
def notYetValidToken : String :=
  signed primitives secret
    [("user_id", .int 7), ("username", .string "alice"), ("exp", .int64 100), ("nbf", .int64 50)]

/-- A token signed under the secret with an empty claims map. -/
def noClaimsToken : String :=
  signed primitives secret []

/-- A token signed under the secret that names a user id and no user name. -/
def noUsernameToken : String :=
  signed primitives secret [("user_id", .int 7)]

/-- The signing string of the token `generateToken` issues at time 0 for (7, alice). -/
def issuedSigningString : String :=
  (jwt.NewWithClaims jwt.SigningMethodHS256
    (handlers.issuedClaims 0 0 7 "alice")).SigningString primitives

/-- The signature of that token. -/
def issuedSignature : List Nat :=
  hmac "HS256" secret issuedSigningString

/-- That token with the first byte of its signature set to 0. -/
def tamperedToken : String :=
  issuedSigningString ++ "." ++ EncodeSegment (issuedSignature.set 0 0)

/-- The request that carries `value` in its `Authorization` header and nothing else. -/
def request (value : String) : gin.Context :=
  gin.Context.request [("Authorization", value)]

end reference

namespace spec

/-!
The wording of the specification, section 4.2, as predicates on a token string, to
be compared with what the guards compute.
-/

/-- The token carries a valid signature: it is three segments joined by dots, the
first two decode to a header and to `claims`, the header names an algorithm of the
HMAC family, and the third segment decodes to the HMAC of the first two under the
process-wide secret. -/
def SignatureValid (P : jwt.Primitives) (secret : List Nat) (tok : String)
    (claims : List (String × jwt.Value)) : Prop :=
  ∃ h p s : String, tok = h ++ "." ++ p ++ "." ++ s ∧
    '.' ∉ h.data ∧ '.' ∉ p.data ∧ '.' ∉ s.data ∧
    ∃ (hb cb : List Nat) (header : List (String × jwt.Value)) (alg : String),
      P.DecodeSegment h = some hb ∧ P.jsonUnmarshal hb = some header ∧
      P.DecodeSegment p = some cb ∧ P.jsonUnmarshal cb = some claims ∧
      gomap.get header "alg" = some (.string alg) ∧
      (alg = "HS256" ∨ alg = "HS384" ∨ alg = "HS512") ∧
      P.DecodeSegment s = some (P.hmac alg secret (h ++ "." ++ p))

/-- The token has not expired at clock reading `now`. -/
def Unexpired (claims : List (String × jwt.Value)) (now : Int) : Prop :=
  jwt.verifyExpiresAt claims now = true

/-- The token passes verification at clock reading `now`: valid signature, not
expired, and its not-before time, if it names one, has come. -/
def Verifies (P : jwt.Primitives) (secret : List Nat) (now : Int) (tok : String)
    (claims : List (String × jwt.Value)) : Prop :=
  SignatureValid P secret tok claims ∧ Unexpired claims now ∧
    jwt.verifyNotBefore claims now = true

/-- The header value is `Bearer <token>`: the word, one space, and a token without
a space. -/
def IsBearer (authHeader tok : String) : Prop :=
  authHeader = "Bearer " ++ tok ∧ ' ' ∉ tok.data

end spec

/-! ## The store invariant, the other cache keys -/

namespace gomap

/-- The keys of a Go map are distinct: no two entries of the list carry one key. -/
def Distinct {V : Type} (m : List (String × V)) : Prop :=
  (m.map Prod.fst).Nodup

instance Distinct.decidable {V : Type} (m : List (String × V)) : Decidable (Distinct m) :=
  inferInstanceAs (Decidable (m.map Prod.fst).Nodup)

end gomap

namespace cache

/-- The store is a Go map: its keys are distinct. -/
def InMemoryCache.WellFormed (c : InMemoryCache) : Prop :=
  gomap.Distinct c.items

instance InMemoryCache.WellFormed.decidable (c : InMemoryCache) : Decidable c.WellFormed :=
  inferInstanceAs (Decidable (gomap.Distinct c.items))

/-- Cache key constants. -/
def KeyCategories : String := "cache:categories"

/-- Cache key constants. -/
def KeyStats : String := "cache:stats"

/-- Cache key constants. -/
def KeyPrompts : String := "cache:prompts"

/-- TTL constants: `5 * time.Minute` in nanoseconds. -/
def TTLCategories : Int := 5 * 60 * 1000000000

/-- TTL constants: `1 * time.Minute` in nanoseconds. -/
def TTLStats : Int := 1 * 60 * 1000000000

/-- TTL constants: `2 * time.Minute` in nanoseconds. -/
def TTLPrompts : Int := 2 * 60 * 1000000000

/-- The operation is a read. -/
def Op.isGet {V : Type} : Op V → Bool
  | .Get _ => true
  | _ => false

end cache

/-! ## Expiry and algorithm family: the wording of the specification -/

namespace time

/-- The constant `time.Second`, in nanoseconds. -/
def Second : Int := 1000000000

end time

namespace reference

/-- An unsigned token: its header names the algorithm `none`, its claims are those of
subject (7, alice) without an expiry, and its signature segment is empty. -/
def unsignedToken : String :=
  EncodeSegment (jsonMarshal [("typ", .string "JWT"), ("alg", .string "none")]) ++ "." ++
    EncodeSegment (jsonMarshal [("user_id", .int 7), ("username", .string "alice")]) ++ "." ++
    EncodeSegment []

end reference

namespace spec

/-- The algorithm name is of the HMAC family. -/
def IsHMAC (alg : String) : Prop :=
  alg = "HS256" ∨ alg = "HS384" ∨ alg = "HS512"

instance IsHMAC.decidable (alg : String) : Decidable (IsHMAC alg) :=
  inferInstanceAs (Decidable (alg = "HS256" ∨ alg = "HS384" ∨ alg = "HS512"))

/-- The token's header names the signing algorithm `alg`: the token is three
segments joined by dots and the first decodes to a header whose `alg` field is that
string. Nothing is asked of the claims and signature segments. -/
def HeaderNames (P : jwt.Primitives) (tok alg : String) : Prop :=
  ∃ h p s : String, tok = h ++ "." ++ p ++ "." ++ s ∧
    '.' ∉ h.data ∧ '.' ∉ p.data ∧ '.' ∉ s.data ∧
    ∃ (hb : List Nat) (header : List (String × jwt.Value)),
      P.DecodeSegment h = some hb ∧ P.jsonUnmarshal hb = some header ∧
      gomap.get header "alg" = some (.string alg)

end spec

/-! ## The write handlers -/

namespace http

/-- The constant `http.StatusOK`. -/
def StatusOK : Nat := 200

/-- The constant `http.StatusCreated`. -/
def StatusCreated : Nat := 201

/-- The constant `http.StatusBadRequest`. -/
def StatusBadRequest : Nat := 400

/-- The constant `http.StatusNotFound`. -/
def StatusNotFound : Nat := 404

/-- The constant `http.StatusInternalServerError`. -/
def StatusInternalServerError : Nat := 500

end http

namespace models

/-- TagInput represents input for creating/updating a tag. -/
structure TagInput where
  Name : String
  Slug : String
  Description : String
deriving DecidableEq, Repr

/-- CategoryInput represents input for creating/updating a category. -/
structure CategoryInput where
  Name : String
  Slug : String
  Description : String
  Icon : String
  Color : String
  ParentID : Option Int
  DisplayOrder : Int
  IsActive : Option Bool
deriving DecidableEq, Repr

/-- PromptInput represents input for creating/updating a prompt. -/
structure PromptInput where
  CaseNumber : Int
  Title : String
  PromptText : String
  SourceURL : String
  AuthorID : Option Int
  CategoryID : Option Int
  Thumbnail : String
  IsHidden : Bool
  PromptCount : Int
  Tags : List String
  Images : List String
deriving DecidableEq, Repr

/-- BulkActionInput represents input for bulk operations. -/
structure BulkActionInput where
  IDs : List Int
  IsHidden : Option Bool
deriving DecidableEq, Repr

end models

namespace handlers

/-- What a handler writes with `c.JSON(code, gin.H ...)`: the status code and the
fields of the body. -/
structure Reply where
  status : Nat
  body : List (String × jwt.Value)

/-!
The write handlers. The database is not part of the model: each handler takes the
repository method it calls as a function that yields the method's results. `store`
is the process-wide cache behind `cache.GetCache()`, which `TagHandler` and
`CategoryHandler` hold in their `cache` field; every handler returns the store as it
leaves it, and the response. `bind` is what `c.ShouldBindJSON(&input)` yields.
-/

/-- The handler `TagHandler.Create` creates a new tag. -/
def TagHandler.Create (store : cache.InMemoryCache) (bind : Except String models.TagInput)
    (repoCreate : models.TagInput → Except String Int) : cache.InMemoryCache × Reply :=
  match bind with
  | .error err => (store, { status := http.StatusBadRequest, body := [("error", .string err)] })
  | .ok input =>
    match repoCreate input with
    | .error err =>
      (store, { status := http.StatusInternalServerError, body := [("error", .string err)] })
    | .ok tagID =>
      -- Invalidate cache
      let store := (store.Delete cache.KeyTags).1
      (store, { status := http.StatusCreated,
                body := [("id", .int64 tagID), ("name", .string input.Name),
                  ("message", .string "Tag created successfully")] })

/-- The handler `TagHandler.Update` updates an existing tag; `id` is `c.Param("id")`. -/
def TagHandler.Update (store : cache.InMemoryCache) (id : String)
    (bind : Except String models.TagInput)
    (repoUpdate : String → models.TagInput → Option String) : cache.InMemoryCache × Reply :=
  match bind with
  | .error err => (store, { status := http.StatusBadRequest, body := [("error", .string err)] })
  | .ok input =>
    match repoUpdate id input with
    | some err =>
      (store, { status := http.StatusInternalServerError, body := [("error", .string err)] })
    | none =>
      -- Invalidate cache
      let store := (store.Delete cache.KeyTags).1
      (store, { status := http.StatusOK,
                body := [("message", .string "Tag updated successfully")] })

/-- The handler `TagHandler.Delete` deletes a tag; `id` is `c.Param("id")`, and
`repoDelete` yields the number of rows affected. -/
def TagHandler.Delete (store : cache.InMemoryCache) (id : String)
    (repoDelete : String → Except String Int) : cache.InMemoryCache × Reply :=
  match repoDelete id with
  | .error err =>
    (store, { status := http.StatusInternalServerError, body := [("error", .string err)] })
  | .ok affected =>
    if affected = 0 then
      (store, { status := http.StatusNotFound, body := [("error", .string "Tag not found")] })
    else
      -- Invalidate cache
      let store := (store.Delete cache.KeyTags).1
      (store, { status := http.StatusOK,
                body := [("message", .string "Tag deleted successfully")] })

/-- The handler `CategoryHandler.Create` creates a new category. -/
def CategoryHandler.Create (store : cache.InMemoryCache)
    (bind : Except String models.CategoryInput)
    (repoCreate : models.CategoryInput → Except String Int) : cache.InMemoryCache × Reply :=
  match bind with
  | .error err => (store, { status := http.StatusBadRequest, body := [("error", .string err)] })
  | .ok input =>
    match repoCreate input with
    | .error err =>
      (store, { status := http.StatusInternalServerError, body := [("error", .string err)] })
    | .ok categoryID =>
      -- Invalidate cache
      let store := (store.Delete cache.KeyCategories).1
      (store, { status := http.StatusCreated,
                body := [("id", .int64 categoryID),
                  ("message", .string "Category created successfully")] })

/-- The handler `CategoryHandler.Update` updates an existing category; `id` is what
`strconv.Atoi(c.Param("id"))` yields. -/
def CategoryHandler.Update (store : cache.InMemoryCache) (id : Except String Int)
    (bind : Except String models.CategoryInput)
    (repoUpdate : Int → models.CategoryInput → Option String) : cache.InMemoryCache × Reply :=
  match id with
  | .error _ =>
    (store, { status := http.StatusBadRequest, body := [("error", .string "Invalid ID")] })
  | .ok id =>
    match bind with
    | .error err =>
      (store, { status := http.StatusBadRequest, body := [("error", .string err)] })
    | .ok input =>
      match repoUpdate id input with
      | some err =>
        (store, { status := http.StatusInternalServerError, body := [("error", .string err)] })
      | none =>
        -- Invalidate cache
        let store := (store.Delete cache.KeyCategories).1
        (store, { status := http.StatusOK,
                  body := [("message", .string "Category updated successfully")] })

/-- The handler `CategoryHandler.Delete` deletes a category; `id` is what
`strconv.Atoi(c.Param("id"))` yields. -/
def CategoryHandler.Delete (store : cache.InMemoryCache) (id : Except String Int)
    (repoDelete : Int → Option String) : cache.InMemoryCache × Reply :=
  match id with
  | .error _ =>
    (store, { status := http.StatusBadRequest, body := [("error", .string "Invalid ID")] })
  | .ok id =>
    match repoDelete id with
    | some err =>
      (store, { status := http.StatusInternalServerError, body := [("error", .string err)] })
    | none =>
      -- Invalidate cache
      let store := (store.Delete cache.KeyCategories).1
      (store, { status := http.StatusOK,
                body := [("message", .string "Category deleted successfully")] })

/-- The handler `PromptHandler.Create` creates a new prompt. `PromptHandler` has no
`cache` field: the body names the store nowhere, and the store comes back as it
went in. -/
def PromptHandler.Create (store : cache.InMemoryCache)
    (bind : Except String models.PromptInput)
    (repoCreate : models.PromptInput → Except String Int) : cache.InMemoryCache × Reply :=
  match bind with
  | .error err => (store, { status := http.StatusBadRequest, body := [("error", .string err)] })
  | .ok input =>
    match repoCreate input with
    | .error err =>
      (store, { status := http.StatusInternalServerError, body := [("error", .string err)] })
    | .ok promptID =>
      (store, { status := http.StatusCreated,
                body := [("id", .int64 promptID),
                  ("message", .string "Prompt created successfully")] })

/-- The handler `PromptHandler.Delete` deletes a prompt; `id` is `c.Param("id")`. -/
def PromptHandler.Delete (store : cache.InMemoryCache) (id : String)
    (repoDelete : String → Option String) : cache.InMemoryCache × Reply :=
  match repoDelete id with
  | some err =>
    (store, { status := http.StatusInternalServerError, body := [("error", .string err)] })
  | none =>
    (store, { status := http.StatusOK,
              body := [("message", .string "Prompt deleted successfully")] })

/-- The handler `PromptHandler.BulkDelete` deletes multiple prompts. -/
def PromptHandler.BulkDelete (store : cache.InMemoryCache)
    (bind : Except String models.BulkActionInput)
    (repoBulkDelete : List Int → Except String Int) : cache.InMemoryCache × Reply :=
  match bind with
  | .error err => (store, { status := http.StatusBadRequest, body := [("error", .string err)] })
  | .ok input =>
    if input.IDs.length = 0 then
      (store, { status := http.StatusBadRequest, body := [("error", .string "No IDs provided")] })
    else
      match repoBulkDelete input.IDs with
      | .error err =>
        (store, { status := http.StatusInternalServerError, body := [("error", .string err)] })
      | .ok affected =>
        (store, { status := http.StatusOK,
                  body := [("message", .string "Prompts deleted successfully"),
                    ("affected", .int64 affected)] })

end handlers

namespace reference

/-- A store that holds a statistics view and a tag list, both computed at time 0. -/
def warmStore : cache.InMemoryCache :=
  { items :=
      [(cache.KeyStats, { Value := [1], Expiration := 0 + cache.TTLStats }),
       (cache.KeyTags, { Value := [2], Expiration := 0 + cache.TTLTags })] }

/-- A tag to create. -/
def tagInput : models.TagInput :=
  { Name := "portrait", Slug := "", Description := "" }

/-- A prompt to create. -/
def promptInput : models.PromptInput :=
  { CaseNumber := 1, Title := "t", PromptText := "p", SourceURL := "", AuthorID := none,
    CategoryID := none, Thumbnail := "", IsHidden := false, PromptCount := 1, Tags := [],
    Images := [] }

end reference

/-! ## Slugs, the signing secret, the route table -/

namespace strings

/-- The call `strings.ToLower(s)`: every rune mapped by `unicode.ToLower`, which is the
parameter `toLower`. -/
def ToLower (toLower : Char → Char) (s : String) : String :=
  String.mk (s.data.map toLower)

/-- The call `strings.ReplaceAll(s, old, new)` for an `old` of one character. -/
def ReplaceAll (s : String) (old : Char) (new : String) : String :=
  String.mk (s.data.flatMap (fun c => if c = old then new.data else [c]))

end strings

namespace repository

/-- The test of the loop in `generateSlug`:
`(c >= 'a' && c <= 'z') || (c >= '0' && c <= '9') || c == '-'`. -/
def slugRune (c : Char) : Bool :=
  (decide ('a' ≤ c) && decide (c ≤ 'z')) || (decide ('0' ≤ c) && decide (c ≤ '9')) ||
    decide (c = '-')

/-- The function `generateSlug` creates a URL-friendly slug from a name. `toLower` is
`unicode.ToLower`. -/
def generateSlug (toLower : Char → Char) (name : String) : String :=
  let slug := strings.ToLower toLower name
  let slug := strings.ReplaceAll slug ' ' "-"
  -- Remove special characters (basic implementation)
  String.mk (slug.data.filter slugRune)

end repository

namespace os

/-- The call `os.Getenv(key)` in the environment `environ`: the value of the variable,
or the empty string when it is not set. -/
def Getenv (environ : List (String × String)) (key : String) : String :=
  (gomap.get environ key).getD ""

end os

namespace handlers

/-- The function `getJWTSecret`, run in the environment `environ`. -/
def getJWTSecret (environ : List (String × String)) : String :=
  let secret := os.Getenv environ "JWT_SECRET"
  if secret = "" then
    "mimirprompt-secret-key-change-in-production" -- Default for development
  else secret

/-- The package variable `jwtSecret = []byte(getJWTSecret())`, set when the process
starts: the UTF-8 bytes of the secret. -/
def jwtSecret (environ : List (String × String)) : List Nat :=
  ((getJWTSecret environ).data.flatMap String.utf8EncodeChar).map UInt8.toNat

/-- The function `GetJWTSecret` returns the JWT secret for middleware. -/
def GetJWTSecret (environ : List (String × String)) : List Nat :=
  jwtSecret environ

end handlers

namespace middleware

/-- The function `getJWTSecret` of the middleware gets the JWT secret from
`auth_handler`. -/
def getJWTSecret (environ : List (String × String)) : List Nat :=
  handlers.GetJWTSecret environ

end middleware

namespace gin

/-- The HTTP methods of the route table. -/
inductive Method where
  | GET
  | HEAD
  | POST
  | PUT
  | DELETE
deriving DecidableEq, Repr

/-- The handler functions that `SetupRouter` registers: the middleware of `gin.Default`
and of package `middleware`, the file server of `router.Static`, and the methods of the
handlers, by receiver and name. -/
inductive HandlerFunc where
  | Logger
  | Recovery
  | CORS
  | AuthRequired
  | static (root : String)
  | method (handler name : String)
deriving DecidableEq, Repr

/-- The name of the handler method behind a handler function, if it is one. -/
def HandlerFunc.methodName : HandlerFunc → Option String
  | .method _ name => some name
  | _ => none

/-- One entry of the route table: the method, the full path and the handler chain
that serves it, middleware first. -/
structure RouteInfo where
  Method : Method
  Path : String
  Handlers : List HandlerFunc
deriving DecidableEq, Repr

/-- A `gin.RouterGroup`: the path the group is mounted at and the middleware its
routes inherit. -/
structure RouterGroup where
  basePath : String
  Handlers : List HandlerFunc
deriving DecidableEq, Repr

/-- A `gin.Engine`: the root group and the routes registered so far. -/
structure Engine where
  RouterGroup : RouterGroup
  routes : List RouteInfo
deriving DecidableEq, Repr

/-- The function `joinPaths` on the paths `SetupRouter` uses: absolute, clean, without a
trailing slash. -/
def joinPaths (absolutePath relativePath : String) : String :=
  if relativePath = "" then absolutePath
  else if absolutePath = "/" then relativePath
  else absolutePath ++ relativePath

/-- The call `gin.Default()`: an engine with the Logger and Recovery middleware
attached. -/
def Default : Engine :=
  { RouterGroup := { basePath := "/", Handlers := [.Logger, .Recovery] }, routes := [] }

/-- The call `group.Use(middleware)`. -/
def RouterGroup.Use (group : RouterGroup) (middleware : HandlerFunc) : RouterGroup :=
  { group with Handlers := group.Handlers ++ [middleware] }

/-- The call `engine.Use(middleware)`. -/
def Engine.Use (engine : Engine) (middleware : HandlerFunc) : Engine :=
  { engine with RouterGroup := engine.RouterGroup.Use middleware }

/-- The call `group.Group(relativePath)`. -/
def RouterGroup.Group (group : RouterGroup) (relativePath : String) : RouterGroup :=
  { basePath := joinPaths group.basePath relativePath, Handlers := group.Handlers }

/-- The method `group.handle`: the route is added to the engine with the chain of the
group at this moment followed by the handler. -/
def RouterGroup.handle (group : RouterGroup) (engine : Engine) (httpMethod : Method)
    (relativePath : String) (handler : HandlerFunc) : Engine :=
  { engine with routes := engine.routes ++
      [{ Method := httpMethod, Path := joinPaths group.basePath relativePath,
         Handlers := group.Handlers ++ [handler] }] }

/-- The call `group.GET(relativePath, handler)`. -/
def RouterGroup.GET (group : RouterGroup) (engine : Engine) (relativePath : String)
    (handler : HandlerFunc) : Engine :=
  group.handle engine .GET relativePath handler

/-- The call `group.POST(relativePath, handler)`. -/
def RouterGroup.POST (group : RouterGroup) (engine : Engine) (relativePath : String)
    (handler : HandlerFunc) : Engine :=
  group.handle engine .POST relativePath handler

/-- The call `group.PUT(relativePath, handler)`. -/
def RouterGroup.PUT (group : RouterGroup) (engine : Engine) (relativePath : String)
    (handler : HandlerFunc) : Engine :=
  group.handle engine .PUT relativePath handler

/-- The call `group.DELETE(relativePath, handler)`. -/
def RouterGroup.DELETE (group : RouterGroup) (engine : Engine) (relativePath : String)
    (handler : HandlerFunc) : Engine :=
  group.handle engine .DELETE relativePath handler

/-- The call `engine.Static(relativePath, root)`: the file server under
`relativePath/*filepath`, for GET and for HEAD. -/
def Engine.Static (engine : Engine) (relativePath root : String) : Engine :=
  let urlPattern := joinPaths relativePath "/*filepath"
  let engine := engine.RouterGroup.GET engine urlPattern (.static root)
  engine.RouterGroup.handle engine .HEAD urlPattern (.static root)

end gin

namespace routes

/-- The function `SetupRouter` configures and returns the Gin router. The repositories
and handlers it builds appear in the table by the names of their methods. -/
def SetupRouter (imagesDir : String) : gin.Engine :=
  let router := gin.Default
  -- Apply global middleware
  let router := router.Use .CORS
  let router := router.Use .Recovery
  -- Serve static files for images
  let router := if imagesDir ≠ "" then router.Static "/images" imagesDir else router
  -- API routes
  let api := router.RouterGroup.Group "/api"
  -- Public routes (no auth required)
  let router := api.POST router "/auth/login" (.method "authHandler" "Login")
  let router := api.GET router "/prompts" (.method "promptHandler" "List")
  let router := api.GET router "/prompts/:id" (.method "promptHandler" "Get")
  let router := api.GET router "/tags" (.method "tagHandler" "List")
  let router := api.GET router "/tags/:id" (.method "tagHandler" "Get")
  let router := api.GET router "/tags/slug/:slug/prompts" (.method "promptHandler" "ListByTag")
  let router := api.GET router "/authors" (.method "authorHandler" "List")
  let router := api.GET router "/authors/:id" (.method "authorHandler" "Get")
  let router := api.GET router "/categories" (.method "categoryHandler" "List")
  let router := api.GET router "/categories/:id" (.method "categoryHandler" "Get")
  let router := api.GET router "/stats" (.method "tagHandler" "GetStats")
  let router := api.GET router "/search" (.method "promptHandler" "Search")
  -- Protected routes (auth required)
  let protectedGroup := api.Group ""
  let protectedGroup := protectedGroup.Use .AuthRequired
  let router := protectedGroup.GET router "/auth/profile" (.method "authHandler" "GetProfile")
  let router := protectedGroup.PUT router "/auth/password" (.method "authHandler" "ChangePassword")
  let router := protectedGroup.POST router "/upload" (.method "uploadHandler" "UploadImage")
  let router := protectedGroup.POST router "/prompts" (.method "promptHandler" "Create")
  let router := protectedGroup.PUT router "/prompts/:id" (.method "promptHandler" "Update")
  let router := protectedGroup.DELETE router "/prompts/:id" (.method "promptHandler" "Delete")
  let router := protectedGroup.POST router "/prompts/bulk-delete"
    (.method "promptHandler" "BulkDelete")
  let router := protectedGroup.POST router "/prompts/bulk-visibility"
    (.method "promptHandler" "BulkUpdateVisibility")
  let router := protectedGroup.POST router "/tags" (.method "tagHandler" "Create")
  let router := protectedGroup.PUT router "/tags/:id" (.method "tagHandler" "Update")
  let router := protectedGroup.DELETE router "/tags/:id" (.method "tagHandler" "Delete")
  let router := protectedGroup.POST router "/authors" (.method "authorHandler" "Create")
  let router := protectedGroup.PUT router "/authors/:id" (.method "authorHandler" "Update")
  let router := protectedGroup.DELETE router "/authors/:id" (.method "authorHandler" "Delete")
  let router := protectedGroup.POST router "/categories" (.method "categoryHandler" "Create")
  let router := protectedGroup.PUT router "/categories/:id" (.method "categoryHandler" "Update")
  let router := protectedGroup.DELETE router "/categories/:id" (.method "categoryHandler" "Delete")
  let router := protectedGroup.GET router "/audit-logs" (.method "auditHandler" "List")
  let router := protectedGroup.GET router "/audit-logs/:entity_type/:entity_id"
    (.method "auditHandler" "GetByEntity")
  router

/-- The route is served behind the `AuthRequired` guard: the guard stands in the chain
before the handler, which is the last of the chain. -/
def Guarded (r : gin.RouteInfo) : Prop :=
  gin.HandlerFunc.AuthRequired ∈ r.Handlers.dropLast

instance Guarded.decidable (r : gin.RouteInfo) : Decidable (Guarded r) :=
  inferInstanceAs (Decidable (gin.HandlerFunc.AuthRequired ∈ r.Handlers.dropLast))

/-- The route is the login route, `POST /api/auth/login`. -/
def IsLogin (r : gin.RouteInfo) : Prop :=
  r.Method = .POST ∧ r.Path = "/api/auth/login"

instance IsLogin.decidable (r : gin.RouteInfo) : Decidable (IsLogin r) :=
  inferInstanceAs (Decidable (r.Method = .POST ∧ r.Path = "/api/auth/login"))

/-- The path of the route starts with the given characters. -/
def Under (pfx : String) (r : gin.RouteInfo) : Prop :=
  pfx.data <+: r.Path.data

instance Under.decidable (pfx : String) (r : gin.RouteInfo) : Decidable (Under pfx r) :=
  inferInstanceAs (Decidable (pfx.data <+: r.Path.data))

/-- The chain of the route calls the handler method `name` of some handler. -/
def Dispatches (name : String) (r : gin.RouteInfo) : Prop :=
  ∃ f ∈ r.Handlers, f.methodName = some name

instance Dispatches.decidable (name : String) (r : gin.RouteInfo) :
    Decidable (Dispatches name r) :=
  inferInstanceAs (Decidable (∃ f ∈ r.Handlers, f.methodName = some name))

end routes

/-! ## The read handlers -/

/-- A Go slice `[]T`, or the entries of a Go map, as a list. -/
abbrev Slice (T : Type) : Type := List T

namespace strconv

/-- The errors `strconv.Atoi` wraps in a `*NumError`. -/
inductive NumError where
  | ErrSyntax
  | ErrRange
deriving DecidableEq, Repr

/-- The number a sequence of decimal digits writes; `none` for the empty sequence and
for a sequence with another character. -/
def digits (cs : List Char) : Option Nat :=
  if cs = [] then none
  else if cs.all Char.isDigit then some (cs.foldl (fun n c => n * 10 + (c.toNat - 48)) 0)
  else none

/-- The function `strconv.Atoi`: an optional sign and decimal digits. On a syntax
error the value is 0; on a number outside the `int` range it is the nearest bound. -/
def Atoi (s : String) : Int × Option NumError :=
  let (neg, ds) : Bool × List Char :=
    match s.data with
    | '-' :: rest => (true, rest)
    | '+' :: rest => (false, rest)
    | cs => (false, cs)
  match digits ds with
  | none => (0, some .ErrSyntax)
  | some n =>
    let v : Int := if neg then -(n : Int) else (n : Int)
    if v > 9223372036854775807 then (9223372036854775807, some .ErrRange)
    else if v < -9223372036854775808 then (-9223372036854775808, some .ErrRange)
    else (v, none)

end strconv

namespace gin

/-- The call `c.Query(key)` on the query string of the request, given as a map: the
value of the key, or the empty string. -/
def Query (query : List (String × String)) (key : String) : String :=
  (gomap.get query key).getD ""

/-- The call `c.DefaultQuery(key, defaultValue)`: the value of the key if the key
exists, the default otherwise. -/
def DefaultQuery (query : List (String × String)) (key defaultValue : String) : String :=
  (gomap.get query key).getD defaultValue

end gin

namespace repository

/-- The first line of the `List`, `Search` and `ListByTag` methods of the
repositories, `offset := (page - 1) * perPage`, handed to the query as `OFFSET`. -/
def offset (page perPage : Int) : Int :=
  goint.mul (goint.sub page 1) perPage

end repository

namespace models

/-- Tag represents a prompt category/tag. -/
structure Tag where
  ID : Int
  Name : String
  Slug : String
  Description : String
  PromptCount : Int
deriving DecidableEq, Repr

/-- Category represents a prompt category for organization; the two times are in
nanoseconds. -/
structure Category where
  ID : Int
  Name : String
  Slug : String
  Description : String
  Icon : String
  Color : String
  ParentID : Option Int
  DisplayOrder : Int
  PromptCount : Int
  IsActive : Bool
  CreatedAt : Int
  UpdatedAt : Int
deriving DecidableEq, Repr

/-- Stats represents database statistics. -/
structure Stats where
  TotalPrompts : Int
  TotalTags : Int
  TotalImages : Int
  TotalCategories : Int
deriving DecidableEq, Repr

/-- PaginatedResponse represents a paginated API response; `Data` is an
`interface` value in the source, here of a type the caller fixes. -/
structure PaginatedResponse (D : Type) where
  Data : D
  Page : Int
  PerPage : Int
  Total : Int
  TotalPages : Int
deriving DecidableEq, Repr

end models

namespace handlers

/-- The value a read handler hands to `c.JSON`: a `gin.H` or map of plain fields, a
`gin.H` with the single field `data`, a value written as it is, or a page (a
`models.PaginatedResponse`, or the `gin.H` with the same five fields that
`AuditHandler.List` writes). -/
inductive Body (T : Type) where
  | H (fields : Slice (String × jwt.Value))
  | data (v : T)
  | json (v : T)
  | page (p : models.PaginatedResponse T)
deriving DecidableEq, Repr

/-- What a read handler writes with `c.JSON(code, obj)`. -/
structure JSONReply (T : Type) where
  status : Nat
  body : Body T
deriving DecidableEq, Repr

/-!
The cached read handlers. `store` is the process-wide cache, `now1` and `now2` are
the clock readings inside `Get` and inside `Set`, `unmarshal` is `json.Unmarshal` into
the variable the handler declares, `marshal` is `json.Marshal` inside `Set`, and the
repository result is what the repository method yields when it is called. Each
handler returns the store as it leaves it, and the response.
-/

/-- The handler `TagHandler.List` returns all tags (with caching). -/
def TagHandler.List (store : cache.InMemoryCache) (now1 now2 : Int)
    (unmarshal : Slice Nat → Option (Slice models.Tag))
    (marshal : Slice models.Tag → Except String (Slice Nat))
    (repoList : Except String (Slice models.Tag)) :
    cache.InMemoryCache × JSONReply (Slice models.Tag) :=
  -- Try to get from cache
  let hit : Option (Slice models.Tag) :=
    match store.Get now1 cache.KeyTags with
    | .ok cached => unmarshal cached
    | .error _ => none
  match hit with
  | some tags => (store, { status := http.StatusOK, body := .data tags })
  | none =>
    -- Cache miss - fetch from DB
    match repoList with
    | .error err =>
      (store, { status := http.StatusInternalServerError, body := .H [("error", .string err)] })
    | .ok tags =>
      -- Store in cache
      let store := (store.Set marshal now2 cache.KeyTags tags cache.TTLTags).1
      (store, { status := http.StatusOK, body := .data tags })

/-- The handler `TagHandler.GetStats` returns database statistics (with caching). On a
hit the cached bytes are read into a `map[string]interface` and written as that. -/
def TagHandler.GetStats (store : cache.InMemoryCache) (now1 now2 : Int)
    (unmarshal : Slice Nat → Option (Slice (String × jwt.Value)))
    (marshal : models.Stats → Except String (Slice Nat))
    (repoGetStats : Except String models.Stats) :
    cache.InMemoryCache × JSONReply models.Stats :=
  -- Try to get from cache
  let hit : Option (Slice (String × jwt.Value)) :=
    match store.Get now1 cache.KeyStats with
    | .ok cached => unmarshal cached
    | .error _ => none
  match hit with
  | some stats => (store, { status := http.StatusOK, body := .H stats })
  | none =>
    -- Cache miss - fetch from DB
    match repoGetStats with
    | .error err =>
      (store, { status := http.StatusInternalServerError, body := .H [("error", .string err)] })
    | .ok stats =>
      -- Store in cache
      let store := (store.Set marshal now2 cache.KeyStats stats cache.TTLStats).1
      (store, { status := http.StatusOK, body := .json stats })

/-- The handler `CategoryHandler.List` returns all categories (with caching). -/
def CategoryHandler.List (store : cache.InMemoryCache) (now1 now2 : Int)
    (unmarshal : Slice Nat → Option (Slice models.Category))
    (marshal : Slice models.Category → Except String (Slice Nat))
    (repoList : Except String (Slice models.Category)) :
    cache.InMemoryCache × JSONReply (Slice models.Category) :=
  -- Try to get from cache
  let hit : Option (Slice models.Category) :=
    match store.Get now1 cache.KeyCategories with
    | .ok cached => unmarshal cached
    | .error _ => none
  match hit with
  | some categories => (store, { status := http.StatusOK, body := .json categories })
  | none =>
    -- Cache miss - fetch from DB
    match repoList with
    | .error err =>
      (store, { status := http.StatusInternalServerError, body := .H [("error", .string err)] })
    | .ok categories =>
      -- Store in cache
      let store := (store.Set marshal now2 cache.KeyCategories categories cache.TTLCategories).1
      (store, { status := http.StatusOK, body := .json categories })

/-!
The paginated read handlers. `query` is the query string of the request as a map;
the repository method is a function of the arguments the handler calls it with,
yielding the rows, of a type `D` the model leaves open, and the total. The result is
the response, or the message of a run-time panic.
-/

/-- The handler `PromptHandler.List` returns a paginated list of prompts. -/
def PromptHandler.List {D : Type} (query : Slice (String × String))
    (repoList : Int → Int → Bool → Except String (D × Int)) :
    Except String (JSONReply D) :=
  let page := (strconv.Atoi (gin.DefaultQuery query "page" "1")).1
  let perPage := (strconv.Atoi (gin.DefaultQuery query "per_page" "20")).1
  let showHidden := decide (gin.Query query "show_hidden" = "true")
  let page := if page < 1 then 1 else page
  let perPage := if perPage < 1 ∨ perPage > 100 then 20 else perPage
  match repoList page perPage showHidden with
  | .error err =>
    .ok { status := http.StatusInternalServerError, body := .H [("error", .string err)] }
  | .ok (prompts, total) =>
    match goint.div (goint.sub (goint.add total perPage) 1) perPage with
    | .error p => .error p
    | .ok totalPages =>
      .ok { status := http.StatusOK,
            body := .page { Data := prompts, Page := page, PerPage := perPage, Total := total,
                            TotalPages := totalPages } }

/-- The handler `PromptHandler.Search` searches prompts by query. -/
def PromptHandler.Search {D : Type} (query : Slice (String × String))
    (repoSearch : String → Int → Int → Except String (D × Int)) :
    Except String (JSONReply D) :=
  let q := gin.Query query "q"
  if q = "" then
    .ok { status := http.StatusBadRequest,
          body := .H [("error", .string "Search query is required")] }
  else
    let page := (strconv.Atoi (gin.DefaultQuery query "page" "1")).1
    let perPage := (strconv.Atoi (gin.DefaultQuery query "per_page" "20")).1
    match repoSearch q page perPage with
    | .error err =>
      .ok { status := http.StatusInternalServerError, body := .H [("error", .string err)] }
    | .ok (prompts, total) =>
      match goint.div (goint.sub (goint.add total perPage) 1) perPage with
      | .error p => .error p
      | .ok totalPages =>
        .ok { status := http.StatusOK,
              body := .page { Data := prompts, Page := page, PerPage := perPage,
                              Total := total, TotalPages := totalPages } }

/-- The handler `PromptHandler.ListByTag` returns prompts filtered by tag; `slug` is
`c.Param("slug")`. -/
def PromptHandler.ListByTag {D : Type} (slug : String) (query : Slice (String × String))
    (repoListByTag : String → Int → Int → Except String (D × Int)) :
    Except String (JSONReply D) :=
  let page := (strconv.Atoi (gin.DefaultQuery query "page" "1")).1
  let perPage := (strconv.Atoi (gin.DefaultQuery query "per_page" "20")).1
  match repoListByTag slug page perPage with
  | .error err =>
    .ok { status := http.StatusInternalServerError, body := .H [("error", .string err)] }
  | .ok (prompts, total) =>
    match goint.div (goint.sub (goint.add total perPage) 1) perPage with
    | .error p => .error p
    | .ok totalPages =>
      .ok { status := http.StatusOK,
            body := .page { Data := prompts, Page := page, PerPage := perPage, Total := total,
                            TotalPages := totalPages } }

/-- The handler `AuditHandler.List` returns a paginated list of audit logs. -/
def AuditHandler.List {D : Type} (query : Slice (String × String))
    (repoList : Int → Int → String → String → Except String (D × Int)) :
    Except String (JSONReply D) :=
  let page := (strconv.Atoi (gin.DefaultQuery query "page" "1")).1
  let perPage := (strconv.Atoi (gin.DefaultQuery query "per_page" "20")).1
  let entityType := gin.Query query "entity_type"
  let action := gin.Query query "action"
  let page := if page < 1 then 1 else page
  let perPage := if perPage < 1 ∨ perPage > 100 then 20 else perPage
  match repoList page perPage entityType action with
  | .error err =>
    .ok { status := http.StatusInternalServerError, body := .H [("error", .string err)] }
  | .ok (logs, total) =>
    match goint.div (goint.sub (goint.add total perPage) 1) perPage with
    | .error p => .error p
    | .ok totalPages =>
      .ok { status := http.StatusOK,
            body := .page { Data := logs, Page := page, PerPage := perPage, Total := total,
                            TotalPages := totalPages } }

/-- The handler `AuthorHandler.List` returns all authors: the matches of the search
when a search query is provided, a page otherwise. -/
def AuthorHandler.List {D : Type} (query : Slice (String × String))
    (repoSearch : String → Except String D)
    (repoList : Int → Int → Except String (D × Int)) :
    Except String (JSONReply D) :=
  let page := (strconv.Atoi (gin.DefaultQuery query "page" "1")).1
  let perPage := (strconv.Atoi (gin.DefaultQuery query "per_page" "50")).1
  let search := gin.Query query "search"
  let page := if page < 1 then 1 else page
  let perPage := if perPage < 1 ∨ perPage > 100 then 50 else perPage
  -- If search query provided
  if search ≠ "" then
    match repoSearch search with
    | .error err =>
      .ok { status := http.StatusInternalServerError, body := .H [("error", .string err)] }
    | .ok authors => .ok { status := http.StatusOK, body := .json authors }
  else
    match repoList page perPage with
    | .error err =>
      .ok { status := http.StatusInternalServerError, body := .H [("error", .string err)] }
    | .ok (authors, total) =>
      match goint.div (goint.sub (goint.add total perPage) 1) perPage with
      | .error p => .error p
      | .ok totalPages =>
        .ok { status := http.StatusOK,
              body := .page { Data := authors, Page := page, PerPage := perPage,
                              Total := total, TotalPages := totalPages } }

end handlers

namespace spec

/-- The number `n` is the ceiling of `total / perPage`: the least `n ≥ 0` with
`n · perPage ≥ total`. -/
def IsCeilDiv (total perPage n : Int) : Prop :=
  0 ≤ n ∧ total ≤ n * perPage ∧ ∀ m, 0 ≤ m → total ≤ m * perPage → n ≤ m

/-- The page a `List` handler is said to use: values below 1 become 1. -/
def pageUsed (page : Int) : Int :=
  if page < 1 then 1 else page

/-- The page size a `List` handler is said to use: values outside `[1, 100]` become
the default. -/
def perPageUsed (dflt perPage : Int) : Int :=
  if 1 ≤ perPage ∧ perPage ≤ 100 then perPage else dflt

end spec

namespace spec

/-- The `page` parameter of the request as a number: what `strconv.Atoi` makes of it,
the error dropped. -/
def pageInput (query : List (String × String)) : Int :=
  (strconv.Atoi (gin.DefaultQuery query "page" "1")).1

/-- The `per_page` parameter of the request as a number, with the default the handler
names for a request without it. -/
def perPageInput (query : List (String × String)) (dflt : String) : Int :=
  (strconv.Atoi (gin.DefaultQuery query "per_page" dflt)).1

end spec

/-! ## Concurrent writers -/

namespace cache

/-!
Two flows that run `Set` on one store. A flow moves in the steps of the body of
`Set`: `c.mu.Lock()`, `json.Marshal(value)`, the assignment `c.items[key] = ...` with
its reading of the clock, and the deferred `c.mu.Unlock()`. A flow that asks for the
lock while the other holds it waits: its step changes nothing.
-/

/-- Where a flow stands in the body of `Set`. -/
inductive SetPC where
  | start
  | locked
  | marshalled (data : List Nat)
  | leaving (err : Option String)
  | returned (err : Option String)
deriving DecidableEq, Repr

/-- A flow that runs `Set(key, value, ttl)`. -/
structure SetFlow (V : Type) where
  key : String
  value : V
  ttl : Int
  pc : SetPC

/-- The two flows. -/
inductive Who where
  | a
  | b
deriving DecidableEq, Repr

/-- The store, its mutex `mu` (held or free) and the two flows. -/
structure Race (V : Type) where
  store : InMemoryCache
  mu : Bool
  a : SetFlow V
  b : SetFlow V

/-- One step of a flow at clock reading `now`, on the store and the mutex as they
are: the store, the mutex and the flow after the step. -/
def SetFlow.step {V : Type} (marshal : V → Except String (List Nat)) (now : Int)
    (store : InMemoryCache) (mu : Bool) (f : SetFlow V) : InMemoryCache × Bool × SetFlow V :=
  match f.pc with
  | .start => if mu then (store, mu, f) else (store, true, { f with pc := .locked })
  | .locked =>
    match marshal f.value with
    | .error err =>
      (store, mu, { f with pc := .leaving (some ("failed to marshal value: " ++ err)) })
    | .ok data => (store, mu, { f with pc := .marshalled data })
  | .marshalled data =>
    ({ items := gomap.set store.items f.key { Value := data, Expiration := now + f.ttl } },
      mu, { f with pc := .leaving none })
  | .leaving err => (store, false, { f with pc := .returned err })
  | .returned _ => (store, mu, f)

/-- One step of the flow the scheduler picks. -/
def Race.step {V : Type} (marshal : V → Except String (List Nat)) (r : Race V) (now : Int)
    (who : Who) : Race V :=
  match who with
  | .a =>
    let next := r.a.step marshal now r.store r.mu
    { r with store := next.1, mu := next.2.1, a := next.2.2 }
  | .b =>
    let next := r.b.step marshal now r.store r.mu
    { r with store := next.1, mu := next.2.1, b := next.2.2 }

/-- The run of a schedule: which flow moves, and what the clock reads when it does. -/
def Race.run {V : Type} (marshal : V → Except String (List Nat)) (r : Race V) :
    List (Int × Who) → Race V
  | [] => r
  | (now, who) :: rest => (r.step marshal now who).run marshal rest

/-- Two flows about to run `Set(k, v1, ttl)` and `Set(k, v2, ttl)` on store `c`. -/
def Race.init {V : Type} (c : InMemoryCache) (k : String) (v1 v2 : V) (ttl : Int) : Race V :=
  { store := c, mu := false,
    a := { key := k, value := v1, ttl := ttl, pc := .start },
    b := { key := k, value := v2, ttl := ttl, pc := .start } }

/-- The flow holds the lock. -/
def SetPC.holdsLock : SetPC → Bool
  | .locked => true
  | .marshalled _ => true
  | .leaving _ => true
  | _ => false

/-- The flow has made its assignment. -/
def SetPC.written : SetPC → Bool
  | .leaving none => true
  | .returned none => true
  | _ => false

/-- The flow has returned. -/
def SetPC.isReturned : SetPC → Bool
  | .returned _ => true
  | _ => false

/-- The places of a flow whose value marshals to `data`. -/
def SetPC.Sound (data : List Nat) (pc : SetPC) : Prop :=
  pc = .start ∨ pc = .locked ∨ pc = .marshalled data ∨ pc = .leaving none ∨ pc = .returned none

/-- What holds of every state of the race between `Set(k, v1, ttl)` and
`Set(k, v2, ttl)` on store `c`, for values that marshal to `d1` and `d2`: the flows
keep their arguments and stand at sound places, the mutex is held exactly while one
flow is between `Lock` and `Unlock`, never by both, and the store is `c` after the
assignments made so far, in the order they were made. -/
structure Race.Inv {V : Type} (marshal : V → Except String (List Nat)) (c : InMemoryCache)
    (k : String) (v1 v2 : V) (ttl : Int) (d1 d2 : List Nat) (r : Race V) : Prop where
  akey : r.a.key = k
  avalue : r.a.value = v1
  attl : r.a.ttl = ttl
  bkey : r.b.key = k
  bvalue : r.b.value = v2
  bttl : r.b.ttl = ttl
  asound : r.a.pc.Sound d1
  bsound : r.b.pc.Sound d2
  mutex : r.mu = (r.a.pc.holdsLock || r.b.pc.holdsLock)
  excl : ¬ (r.a.pc.holdsLock = true ∧ r.b.pc.holdsLock = true)
  none_written : r.a.pc.written = false → r.b.pc.written = false → r.store = c
  a_written : r.a.pc.written = true → r.b.pc.written = false →
    ∃ t, r.store = (c.Set marshal t k v1 ttl).1
  b_written : r.a.pc.written = false → r.b.pc.written = true →
    ∃ t, r.store = (c.Set marshal t k v2 ttl).1
  both_written : r.a.pc.written = true → r.b.pc.written = true →
    ∃ ta tb, r.store = ((c.Set marshal ta k v1 ttl).1.Set marshal tb k v2 ttl).1 ∨
      r.store = ((c.Set marshal ta k v2 ttl).1.Set marshal tb k v1 ttl).1

end cache

/-! # Properties -/

/-! ## Lemmas on Go maps -/

namespace gomap

theorem get_cons_self {V : Type} (m : List (String × V)) (key : String) (v : V) :
    get ((key, v) :: m) key = some v := by
  simp [get]

theorem get_cons_ne {V : Type} (m : List (String × V)) (k key : String) (v : V)
    (h : k ≠ key) : get ((k, v) :: m) key = get m key := by
  simp [get, h]

theorem delete_cons_self {V : Type} (m : List (String × V)) (key : String) (v : V) :
    delete ((key, v) :: m) key = delete m key := by
  simp [delete]

theorem delete_cons_ne {V : Type} (m : List (String × V)) (k key : String) (v : V)
    (h : k ≠ key) : delete ((k, v) :: m) key = (k, v) :: delete m key := by
  simp [delete, h]

theorem get_delete_self {V : Type} (m : List (String × V)) (key : String) :
    get (delete m key) key = none := by
  induction m with
  | nil => rfl
  | cons kv rest ih =>
    obtain ⟨k, v⟩ := kv
    by_cases h : k = key
    · subst h
      rw [delete_cons_self]
      exact ih
    · rw [delete_cons_ne _ _ _ _ h, get_cons_ne _ _ _ _ h]
      exact ih

theorem get_delete_ne {V : Type} (m : List (String × V)) (key k1 : String) (hne : k1 ≠ key) :
    get (delete m key) k1 = get m k1 := by
  induction m with
  | nil => rfl
  | cons kv rest ih =>
    obtain ⟨k, v⟩ := kv
    by_cases h : k = key
    · subst h
      rw [delete_cons_self, get_cons_ne _ _ _ _ (Ne.symm hne)]
      exact ih
    · rw [delete_cons_ne _ _ _ _ h]
      by_cases hk : k = k1
      · subst hk
        rw [get_cons_self, get_cons_self]
      · rw [get_cons_ne _ _ _ _ hk, get_cons_ne _ _ _ _ hk]
        exact ih

theorem get_set_self {V : Type} (m : List (String × V)) (key : String) (v : V) :
    get (set m key v) key = some v := by
  simp [set, get]

theorem get_set_ne {V : Type} (m : List (String × V)) (key k1 : String) (v : V)
    (hne : k1 ≠ key) : get (set m key v) k1 = get m k1 := by
  rw [set, get_cons_ne _ _ _ _ (Ne.symm hne), get_delete_ne m key k1 hne]

theorem not_mem_of_get_eq_none {V : Type} (m : List (String × V)) (key : String)
    (h : get m key = none) (v : V) : (key, v) ∉ m := by
  induction m with
  | nil => simp
  | cons kv rest ih =>
    obtain ⟨k, w⟩ := kv
    by_cases hk : k = key
    · subst hk
      rw [get_cons_self] at h
      cases h
    · rw [get_cons_ne _ _ _ _ hk] at h
      intro hmem
      rcases List.mem_cons.mp hmem with e | e
      · exact hk (by cases e; rfl)
      · exact ih h e

/-- A loop that walks over entries and deletes the keys of those that satisfy `p`
leaves the binding of a key as it was when no walked entry with that key satisfies
`p`. -/
theorem get_foldl_delete_of_all {V : Type} (p : String × V → Prop) [DecidablePred p]
    (xs m : List (String × V)) (key : String) (h : ∀ kv ∈ xs, p kv → kv.1 ≠ key) :
    get (xs.foldl (fun m kv => if p kv then delete m kv.1 else m) m) key = get m key := by
  induction xs generalizing m with
  | nil => rfl
  | cons x rest ih =>
    rw [List.foldl_cons, ih _ (fun kv hkv => h kv (List.mem_cons_of_mem _ hkv))]
    by_cases hp : p x
    · rw [if_pos hp, get_delete_ne _ _ _ (Ne.symm (h x (List.mem_cons_self _ _) hp))]
    · rw [if_neg hp]

/-- Such a loop never rebinds a key: it unbinds it or leaves its binding as it was. -/
theorem get_foldl_delete_cases {V : Type} (p : String × V → Prop) [DecidablePred p]
    (xs m : List (String × V)) (key : String) :
    get (xs.foldl (fun m kv => if p kv then delete m kv.1 else m) m) key = none ∨
    get (xs.foldl (fun m kv => if p kv then delete m kv.1 else m) m) key = get m key := by
  induction xs generalizing m with
  | nil => exact Or.inr rfl
  | cons x rest ih =>
    rw [List.foldl_cons]
    rcases ih (if p x then delete m x.1 else m) with h | h
    · exact Or.inl h
    · rw [h]
      by_cases hp : p x
      · rw [if_pos hp]
        by_cases hk : x.1 = key
        · rw [hk, get_delete_self]
          exact Or.inl rfl
        · rw [get_delete_ne _ _ _ (Ne.symm hk)]
          exact Or.inr rfl
      · rw [if_neg hp]
        exact Or.inr rfl

/-- Such a loop unbinds a key that a walked entry satisfying `p` carries. -/
theorem get_foldl_delete_of_mem {V : Type} (p : String × V → Prop) [DecidablePred p]
    (xs m : List (String × V)) (key : String) (h : ∃ kv ∈ xs, p kv ∧ kv.1 = key) :
    get (xs.foldl (fun m kv => if p kv then delete m kv.1 else m) m) key = none := by
  induction xs generalizing m with
  | nil =>
    obtain ⟨kv, hkv, _⟩ := h
    cases hkv
  | cons x rest ih =>
    rw [List.foldl_cons]
    obtain ⟨kv, hkv, hp, hk⟩ := h
    rcases List.mem_cons.mp hkv with e | e
    · subst e
      rw [if_pos hp, hk]
      rcases get_foldl_delete_cases p rest (delete m key) key with h1 | h1
      · exact h1
      · rw [h1, get_delete_self]
    · exact ih _ ⟨kv, e, hp, hk⟩

/-- A key that no entry carries is unbound. -/
theorem get_eq_none_of_all {V : Type} (m : List (String × V)) (key : String)
    (h : ∀ kv ∈ m, kv.1 ≠ key) : get m key = none := by
  induction m with
  | nil => rfl
  | cons kv rest ih =>
    obtain ⟨k, v⟩ := kv
    have hk : k ≠ key := h (k, v) (List.mem_cons_self _ _)
    rw [get_cons_ne _ _ _ _ hk]
    exact ih (fun kv hkv => h kv (List.mem_cons_of_mem _ hkv))

/-- A key bound in a map occurs among its entries. -/
theorem mem_of_get_eq_some {V : Type} (m : List (String × V)) (key : String) (v : V)
    (h : get m key = some v) : (key, v) ∈ m := by
  induction m with
  | nil => cases h
  | cons kv rest ih =>
    obtain ⟨k, w⟩ := kv
    by_cases hk : k = key
    · subst hk
      rw [get_cons_self] at h
      cases h
      exact List.mem_cons_self _ _
    · rw [get_cons_ne _ _ _ _ hk] at h
      exact List.mem_cons_of_mem _ (ih h)

end gomap

/-! ## The cache service -/

namespace cache

/-- The loop condition of `DeleteByPrefix` holds exactly of the keys that start with
the given characters. -/
theorem hasPrefix_iff (key pfx : String) :
    hasPrefix key pfx = true ↔ pfx.data <+: key.data := by
  unfold hasPrefix
  rw [Bool.and_eq_true, decide_eq_true_eq, decide_eq_true_eq]
  constructor
  · rintro ⟨_, h⟩
    exact List.prefix_iff_eq_take.mpr h.symm
  · intro h
    exact ⟨h.length_le, (List.prefix_iff_eq_take.mp h).symm⟩

/-- The binding of a key after `DeleteByPrefix`. -/
theorem get_DeleteByPrefix (c : InMemoryCache) (pfx key : String) :
    gomap.get (c.DeleteByPrefix pfx).1.items key =
      if hasPrefix key pfx then none else gomap.get c.items key := by
  show gomap.get (c.items.foldl
    (fun m kv => if hasPrefix kv.1 pfx = true then gomap.delete m kv.1 else m) c.items) key = _
  by_cases hp : hasPrefix key pfx = true
  · rw [if_pos hp]
    cases hg : gomap.get c.items key with
    | none =>
      rcases gomap.get_foldl_delete_cases (fun kv => hasPrefix kv.1 pfx = true)
        c.items c.items key with h | h
      · exact h
      · rw [h, hg]
    | some item =>
      exact gomap.get_foldl_delete_of_mem (fun kv => hasPrefix kv.1 pfx = true) _ _ _
        ⟨(key, item), gomap.mem_of_get_eq_some _ _ _ hg, hp, rfl⟩
  · rw [if_neg hp]
    apply gomap.get_foldl_delete_of_all (fun kv => hasPrefix kv.1 pfx = true)
    intro kv _ hkv hk
    exact hp (hk ▸ hkv)

/-- One sweep never rebinds a key: it unbinds it or leaves its binding as it was. -/
theorem get_cleanup (c : InMemoryCache) (now : Int) (key : String) :
    gomap.get (c.cleanup now).items key = none ∨
      gomap.get (c.cleanup now).items key = gomap.get c.items key :=
  gomap.get_foldl_delete_cases (fun kv : String × CacheItem => kv.2.Expiration < now)
    c.items c.items key

/-- The read of a key is decided by the binding of the key alone. -/
theorem Get_congr (c1 c2 : InMemoryCache) (now : Int) (key : String)
    (h : gomap.get c1.items key = gomap.get c2.items key) : c1.Get now key = c2.Get now key := by
  unfold InMemoryCache.Get
  rw [h]

/-- The read of an unbound key fails with `key not found`. -/
theorem Get_of_get_none (c : InMemoryCache) (now : Int) (key : String)
    (h : gomap.get c.items key = none) : c.Get now key = .error ("key not found: " ++ key) := by
  unfold InMemoryCache.Get
  rw [h]

/-- An operation that does not assign `key` unbinds it or leaves its binding as it
was. -/
theorem get_step {V : Type} (marshal : V → Except String (List Nat)) (c : InMemoryCache)
    (now : Int) (op : Op V) (key : String) (h : Op.setsKey key op = false) :
    gomap.get (c.step marshal now op).items key = none ∨
      gomap.get (c.step marshal now op).items key = gomap.get c.items key := by
  cases op with
  | Get k => exact Or.inr rfl
  | Set k value ttl =>
    have hk : key ≠ k := by
      intro e
      simp [Op.setsKey, e] at h
    right
    show gomap.get (c.Set marshal now k value ttl).1.items key = _
    unfold InMemoryCache.Set
    cases marshal value with
    | error err => rfl
    | ok data => exact gomap.get_set_ne _ _ _ _ hk
  | Delete k =>
    show gomap.get (gomap.delete c.items k) key = none ∨
      gomap.get (gomap.delete c.items k) key = gomap.get c.items key
    by_cases hk : key = k
    · rw [hk, gomap.get_delete_self]
      exact Or.inl rfl
    · rw [gomap.get_delete_ne _ _ _ hk]
      exact Or.inr rfl
  | DeleteByPrefix pfx =>
    show gomap.get (c.DeleteByPrefix pfx).1.items key = none ∨
      gomap.get (c.DeleteByPrefix pfx).1.items key = gomap.get c.items key
    rw [get_DeleteByPrefix]
    split
    · exact Or.inl rfl
    · exact Or.inr rfl
  | cleanup => exact get_cleanup c now key

/-- Along a run that never assigns `key`, every entry bound to `key` at the end was
bound to it at the start. -/
theorem get_run {V : Type} (marshal : V → Except String (List Nat)) (key : String)
    (trace : List (Int × Op V)) (c : InMemoryCache)
    (h : ∀ op ∈ trace, Op.setsKey key op.2 = false) :
    gomap.get (c.run marshal trace).items key = none ∨
      gomap.get (c.run marshal trace).items key = gomap.get c.items key := by
  induction trace generalizing c with
  | nil => exact Or.inr rfl
  | cons x rest ih =>
    obtain ⟨now, op⟩ := x
    show gomap.get ((c.step marshal now op).run marshal rest).items key = none ∨
      gomap.get ((c.step marshal now op).run marshal rest).items key = _
    rcases ih (c.step marshal now op) (fun o ho => h o (List.mem_cons_of_mem _ ho)) with h1 | h1
    · exact Or.inl h1
    · rw [h1]
      exact get_step marshal c now op key (h (now, op) (List.mem_cons_self _ _))

end cache

/-! ## Lemmas on `strings.Split` -/

namespace strings

theorem splitChars_ne_nil (sep : Char) (cs : List Char) : splitChars sep cs ≠ [] := by
  cases cs with
  | nil => simp [splitChars]
  | cons c cs =>
    rw [splitChars]
    cases h : splitChars sep cs with
    | nil => simp
    | cons p ps =>
      by_cases hc : c = sep
      · simp [hc]
      · simp [hc]

theorem splitChars_cons_sep (sep : Char) (cs : List Char) :
    splitChars sep (sep :: cs) = [] :: splitChars sep cs := by
  rw [splitChars]
  cases h : splitChars sep cs with
  | nil => exact absurd h (splitChars_ne_nil sep cs)
  | cons p ps => simp

theorem splitChars_cons_ne (sep c : Char) (cs p : List Char) (ps : List (List Char))
    (hc : c ≠ sep) (h : splitChars sep cs = p :: ps) :
    splitChars sep (c :: cs) = (c :: p) :: ps := by
  rw [splitChars, h]
  simp [hc]

/-- A sequence without the separator is one piece. -/
theorem splitChars_of_not_mem (sep : Char) (a : List Char) (h : sep ∉ a) :
    splitChars sep a = [a] := by
  induction a with
  | nil => rfl
  | cons c cs ih =>
    have hc : c ≠ sep := fun e => h (e ▸ List.mem_cons_self _ _)
    have hcs : sep ∉ cs := fun e => h (List.mem_cons_of_mem _ e)
    exact splitChars_cons_ne sep c cs cs [] hc (ih hcs)

/-- The first separator ends the first piece. -/
theorem splitChars_append (sep : Char) (a rest : List Char) (h : sep ∉ a) :
    splitChars sep (a ++ sep :: rest) = a :: splitChars sep rest := by
  induction a with
  | nil => exact splitChars_cons_sep sep rest
  | cons c cs ih =>
    have hc : c ≠ sep := fun e => h (e ▸ List.mem_cons_self _ _)
    have hcs : sep ∉ cs := fun e => h (List.mem_cons_of_mem _ e)
    exact splitChars_cons_ne sep c _ cs _ hc (ih hcs)

/-- The header `Bearer <token>` with a token free of spaces splits into the word
and the token. -/
theorem Split_bearer (tok : String) (h : ' ' ∉ tok.data) :
    Split ("Bearer " ++ tok) ' ' = ["Bearer", tok] := by
  unfold Split
  have hd : ("Bearer " ++ tok).data = "Bearer".data ++ ' ' :: tok.data := by
    rw [String.data_append]
    rfl
  rw [hd, splitChars_append ' ' _ _ (by decide), splitChars_of_not_mem ' ' _ h]
  rfl

/-- Three pieces free of dots, joined by dots, split into the three pieces. -/
theorem Split_three (a b s : String) (ha : '.' ∉ a.data) (hb : '.' ∉ b.data)
    (hs : '.' ∉ s.data) : Split (a ++ "." ++ b ++ "." ++ s) '.' = [a, b, s] := by
  unfold Split
  have hd : (a ++ "." ++ b ++ "." ++ s).data = a.data ++ '.' :: (b.data ++ '.' :: s.data) := by
    simp [String.data_append]
  rw [hd, splitChars_append '.' _ _ ha, splitChars_append '.' _ _ hb,
    splitChars_of_not_mem '.' _ hs]
  rfl

/-- The pieces of a split joined again with the separator. -/
theorem splitChars_spec (sep : Char) (cs : List Char) :
    (∀ p ∈ splitChars sep cs, sep ∉ p) ∧
      List.intercalate [sep] (splitChars sep cs) = cs := by
  induction cs with
  | nil =>
    constructor
    · intro p hp
      simp [splitChars] at hp
      simp [hp]
    · rfl
  | cons c cs ih =>
    obtain ⟨ih1, ih2⟩ := ih
    cases hs : splitChars sep cs with
    | nil => exact absurd hs (splitChars_ne_nil sep cs)
    | cons p ps =>
      rw [hs] at ih1 ih2
      by_cases hc : c = sep
      · subst hc
        rw [splitChars_cons_sep, hs]
        constructor
        · intro q hq
          rcases List.mem_cons.mp hq with e | e
          · simp [e]
          · exact ih1 q e
        · rw [← ih2]
          simp [List.intercalate, List.intersperse]
      · rw [splitChars_cons_ne sep c cs p ps hc hs]
        constructor
        · intro q hq
          rcases List.mem_cons.mp hq with e | e
          · subst e
            intro hmem
            rcases List.mem_cons.mp hmem with e1 | e1
            · exact hc e1.symm
            · exact ih1 p (List.mem_cons_self _ _) e1
          · exact ih1 q (List.mem_cons_of_mem _ e)
        · rw [← ih2]
          cases ps with
          | nil => simp [List.intercalate, List.intersperse]
          | cons q qs => simp [List.intercalate, List.intersperse]

/-- A header that splits into two pieces is the two pieces around one space. -/
theorem eq_of_Split_two (s a b : String) (sep : Char) (h : Split s sep = [a, b]) :
    s = a ++ String.mk [sep] ++ b ∧ sep ∉ a.data ∧ sep ∉ b.data := by
  unfold Split at h
  obtain ⟨h1, h2⟩ := splitChars_spec sep s.data
  cases hs : splitChars sep s.data with
  | nil => rw [hs] at h; cases h
  | cons p ps =>
    cases ps with
    | nil => rw [hs] at h; simp at h
    | cons q qs =>
      cases qs with
      | cons r rs => rw [hs] at h; simp at h
      | nil =>
        rw [hs] at h h1 h2
        simp only [List.map_cons, List.map_nil, List.cons.injEq, and_true] at h
        obtain ⟨ha, hb⟩ := h
        subst ha hb
        refine ⟨?_, h1 p (by simp), h1 q (by simp)⟩
        apply String.ext
        rw [← h2]
        simp [String.data_append, List.intercalate, List.intersperse]

/-- A token that splits into three pieces is the three pieces around two dots. -/
theorem eq_of_Split_three (s a b d : String) (sep : Char) (h : Split s sep = [a, b, d]) :
    s = a ++ String.mk [sep] ++ b ++ String.mk [sep] ++ d ∧
      sep ∉ a.data ∧ sep ∉ b.data ∧ sep ∉ d.data := by
  unfold Split at h
  obtain ⟨h1, h2⟩ := splitChars_spec sep s.data
  cases hs : splitChars sep s.data with
  | nil => rw [hs] at h; cases h
  | cons p ps =>
    cases ps with
    | nil => rw [hs] at h; simp at h
    | cons q qs =>
      cases qs with
      | nil => rw [hs] at h; simp at h
      | cons r rs =>
        cases rs with
        | cons u us => rw [hs] at h; simp at h
        | nil =>
          rw [hs] at h h1 h2
          simp only [List.map_cons, List.map_nil, List.cons.injEq, and_true] at h
          obtain ⟨ha, hb, hd⟩ := h
          subst ha hb hd
          refine ⟨?_, h1 p (by simp), h1 q (by simp), h1 r (by simp)⟩
          apply String.ext
          rw [← h2]
          simp [String.data_append, List.intercalate, List.intersperse]

/-- The last separator of a sequence is where it is. -/
theorem append_sep_inj (sep : Char) (a b x y : List Char) (hx : sep ∉ x) (hy : sep ∉ y)
    (h : a ++ sep :: x = b ++ sep :: y) : a = b ∧ x = y := by
  induction a generalizing b with
  | nil =>
    cases b with
    | nil =>
      simp only [List.nil_append, List.cons.injEq, true_and] at h
      exact ⟨rfl, h⟩
    | cons d b1 =>
      simp only [List.nil_append, List.cons_append, List.cons.injEq] at h
      exact absurd (h.2 ▸ List.mem_append_right b1 (List.mem_cons_self sep y)) hx
  | cons c a1 ih =>
    cases b with
    | nil =>
      simp only [List.nil_append, List.cons_append, List.cons.injEq] at h
      exact absurd (h.2 ▸ List.mem_append_right a1 (List.mem_cons_self sep x)) hy
    | cons d b1 =>
      simp only [List.cons_append, List.cons.injEq] at h
      obtain ⟨h1, h2⟩ := ih b1 h.2
      exact ⟨by rw [h.1, h1], h2⟩

/-- Two token strings that end in a dot and a dot-free segment agree on both parts. -/
theorem append_dot_inj (a b x y : String) (hx : '.' ∉ x.data) (hy : '.' ∉ y.data)
    (h : a ++ "." ++ x = b ++ "." ++ y) : a = b ∧ x = y := by
  have hd := congrArg String.data h
  simp only [String.data_append] at hd
  have hd1 : a.data ++ '.' :: x.data = b.data ++ '.' :: y.data := by
    simpa using hd
  obtain ⟨h1, h2⟩ := append_sep_inj '.' _ _ _ _ hx hy hd1
  exact ⟨String.ext h1, String.ext h2⟩

end strings

/-! ## The reference primitives are lawful -/

namespace reference

theorem digit_char (d : Nat) (h : d < 10) :
    (Char.ofNat (d + 48)).toNat - 48 = d ∧ (Char.ofNat (d + 48)).isDigit = true ∧
      Char.ofNat (d + 48) ≠ '_' ∧ Char.ofNat (d + 48) ≠ '.' ∧ Char.ofNat (d + 48) ≠ ' ' := by
  interval_cases d <;> decide

theorem decodeNat_encodeNat (n : Nat) : decodeNat (encodeNat n) = n := by
  unfold decodeNat encodeNat
  rw [List.map_map]
  have h : (Nat.digits 10 n).map ((fun c : Char => c.toNat - 48) ∘ fun d => Char.ofNat (d + 48))
      = Nat.digits 10 n := by
    conv_rhs => rw [← List.map_id (Nat.digits 10 n)]
    apply List.map_congr_left
    intro d hd
    exact (digit_char d (Nat.digits_lt_base (by norm_num) hd)).1
  rw [h, Nat.ofDigits_digits]

theorem mem_encodeNat (n : Nat) (c : Char) (h : c ∈ encodeNat n) :
    c.isDigit = true ∧ c ≠ '_' ∧ c ≠ '.' ∧ c ≠ ' ' := by
  unfold encodeNat at h
  obtain ⟨d, hd, rfl⟩ := List.mem_map.mp h
  exact (digit_char d (Nat.digits_lt_base (by norm_num) hd)).2

theorem mem_encodeList (b : List Nat) (c : Char) (h : c ∈ encodeList b) :
    (c.isDigit = true ∨ c = '_') ∧ c ≠ '.' ∧ c ≠ ' ' := by
  induction b with
  | nil => cases h
  | cons n ns ih =>
    unfold encodeList at h
    rcases List.mem_append.mp h with h1 | h1
    · have := mem_encodeNat n c h1
      exact ⟨Or.inl this.1, this.2.2⟩
    · rcases List.mem_cons.mp h1 with h2 | h2
      · subst h2
        exact ⟨Or.inr rfl, by decide, by decide⟩
      · exact ih h2

theorem splitChars_encodeList (b : List Nat) :
    strings.splitChars '_' (encodeList b) = b.map encodeNat ++ [[]] := by
  induction b with
  | nil => rfl
  | cons n ns ih =>
    unfold encodeList
    rw [strings.splitChars_append '_' _ _ (fun h => (mem_encodeNat n '_' h).2.1 rfl), ih]
    rfl

theorem DecodeSegment_EncodeSegment (b : List Nat) :
    DecodeSegment (EncodeSegment b) = some b := by
  unfold DecodeSegment EncodeSegment
  have hall : (encodeList b).all (fun c => c.isDigit || c == '_') = true := by
    rw [List.all_eq_true]
    intro c hc
    rcases (mem_encodeList b c hc).1 with h | h
    · simp [h]
    · simp [h]
  simp only [hall, if_true, splitChars_encodeList, List.reverse_append, List.reverse_cons,
    List.reverse_nil, List.nil_append, List.singleton_append, List.reverse_reverse,
    List.map_map]
  congr 1
  conv_rhs => rw [← List.map_id b]
  apply List.map_congr_left
  intro n _
  exact decodeNat_encodeNat n

theorem decodeString_encodeString (s : String) (rest : List Nat) :
    decodeString (encodeString s ++ rest) = some (s, rest) := by
  unfold encodeString
  show decodeString (s.data.length :: (s.data.map Char.toNat ++ rest)) = _
  rw [decodeString]
  have hlen : s.data.length ≤ (s.data.map Char.toNat ++ rest).length := by simp
  rw [if_pos hlen]
  have ht : (s.data.map Char.toNat ++ rest).take s.data.length = s.data.map Char.toNat := by
    rw [List.take_append_of_le_length (by simp), List.take_of_length_le (by simp)]
  have hd : (s.data.map Char.toNat ++ rest).drop s.data.length = rest := by
    rw [List.drop_append_of_le_length (by simp), List.drop_of_length_le (by simp)]
    rfl
  rw [ht, hd, List.map_map]
  have hid : s.data.map (Char.ofNat ∘ Char.toNat) = s.data := by
    conv_rhs => rw [← List.map_id s.data]
    apply List.map_congr_left
    intro c _
    exact Char.ofNat_toNat c
  rw [hid]

theorem decodeInt_encodeInt (n : Int) (rest : List Nat) :
    decodeInt (encodeInt n ++ rest) = some (n, rest) := by
  unfold encodeInt
  show decodeInt ((if n < 0 then 1 else 0) :: n.natAbs :: rest) = _
  rw [decodeInt]
  by_cases h : n < 0
  · have e : -((n.natAbs : Nat) : Int) = n := by omega
    rw [if_pos h, if_neg (by decide), e]
  · have e : ((n.natAbs : Nat) : Int) = n := by omega
    rw [if_neg h, if_pos rfl, e]

theorem decodeValue_encodeValue (v : jwt.Value) (rest : List Nat) :
    decodeValue (encodeValue v ++ rest) = some (v.viaJSON, rest) := by
  cases v with
  | null => rfl
  | bool b => cases b <;> rfl
  | int n =>
    show decodeValue (2 :: (encodeInt n ++ rest)) = _
    rw [decodeValue, decodeInt_encodeInt]
    rfl
  | int64 n =>
    show decodeValue (2 :: (encodeInt n ++ rest)) = _
    rw [decodeValue, decodeInt_encodeInt]
    rfl
  | float64 x =>
    show decodeValue (3 :: (encodeInt x.num ++ (x.den :: rest))) = _
    rw [decodeValue, decodeInt_encodeInt]
    simp only [Rat.mkRat_self]
    rfl
  | string s =>
    show decodeValue (4 :: (encodeString s ++ rest)) = _
    rw [decodeValue, decodeString_encodeString]
    rfl
  | array => rfl
  | object => rfl

theorem decodeEntries_encodeEntries (o : List (String × jwt.Value)) (rest : List Nat) :
    decodeEntries o.length (encodeEntries o ++ rest) =
      some (o.map (fun kv => (kv.1, kv.2.viaJSON)), rest) := by
  induction o with
  | nil => rfl
  | cons kv o ih =>
    obtain ⟨k, v⟩ := kv
    show decodeEntries (o.length + 1)
      ((encodeString k ++ (encodeValue v ++ encodeEntries o)) ++ rest) = _
    rw [decodeEntries, List.append_assoc, decodeString_encodeString]
    simp only
    rw [List.append_assoc, decodeValue_encodeValue]
    simp only
    rw [ih]
    rfl

theorem jsonUnmarshal_jsonMarshal (o : List (String × jwt.Value)) :
    jsonUnmarshal (jsonMarshal o) = some (o.map (fun kv => (kv.1, kv.2.viaJSON))) := by
  have h := decodeEntries_encodeEntries o []
  rw [List.append_nil] at h
  rw [jsonMarshal, jsonUnmarshal, h]

end reference

namespace gomap

/-- Lookup in a map whose values went through `f`. -/
theorem get_map {V W : Type} (f : V → W) (m : List (String × V)) (key : String) :
    get (m.map (fun kv => (kv.1, f kv.2))) key = (get m key).map f := by
  induction m with
  | nil => rfl
  | cons kv rest ih =>
    obtain ⟨k, v⟩ := kv
    by_cases hk : k = key
    · subst hk
      rw [List.map_cons, get_cons_self, get_cons_self]
      rfl
    · rw [List.map_cons, get_cons_ne _ _ _ _ hk, get_cons_ne _ _ _ _ hk]
      exact ih

end gomap

namespace reference

/-- The reference primitives satisfy the laws. -/
theorem primitives_lawful : primitives.Lawful where
  decode_encode := DecodeSegment_EncodeSegment
  alphabet := fun b c h => (mem_encodeList b c h).2
  unmarshal_marshal := fun o =>
    ⟨_, jsonUnmarshal_jsonMarshal o, fun k => gomap.get_map jwt.Value.viaJSON o k⟩

end reference

namespace gin

theorem Get_Set_self (c : Context) (key : String) (v : KeyValue) :
    (c.Set key v).Get key = some v :=
  gomap.get_set_self _ _ _

theorem Get_Set_ne (c : Context) (key k1 : String) (v : KeyValue) (h : k1 ≠ key) :
    (c.Set key v).Get k1 = c.Get k1 :=
  gomap.get_set_ne _ _ _ _ h

end gin

/-! ## The parser against the declarative reading of verification -/

namespace jwt

theorem GetSigningMethod_hmac (alg : String)
    (h : alg = "HS256" ∨ alg = "HS384" ∨ alg = "HS512") :
    GetSigningMethod alg = some (.HMAC alg) := by
  unfold GetSigningMethod
  rw [if_pos h]

theorem GetSigningMethod_eq_hmac (alg n : String) (h : GetSigningMethod alg = some (.HMAC n)) :
    n = alg ∧ (alg = "HS256" ∨ alg = "HS384" ∨ alg = "HS512") := by
  unfold GetSigningMethod at h
  split at h
  · rename_i h1
    simp only [Option.some.injEq, SigningMethod.HMAC.injEq] at h
    exact ⟨h.symm, h1⟩
  · repeat' split at h
    all_goals simp at h

/-- A token that passes verification is parsed without error into a valid token
with the same claims. -/
theorem Parse_of_Verifies (P : Primitives) (secret : List Nat) (now : Int) (tok : String)
    (claims : List (String × Value)) (h : spec.Verifies P secret now tok claims) :
    ∃ t, Parse P now tok (middleware.keyFunc secret) = (some t, none) ∧ t.Valid = true ∧
      t.Claims = .MapClaims claims := by
  obtain ⟨⟨a, p, s, rfl, ha, hp, hs, hb, cb, header, alg, h1, h2, h3, h4, h5, h6, h7⟩, he, hn⟩ := h
  have he1 : verifyExpiresAt claims now = true := he
  have hparse : Parse P now (a ++ "." ++ p ++ "." ++ s) (middleware.keyFunc secret) =
      (some { Raw := a ++ "." ++ p ++ "." ++ s, Method := some (.HMAC alg), Header := header,
              Claims := .MapClaims claims, Signature := P.hmac alg secret (a ++ "." ++ p),
              Valid := true }, none) := by
    simp only [Parse, ParseUnverified, strings.Split_three a p s ha hp hs]
    simp [h1, h2, h3, h4, h5, GetSigningMethod_hmac alg h6, h7, middleware.keyFunc,
      SigningMethod.Verify, Validate, he1, hn]
  exact ⟨_, hparse, rfl, rfl⟩

/-- What an error-free `ParseUnverified` has established. -/
theorem ParseUnverified_ok (P : Primitives) (tok : String) (t : Option Token)
    (parts : List String) (h : ParseUnverified P tok = (t, parts, none)) :
    ∃ a p s hb cb header claims alg m,
      strings.Split tok '.' = [a, p, s] ∧ parts = [a, p, s] ∧
      P.DecodeSegment a = some hb ∧ P.jsonUnmarshal hb = some header ∧
      P.DecodeSegment p = some cb ∧ P.jsonUnmarshal cb = some claims ∧
      gomap.get header "alg" = some (.string alg) ∧ GetSigningMethod alg = some m ∧
      t = some { Raw := tok, Method := some m, Header := header, Claims := .MapClaims claims,
                 Signature := [], Valid := false } := by
  unfold ParseUnverified at h
  simp only at h
  split at h
  · simp at h
  · rename_i hlen
    have hlen3 : (strings.Split tok '.').length = 3 := by
      by_contra hc
      exact hlen hc
    obtain ⟨a, p, s, hsplit⟩ : ∃ a p s, strings.Split tok '.' = [a, p, s] := by
      match hs : strings.Split tok '.' , hlen3 with
      | [a, p, s], _ => exact ⟨a, p, s, rfl⟩
    rw [hsplit] at h
    simp only [List.getD_cons_zero, List.getD_cons_succ] at h
    split at h
    · simp at h
    · rename_i hb h1
      split at h
      · simp at h
      · rename_i header h2
        split at h
        · simp at h
        · rename_i cb h3
          split at h
          · simp at h
          · rename_i claims h4
            split at h
            · rename_i alg h5
              split at h
              · simp at h
              · rename_i m h6
                simp only [Prod.mk.injEq, and_true] at h
                exact ⟨a, p, s, hb, cb, header, claims, alg, m, hsplit, h.2.symm, h1, h2, h3, h4,
                  h5, h6, h.1.symm⟩
            · simp at h

/-- What the parser has established when it returns no error, for any key function. -/
theorem Parse_ok (P : Primitives) (now : Int) (tok : String)
    (keyFunc : Token → Except Error (List Nat)) (t : Option Token)
    (h : Parse P now tok keyFunc = (t, none)) :
    ∃ a p s hb cb header claims alg m sig key,
      strings.Split tok '.' = [a, p, s] ∧
      P.DecodeSegment a = some hb ∧ P.jsonUnmarshal hb = some header ∧
      P.DecodeSegment p = some cb ∧ P.jsonUnmarshal cb = some claims ∧
      gomap.get header "alg" = some (.string alg) ∧ GetSigningMethod alg = some m ∧
      P.DecodeSegment s = some sig ∧
      keyFunc { Raw := tok, Method := some m, Header := header, Claims := .MapClaims claims,
                Signature := sig, Valid := false } = .ok key ∧
      m.Verify P (a ++ "." ++ p) sig key = none ∧
      Validate claims now = none ∧
      t = some { Raw := tok, Method := some m, Header := header, Claims := .MapClaims claims,
                 Signature := sig, Valid := true } := by
  unfold Parse at h
  split at h
  · simp at h
  · simp at h
  · rename_i t0 parts hpu
    obtain ⟨a, p, s, hb, cb, header, claims, alg, m, hsplit, hparts, h1, h2, h3, h4, h5, h6, ht0⟩ :=
      ParseUnverified_ok P tok _ _ hpu
    simp only [Option.some.injEq] at ht0
    subst ht0 hparts
    simp only [List.getD_cons_zero, List.getD_cons_succ] at h
    split at h
    · simp at h
    · rename_i sig h7
      split at h
      · simp at h
      · rename_i key h8
        split at h
        · simp at h
        · rename_i hv
          split at h
          · simp at h
          · rename_i h9
            simp only [Prod.mk.injEq, and_true] at h
            exact ⟨a, p, s, hb, cb, header, claims, alg, m, sig, key, hsplit, h1, h2, h3, h4, h5,
              h6, h7, h8, hv, h9, h.symm⟩

theorem dot_eq : String.mk ['.'] = "." := rfl

/-- The parser returns a token or an error. -/
theorem Parse_ne_nil (P : Primitives) (now : Int) (tok : String)
    (keyFunc : Token → Except Error (List Nat)) : Parse P now tok keyFunc ≠ (none, none) := by
  intro h
  obtain ⟨a, p, s, hb, cb, header, claims, alg, m, sig, key, _, _, _, _, _, _, _, _, _, _, _, ht⟩ :=
    Parse_ok P now tok keyFunc none h
  cases ht

/-- A token the parser accepts under the key function of the guards passes
verification, and comes back valid with the claims it carries. -/
theorem Verifies_of_Parse (P : Primitives) (secret : List Nat) (now : Int) (tok : String)
    (t : Token) (h : Parse P now tok (middleware.keyFunc secret) = (some t, none)) :
    t.Valid = true ∧ ∃ claims, t.Claims = .MapClaims claims ∧
      spec.Verifies P secret now tok claims := by
  obtain ⟨a, p, s, hb, cb, header, claims, alg, m, sig, key, hsplit, h1, h2, h3, h4, h5, h6, h7,
    h8, hv, h9, ht⟩ := Parse_ok P now tok _ (some t) h
  simp only [Option.some.injEq] at ht
  subst ht
  refine ⟨rfl, claims, rfl, ?_⟩
  obtain ⟨htok, ha, hp, hs⟩ := strings.eq_of_Split_three tok a p s '.' hsplit
  rw [dot_eq] at htok
  -- the key function lets only the HMAC family through, with the secret as key
  cases m with
  | HMAC n =>
    obtain ⟨hn, halg⟩ := GetSigningMethod_eq_hmac alg n h6
    subst hn
    have hkey : key = secret := by
      simp [middleware.keyFunc] at h8
      exact h8.symm
    subst hkey
    have hsig : sig = P.hmac n key (a ++ "." ++ p) := by
      unfold SigningMethod.Verify at hv
      simp only at hv
      by_contra hne
      rw [if_neg hne] at hv
      cases hv
    subst hsig
    have hval : verifyExpiresAt claims now = true ∧ verifyNotBefore claims now = true := by
      unfold Validate at h9
      split at h9
      · rename_i hc
        simpa using hc
      · cases h9
    exact ⟨⟨a, p, s, htok, ha, hp, hs, hb, cb, header, n, h1, h2, h3, h4, h5, halg, h7⟩,
      hval.1, hval.2⟩
  | RSA n => simp [middleware.keyFunc] at h8
  | RSAPSS n => simp [middleware.keyFunc] at h8
  | ECDSA n => simp [middleware.keyFunc] at h8
  | Ed25519 => simp [middleware.keyFunc] at h8
  | None => simp [middleware.keyFunc] at h8

end jwt

/-! ## The guards against the declarative reading -/

namespace middleware

theorem bearer_ne_empty (tok : String) : "Bearer " ++ tok ≠ "" := by
  intro h
  have := congrArg String.data h
  rw [String.data_append] at this
  simp at this

/-- On a well-formed header both guards reach the parser with the token. -/
theorem AuthRequired_bearer (P : jwt.Primitives) (secret : List Nat) (now : Int)
    (c : gin.Context) (tok : String) (hb : spec.IsBearer (c.GetHeader "Authorization") tok)
    (t : Option jwt.Token) (e : Option jwt.Error)
    (hparse : jwt.Parse P now tok (keyFunc secret) = (t, e)) :
    AuthRequired P secret now c =
      match t, e with
      | _, some _ => .ok (rejected c "Invalid or expired token")
      | none, none =>
        .error { message := "invalid memory address or nil pointer dereference", c := c }
      | some token, none =>
        if !token.Valid then .ok (rejected c "Invalid or expired token")
        else
          match token.Claims with
          | .RegisteredClaims => .ok (rejected c "Invalid token claims")
          | .MapClaims claims =>
            match gomap.get claims "user_id" with
            | some (.float64 f) =>
              match gomap.get claims "username" with
              | some (.string username) =>
                .ok (((c.Set "userID" (.int (jwt.goInt f))).Set "username"
                  (.string username)).Next)
              | v => .error (conversionPanic v "string" c)
            | v => .error (conversionPanic v "float64" c) := by
  obtain ⟨hh, hs⟩ := hb
  unfold AuthRequired
  simp only [hh, bearer_ne_empty, if_false, strings.Split_bearer tok hs, List.length_cons,
    List.length_nil, List.getD_cons_zero, List.getD_cons_succ, hparse]
  simp only [Nat.reduceAdd, ne_eq, not_true_eq_false, or_self, if_false]
  cases t <;> cases e <;> rfl

/-- The same for `OptionalAuth`. -/
theorem OptionalAuth_bearer (P : jwt.Primitives) (secret : List Nat) (now : Int)
    (c : gin.Context) (tok : String) (hb : spec.IsBearer (c.GetHeader "Authorization") tok)
    (t : Option jwt.Token) (e : Option jwt.Error)
    (hparse : jwt.Parse P now tok (keyFunc secret) = (t, e)) :
    OptionalAuth P secret now c =
      match t, e with
      | some token, none =>
        if token.Valid then
          match token.Claims with
          | .MapClaims claims =>
            match gomap.get claims "user_id" with
            | some (.float64 f) =>
              match gomap.get claims "username" with
              | some (.string username) =>
                .ok (((c.Set "userID" (.int (jwt.goInt f))).Set "username"
                  (.string username)).Next)
              | v => .error (conversionPanic v "string" (c.Set "userID" (.int (jwt.goInt f))))
            | v => .error (conversionPanic v "float64" c)
          | .RegisteredClaims => .ok c.Next
        else .ok c.Next
      | none, none =>
        .error { message := "invalid memory address or nil pointer dereference", c := c }
      | _, some _ => .ok c.Next := by
  obtain ⟨hh, hs⟩ := hb
  unfold OptionalAuth
  simp only [hh, bearer_ne_empty, if_false, strings.Split_bearer tok hs, List.length_cons,
    List.length_nil, List.getD_cons_zero, List.getD_cons_succ, hparse]
  simp only [Nat.reduceAdd, ne_eq, not_true_eq_false, or_self, if_false]
  cases t <;> cases e <;> rfl

/-- A header that is not `Bearer <token>` is turned away by `AuthRequired` and let
through by `OptionalAuth`, before any token is parsed. -/
theorem guards_of_not_bearer (P : jwt.Primitives) (secret : List Nat) (now : Int)
    (c : gin.Context) (h : ∀ tok, ¬ spec.IsBearer (c.GetHeader "Authorization") tok) :
    (∃ msg, AuthRequired P secret now c = .ok (rejected c msg)) ∧
      OptionalAuth P secret now c = .ok c.Next := by
  by_cases hempty : c.GetHeader "Authorization" = ""
  · constructor
    · exact ⟨"Authorization header required", by unfold AuthRequired; simp only [hempty, if_true]; rfl⟩
    · unfold OptionalAuth
      simp only [hempty, if_true]
  · have hparts : (strings.Split (c.GetHeader "Authorization") ' ').length ≠ 2 ∨
        (strings.Split (c.GetHeader "Authorization") ' ').getD 0 "" ≠ "Bearer" := by
      by_contra hc
      rw [not_or, not_not, not_not] at hc
      obtain ⟨hlen, hfirst⟩ := hc
      match hs : strings.Split (c.GetHeader "Authorization") ' ', hlen, hfirst with
      | [p0, p1], _, hfirst =>
        simp only [List.getD_cons_zero] at hfirst
        subst hfirst
        obtain ⟨heq, _, hsp⟩ := strings.eq_of_Split_two _ _ _ _ hs
        exact h p1 ⟨heq, hsp⟩
    constructor
    · refine ⟨"Invalid authorization header format", ?_⟩
      unfold AuthRequired
      simp only [hempty, if_false, hparts, if_true]
      rfl
    · unfold OptionalAuth
      simp only [hempty, if_false, hparts, if_true]

/-- A token that passes verification and carries a numeric `user_id` and a string
`username` is admitted by both guards with that identity. -/
theorem guards_of_Verifies (P : jwt.Primitives) (secret : List Nat) (now : Int)
    (c : gin.Context) (tok : String) (claims : List (String × jwt.Value)) (f : ℚ) (u : String)
    (hb : spec.IsBearer (c.GetHeader "Authorization") tok)
    (hv : spec.Verifies P secret now tok claims)
    (hid : gomap.get claims "user_id" = some (.float64 f))
    (hname : gomap.get claims "username" = some (.string u)) :
    AuthRequired P secret now c =
        .ok (((c.Set "userID" (.int (jwt.goInt f))).Set "username" (.string u)).Next) ∧
      OptionalAuth P secret now c =
        .ok (((c.Set "userID" (.int (jwt.goInt f))).Set "username" (.string u)).Next) := by
  obtain ⟨t, hparse, hvalid, hclaims⟩ := jwt.Parse_of_Verifies P secret now tok claims hv
  constructor
  · rw [AuthRequired_bearer P secret now c tok hb _ _ hparse]
    simp only [hvalid, hclaims, hid, hname]
    rfl
  · rw [OptionalAuth_bearer P secret now c tok hb _ _ hparse]
    simp only [hvalid, hclaims, hid, hname]
    rfl

/-- A token that does not pass verification is turned away by `AuthRequired` with
`Invalid or expired token` and let through by `OptionalAuth` with the context as
it was. -/
theorem guards_of_not_Verifies (P : jwt.Primitives) (secret : List Nat) (now : Int)
    (c : gin.Context) (tok : String)
    (hb : spec.IsBearer (c.GetHeader "Authorization") tok)
    (hv : ∀ claims, ¬ spec.Verifies P secret now tok claims) :
    AuthRequired P secret now c = .ok (rejected c "Invalid or expired token") ∧
      OptionalAuth P secret now c = .ok c.Next := by
  cases hparse : jwt.Parse P now tok (keyFunc secret) with
  | mk t e =>
    cases e with
    | some err =>
      constructor
      · rw [AuthRequired_bearer P secret now c tok hb _ _ hparse]
        cases t <;> rfl
      · rw [OptionalAuth_bearer P secret now c tok hb _ _ hparse]
        cases t <;> rfl
    | none =>
      cases t with
      | none => exact absurd hparse (jwt.Parse_ne_nil P now tok _)
      | some t =>
        obtain ⟨_, claims, _, hver⟩ := jwt.Verifies_of_Parse P secret now tok t hparse
        exact absurd hver (hv claims)

/-- A token that passes verification without a numeric `user_id` makes both guards
panic at the type assertion, before anything is stored or forwarded. -/
theorem guards_panic_user_id (P : jwt.Primitives) (secret : List Nat) (now : Int)
    (c : gin.Context) (tok : String) (claims : List (String × jwt.Value))
    (hb : spec.IsBearer (c.GetHeader "Authorization") tok)
    (hv : spec.Verifies P secret now tok claims)
    (hid : ∀ f, gomap.get claims "user_id" ≠ some (.float64 f)) :
    AuthRequired P secret now c =
        .error (conversionPanic (gomap.get claims "user_id") "float64" c) ∧
      OptionalAuth P secret now c =
        .error (conversionPanic (gomap.get claims "user_id") "float64" c) := by
  obtain ⟨t, hparse, hvalid, hclaims⟩ := jwt.Parse_of_Verifies P secret now tok claims hv
  constructor
  · rw [AuthRequired_bearer P secret now c tok hb _ _ hparse]
    simp only [hvalid, hclaims]
    cases hg : gomap.get claims "user_id" with
    | none => rfl
    | some v =>
      cases v with
      | float64 f => exact absurd hg (hid f)
      | _ => rfl
  · rw [OptionalAuth_bearer P secret now c tok hb _ _ hparse]
    simp only [hvalid, hclaims]
    cases hg : gomap.get claims "user_id" with
    | none => rfl
    | some v =>
      cases v with
      | float64 f => exact absurd hg (hid f)
      | _ => rfl

/-- A token that passes verification with a numeric `user_id` and without a string
`username` makes both guards panic: `AuthRequired` before anything is stored,
`OptionalAuth` after it has stored `userID`. -/
theorem guards_panic_username (P : jwt.Primitives) (secret : List Nat) (now : Int)
    (c : gin.Context) (tok : String) (claims : List (String × jwt.Value)) (f : ℚ)
    (hb : spec.IsBearer (c.GetHeader "Authorization") tok)
    (hv : spec.Verifies P secret now tok claims)
    (hid : gomap.get claims "user_id" = some (.float64 f))
    (hname : ∀ u, gomap.get claims "username" ≠ some (.string u)) :
    AuthRequired P secret now c =
        .error (conversionPanic (gomap.get claims "username") "string" c) ∧
      OptionalAuth P secret now c =
        .error (conversionPanic (gomap.get claims "username") "string"
          (c.Set "userID" (.int (jwt.goInt f)))) := by
  obtain ⟨t, hparse, hvalid, hclaims⟩ := jwt.Parse_of_Verifies P secret now tok claims hv
  constructor
  · rw [AuthRequired_bearer P secret now c tok hb _ _ hparse]
    simp only [hvalid, hclaims, hid]
    cases hg : gomap.get claims "username" with
    | none => rfl
    | some v =>
      cases v with
      | string u => exact absurd hg (hname u)
      | _ => rfl
  · rw [OptionalAuth_bearer P secret now c tok hb _ _ hparse]
    simp only [hvalid, hclaims, hid]
    cases hg : gomap.get claims "username" with
    | none => rfl
    | some v =>
      cases v with
      | string u => exact absurd hg (hname u)
      | _ => rfl

end middleware

/-! ## Tokens signed with HS256 under lawful primitives -/

namespace jwt

theorem SigningString_hs256 (P : Primitives) (o : List (String × Value)) :
    (NewWithClaims SigningMethodHS256 o).SigningString P =
      P.EncodeSegment (P.jsonMarshal hs256Header) ++ "." ++ P.EncodeSegment (P.jsonMarshal o) :=
  rfl

theorem not_mem_dot (P : Primitives) (hP : P.Lawful) (b : List Nat) :
    '.' ∉ (P.EncodeSegment b).data :=
  fun h => (hP.alphabet b '.' h).1 rfl

theorem not_mem_space (P : Primitives) (hP : P.Lawful) (b : List Nat) :
    ' ' ∉ (P.EncodeSegment b).data :=
  fun h => (hP.alphabet b ' ' h).2 rfl

/-- The signature check on a token of three encoded segments whose header is the
HS256 header: its signature is valid exactly when the third segment encodes the
HMAC of the first two, and the claims read back are those written, as JSON
returns them. -/
theorem SignatureValid_hs256 (P : Primitives) (hP : P.Lawful) (key : List Nat)
    (o : List (String × Value)) (sig : List Nat) :
    ∃ o1, (∀ k, gomap.get o1 k = (gomap.get o k).map Value.viaJSON) ∧
      ∀ claims, spec.SignatureValid P key
        ((NewWithClaims SigningMethodHS256 o).SigningString P ++ "." ++ P.EncodeSegment sig)
        claims ↔
        (claims = o1 ∧
          sig = P.hmac "HS256" key ((NewWithClaims SigningMethodHS256 o).SigningString P)) := by
  obtain ⟨o1, ho1, hget⟩ := hP.unmarshal_marshal o
  obtain ⟨h1, hh1, hgeth⟩ := hP.unmarshal_marshal hs256Header
  have halg : gomap.get h1 "alg" = some (.string "HS256") := by
    rw [hgeth]
    rfl
  refine ⟨o1, hget, fun claims => ?_⟩
  rw [SigningString_hs256]
  constructor
  · rintro ⟨a, p, s, htok, ha, hp, hs, hb, cb, header, alg, e1, e2, e3, e4, e5, _, e7⟩
    have hsplit := strings.Split_three a p s ha hp hs
    rw [← htok, strings.Split_three _ _ _ (not_mem_dot P hP _) (not_mem_dot P hP _)
      (not_mem_dot P hP _)] at hsplit
    simp only [List.cons.injEq, and_true] at hsplit
    obtain ⟨rfl, rfl, rfl⟩ := hsplit
    rw [hP.decode_encode] at e1 e3 e7
    simp only [Option.some.injEq] at e1 e3 e7
    subst e1 e3
    rw [hh1] at e2
    rw [ho1] at e4
    simp only [Option.some.injEq] at e2 e4
    subst e2 e4
    rw [halg] at e5
    simp only [Option.some.injEq, Value.string.injEq] at e5
    subst e5
    exact ⟨rfl, e7⟩
  · rintro ⟨rfl, rfl⟩
    exact ⟨_, _, _, rfl, not_mem_dot P hP _, not_mem_dot P hP _, not_mem_dot P hP _,
      _, _, h1, "HS256", hP.decode_encode _, hh1, hP.decode_encode _, ho1, halg, Or.inl rfl,
      hP.decode_encode _⟩

/-- A token string of three encoded segments has no space. -/
theorem not_mem_space_token (P : Primitives) (hP : P.Lawful) (o : List (String × Value))
    (sig : List Nat) :
    ' ' ∉ ((NewWithClaims SigningMethodHS256 o).SigningString P ++ "." ++
      P.EncodeSegment sig).data := by
  rw [SigningString_hs256]
  simp only [String.data_append, List.mem_append, not_or]
  exact ⟨⟨⟨⟨not_mem_space P hP _, by decide⟩, not_mem_space P hP _⟩, by decide⟩,
    not_mem_space P hP _⟩

end jwt

/-! ## Numbers: float64 rounding and conversions -/

namespace jwt

theorem log2_two_pow_53 : Nat.log2 (2 ^ 53) = 53 := Nat.log2_two_pow

/-- The rounding step leaves a magnitude up to `2^53` as it is. -/
theorem roundFloat64_aux (a : Nat) (h : a ≤ 2 ^ 53) :
    (if 2 ^ (Nat.log2 a + 1 - 53) < 2 * (a % 2 ^ (Nat.log2 a + 1 - 53)) ∨
        (2 * (a % 2 ^ (Nat.log2 a + 1 - 53)) = 2 ^ (Nat.log2 a + 1 - 53) ∧
          a / 2 ^ (Nat.log2 a + 1 - 53) % 2 = 1)
      then a / 2 ^ (Nat.log2 a + 1 - 53) + 1 else a / 2 ^ (Nat.log2 a + 1 - 53)) *
      2 ^ (Nat.log2 a + 1 - 53) = a := by
  by_cases h53 : a = 2 ^ 53
  · have hl : Nat.log2 a + 1 - 53 = 1 := by
      rw [h53, log2_two_pow_53]
    generalize Nat.log2 a + 1 - 53 = e at hl ⊢
    subst hl
    subst h53
    norm_num
  · have hlog : Nat.log2 a + 1 - 53 = 0 := by
      by_cases h0 : a = 0
      · rw [h0, Nat.log2_zero]
      · have := (Nat.log2_lt h0).mpr (lt_of_le_of_ne h h53)
        omega
    generalize Nat.log2 a + 1 - 53 = e at hlog ⊢
    subst hlog
    rw [pow_zero, Nat.mod_one, Nat.div_one, if_neg, Nat.mul_one]
    omega

/-- An integer of magnitude up to `2^53` is a float64. -/
theorem roundFloat64_of_le (n : Int) (h : n.natAbs ≤ 2 ^ 53) : roundFloat64 n = n := by
  unfold roundFloat64
  simp only
  rw [roundFloat64_aux n.natAbs h]
  exact Int.sign_mul_natAbs n

/-- The conversion `int(f)` of an integer in the `int` range. -/
theorem goInt_intCast (n : Int) (h1 : -(2 ^ 63) ≤ n) (h2 : n < 2 ^ 63) :
    goInt (n : ℚ) = n := by
  unfold goInt
  simp only [Rat.num_intCast, Rat.den_intCast, Nat.cast_one, Int.tdiv_one]
  rw [if_pos ⟨h1, h2⟩]

/-- A whole number of seconds whose time fits the 64-bit seconds of `time.Time` denotes
the instant that many seconds after the epoch. -/
theorem numericDate_intCast (n : Int) (h1 : -9223372036854775808 ≤ n)
    (h2 : n < 9223371974719179008) : numericDate (n : ℚ) = n * 1000000000 := by
  have hg : goInt (n : ℚ) = n := goInt_intCast n (by norm_num; omega) (by norm_num; omega)
  unfold numericDate
  simp only [hg, Rat.num_intCast, Rat.den_intCast, Nat.cast_one, Int.tdiv_one, sub_self,
    zero_mul]
  rw [if_neg (by norm_num)]
  unfold goint.wrap time.unixToInternal
  congr 1
  omega

/-- A whole number of seconds that a float64 holds exactly denotes the instant that
many seconds after the epoch. -/
theorem numericDate_of_le (n : Int) (h : n.natAbs ≤ 2 ^ 53) :
    numericDate (n : ℚ) = n * 1000000000 := by
  have hpow : (2 : Nat) ^ 53 = 9007199254740992 := by norm_num
  rw [hpow] at h
  exact numericDate_intCast n (by omega) (by omega)

/-- A number of seconds from `2^63` on is beyond the int64 range: the date it denotes
is the least one, `2^63` seconds before the epoch. -/
theorem numericDate_overflow (x : ℚ) (h : (2 : ℚ) ^ 63 ≤ x) :
    numericDate x = -9223372036854775808 * 1000000000 := by
  have hx0 : (0 : ℚ) ≤ x := le_trans (by norm_num) h
  have ht : Int.tdiv x.num x.den = ⌊x⌋ := by
    rw [Int.tdiv_eq_ediv (Rat.num_nonneg.mpr hx0) (Int.natCast_nonneg _)]
    exact Rat.floor_def.symm
  have hfl : (9223372036854775808 : Int) ≤ ⌊x⌋ := Int.le_floor.mpr (by
    push_cast
    exact le_trans (by norm_num) h)
  have hg : goInt x = -9223372036854775808 := by
    unfold goInt
    simp only [ht]
    rw [if_neg (by norm_num; omega)]
    norm_num
  have hfrac : (0 : ℚ) ≤ (x - ((⌊x⌋ : Int) : ℚ)) * 1000000000 :=
    mul_nonneg (sub_nonneg.mpr (Int.floor_le x)) (by norm_num)
  unfold numericDate
  simp only [hg, ht]
  rw [if_neg (not_le.mpr (lt_of_lt_of_le (by norm_num) hfrac))]
  unfold goint.wrap time.unixToInternal
  norm_num

/-- A number of seconds from the epoch on whose time fits the 64-bit seconds of
`time.Time` denotes the last whole second up to it. -/
theorem numericDate_of_nonneg (x : ℚ) (h0 : 0 ≤ x) (h1 : x < 9223371974719179008) :
    numericDate x = ⌊x⌋ * 1000000000 := by
  have ht : Int.tdiv x.num x.den = ⌊x⌋ := by
    rw [Int.tdiv_eq_ediv (Rat.num_nonneg.mpr h0) (Int.natCast_nonneg _)]
    exact Rat.floor_def.symm
  have hfl0 : 0 ≤ ⌊x⌋ := Int.floor_nonneg.mpr h0
  have hfl1 : ⌊x⌋ < 9223371974719179008 := Int.floor_lt.mpr (by
    push_cast
    exact h1)
  have hg : goInt x = ⌊x⌋ := by
    unfold goInt
    simp only [ht]
    rw [if_pos ⟨by norm_num; omega, by norm_num; omega⟩]
  have hfrac : (0 : ℚ) ≤ (x - ((⌊x⌋ : Int) : ℚ)) * 1000000000 :=
    mul_nonneg (sub_nonneg.mpr (Int.floor_le x)) (by norm_num)
  unfold numericDate
  simp only [hg, ht]
  rw [if_neg (not_le.mpr (lt_of_lt_of_le (by norm_num) hfrac))]
  unfold goint.wrap time.unixToInternal
  congr 1
  omega

/-- An `exp` claim from `2^63` seconds on is beyond the int64 range and denotes a date
long past: the token counts as expired at every clock reading from then on. -/
theorem verifyExpiresAt_overflow (claims : List (String × Value)) (x : ℚ) (now : Int)
    (hexp : gomap.get claims "exp" = some (.float64 x)) (hx : (2 : ℚ) ^ 63 ≤ x)
    (hnow : -9223372036854775808 * 1000000000 ≤ now) :
    verifyExpiresAt claims now = false := by
  have hne : x ≠ 0 := ne_of_gt (lt_of_lt_of_le (by norm_num) hx)
  unfold verifyExpiresAt
  rw [hexp]
  simp only
  rw [if_neg hne, numericDate_overflow x hx]
  exact decide_eq_false (not_lt.mpr hnow)

/-- An `nbf` claim from `2^63` seconds on is beyond the int64 range and denotes a date
long past: the not-before time counts as reached at every clock reading from then
on. -/
theorem verifyNotBefore_overflow (claims : List (String × Value)) (x : ℚ) (now : Int)
    (hnbf : gomap.get claims "nbf" = some (.float64 x)) (hx : (2 : ℚ) ^ 63 ≤ x)
    (hnow : -9223372036854775808 * 1000000000 ≤ now) :
    verifyNotBefore claims now = true := by
  have hne : x ≠ 0 := ne_of_gt (lt_of_lt_of_le (by norm_num) hx)
  unfold verifyNotBefore
  rw [hnbf]
  simp only
  rw [if_neg hne, numericDate_overflow x hx]
  exact decide_eq_true hnow

theorem roundFloat64_tie : roundFloat64 9007199254740993 = 9007199254740992 := by
  have hlog : Nat.log2 9007199254740993 = 53 := by
    have h0 : (9007199254740993 : Nat) ≠ 0 := by norm_num
    have h1 : Nat.log2 9007199254740993 < 54 := (Nat.log2_lt h0).mpr (by norm_num)
    have h2 : ¬ Nat.log2 9007199254740993 < 53 := fun h =>
      absurd ((Nat.log2_lt h0).mp h) (by norm_num)
    omega
  unfold roundFloat64
  have ha : (9007199254740993 : Int).natAbs = 9007199254740993 := rfl
  simp only [ha, hlog]
  norm_num
  rfl

end jwt

/-! ## Issued and forged tokens before the guards -/

namespace handlers

theorem generateToken_eq (P : jwt.Primitives) (secret : List Nat) (now1 now2 : Int)
    (userID : Int) (username : String) :
    (generateToken P secret now1 now2 userID username).1 =
      (jwt.NewWithClaims jwt.SigningMethodHS256
          (issuedClaims now1 now2 userID username)).SigningString P ++ "." ++
        P.EncodeSegment (P.hmac "HS256" secret
          ((jwt.NewWithClaims jwt.SigningMethodHS256
            (issuedClaims now1 now2 userID username)).SigningString P)) :=
  rfl

end handlers

namespace reference

theorem signed_eq (P : jwt.Primitives) (key : List Nat) (o : List (String × jwt.Value)) :
    signed P key o =
      (jwt.NewWithClaims jwt.SigningMethodHS256 o).SigningString P ++ "." ++
        P.EncodeSegment (P.hmac "HS256" key
          ((jwt.NewWithClaims jwt.SigningMethodHS256 o).SigningString P)) :=
  rfl

end reference

namespace middleware

/-- A request whose header is `Bearer` and a token of three encoded segments carries
a bearer token. -/
theorem IsBearer_token (P : jwt.Primitives) (hP : P.Lawful) (o : List (String × jwt.Value))
    (sig : List Nat) (c : gin.Context)
    (hh : c.GetHeader "Authorization" = "Bearer " ++
      ((jwt.NewWithClaims jwt.SigningMethodHS256 o).SigningString P ++ "." ++
        P.EncodeSegment sig)) :
    spec.IsBearer (c.GetHeader "Authorization")
      ((jwt.NewWithClaims jwt.SigningMethodHS256 o).SigningString P ++ "." ++
        P.EncodeSegment sig) :=
  ⟨hh, jwt.not_mem_space_token P hP o sig⟩

/-- A token signed with HS256 under the secret over claims `o` passes verification
at `now` exactly when the claims, as JSON returns them, pass the checks of `exp`
and `nbf`; the claims it is verified with are those. -/
theorem Verifies_signed (P : jwt.Primitives) (hP : P.Lawful) (secret : List Nat) (now : Int)
    (o : List (String × jwt.Value)) :
    ∃ o1, (∀ k, gomap.get o1 k = (gomap.get o k).map jwt.Value.viaJSON) ∧
      ∀ claims, spec.Verifies P secret now (reference.signed P secret o) claims ↔
        (claims = o1 ∧ jwt.verifyExpiresAt o1 now = true ∧
          jwt.verifyNotBefore o1 now = true) := by
  obtain ⟨o1, hget, hiff⟩ := jwt.SignatureValid_hs256 P hP secret o
    (P.hmac "HS256" secret ((jwt.NewWithClaims jwt.SigningMethodHS256 o).SigningString P))
  refine ⟨o1, hget, fun claims => ?_⟩
  rw [reference.signed_eq]
  unfold spec.Verifies spec.Unexpired
  rw [hiff claims]
  constructor
  · rintro ⟨⟨rfl, _⟩, h1, h2⟩
    exact ⟨rfl, h1, h2⟩
  · rintro ⟨rfl, h1, h2⟩
    exact ⟨⟨rfl, rfl⟩, h1, h2⟩

/-- A correctly signed token whose `exp` claim is beyond the int64 range (such as
`1e19`) is turned away by `AuthRequired` as expired. -/
theorem AuthRequired_exp_overflow (P : jwt.Primitives) (hP : P.Lawful) (secret : List Nat)
    (now : Int) (o : List (String × jwt.Value)) (x : ℚ) (c : gin.Context)
    (hexp : gomap.get o "exp" = some (.float64 x)) (hx : (2 : ℚ) ^ 63 ≤ x)
    (hnow : 0 ≤ now)
    (hb : spec.IsBearer (c.GetHeader "Authorization") (reference.signed P secret o)) :
    AuthRequired P secret now c = .ok (rejected c "Invalid or expired token") := by
  obtain ⟨o1, hget, hiff⟩ := Verifies_signed P hP secret now o
  refine (guards_of_not_Verifies P secret now c _ hb ?_).1
  intro claims hv
  obtain ⟨_, he, _⟩ := (hiff claims).mp hv
  have hexp1 : gomap.get o1 "exp" = some (.float64 x) := by
    rw [hget, hexp]
    rfl
  rw [jwt.verifyExpiresAt_overflow o1 x now hexp1 hx (by omega)] at he
  exact Bool.noConfusion he

/-- A correctly signed token without `exp` whose `nbf` claim is beyond the int64 range
(such as `1e300`) is admitted by `AuthRequired`: the date it denotes is long past. -/
theorem AuthRequired_nbf_overflow (P : jwt.Primitives) (hP : P.Lawful) (secret : List Nat)
    (now : Int) (o : List (String × jwt.Value)) (x f : ℚ) (u : String) (c : gin.Context)
    (hexp : gomap.get o "exp" = none)
    (hnbf : gomap.get o "nbf" = some (.float64 x)) (hx : (2 : ℚ) ^ 63 ≤ x)
    (hid : gomap.get o "user_id" = some (.float64 f))
    (hname : gomap.get o "username" = some (.string u))
    (hnow : 0 ≤ now)
    (hb : spec.IsBearer (c.GetHeader "Authorization") (reference.signed P secret o)) :
    AuthRequired P secret now c =
      .ok (((c.Set "userID" (.int (jwt.goInt f))).Set "username" (.string u)).Next) := by
  obtain ⟨o1, hget, hiff⟩ := Verifies_signed P hP secret now o
  have hexp1 : gomap.get o1 "exp" = none := by
    rw [hget, hexp]
    rfl
  have hnbf1 : gomap.get o1 "nbf" = some (.float64 x) := by
    rw [hget, hnbf]
    rfl
  have hid1 : gomap.get o1 "user_id" = some (.float64 f) := by
    rw [hget, hid]
    rfl
  have hname1 : gomap.get o1 "username" = some (.string u) := by
    rw [hget, hname]
    rfl
  have he : jwt.verifyExpiresAt o1 now = true := by
    unfold jwt.verifyExpiresAt
    rw [hexp1]
  have hv : spec.Verifies P secret now (reference.signed P secret o) o1 :=
    (hiff o1).mpr ⟨rfl, he, jwt.verifyNotBefore_overflow o1 x now hnbf1 hx (by omega)⟩
  exact (guards_of_Verifies P secret now c _ o1 f u hb hv hid1 hname1).1

/-- A token whose third segment encodes anything but the HMAC of the first two
passes verification with no claims at all. -/
theorem not_Verifies_forged (P : jwt.Primitives) (hP : P.Lawful) (secret : List Nat)
    (now : Int) (o : List (String × jwt.Value)) (sig : List Nat)
    (hsig : sig ≠ P.hmac "HS256" secret
      ((jwt.NewWithClaims jwt.SigningMethodHS256 o).SigningString P))
    (claims : List (String × jwt.Value)) :
    ¬ spec.Verifies P secret now
      ((jwt.NewWithClaims jwt.SigningMethodHS256 o).SigningString P ++ "." ++
        P.EncodeSegment sig) claims := by
  obtain ⟨o1, _, hiff⟩ := jwt.SignatureValid_hs256 P hP secret o sig
  rintro ⟨hv, _, _⟩
  exact hsig ((hiff claims).mp hv).2

end middleware

namespace handlers

theorem generateToken_eq_signed (P : jwt.Primitives) (secret : List Nat) (now1 now2 : Int)
    (userID : Int) (username : String) :
    (generateToken P secret now1 now2 userID username).1 =
      reference.signed P secret (issuedClaims now1 now2 userID username) :=
  rfl

/-- A token of `generateToken` passes verification at every time before the second
its `exp` claim names, with the subject it was issued for: the name as given, the id
as the float64 nearest to it. -/
theorem issued_Verifies (P : jwt.Primitives) (hP : P.Lawful) (secret : List Nat)
    (now1 now2 : Int) (userID : Int) (username : String) (t : Int)
    (hclock : (time.Unix (now1 + 24 * time.Hour)).natAbs ≤ 2 ^ 53)
    (ht : t < time.Unix (now1 + 24 * time.Hour) * 1000000000) :
    ∃ claims, spec.Verifies P secret t (generateToken P secret now1 now2 userID username).1
        claims ∧
      gomap.get claims "user_id" = some (.float64 (jwt.roundFloat64 userID)) ∧
      gomap.get claims "username" = some (.string username) := by
  obtain ⟨o1, hget, hiff⟩ := middleware.Verifies_signed P hP secret t
    (issuedClaims now1 now2 userID username)
  have hexp : gomap.get o1 "exp" =
      some (.float64 ((time.Unix (now1 + 24 * time.Hour) : Int) : ℚ)) := by
    rw [hget]
    show some (jwt.Value.float64 (jwt.roundFloat64 (time.Unix (now1 + 24 * time.Hour)))) = _
    rw [jwt.roundFloat64_of_le _ hclock]
  have hnbf : gomap.get o1 "nbf" = none := by
    rw [hget]
    rfl
  refine ⟨o1, ?_, by rw [hget]; rfl, by rw [hget]; rfl⟩
  rw [generateToken_eq_signed, hiff]
  refine ⟨rfl, ?_, ?_⟩
  · unfold jwt.verifyExpiresAt
    rw [hexp]
    simp only
    split
    · rfl
    · rw [jwt.numericDate_of_le _ hclock]
      exact decide_eq_true ht
  · unfold jwt.verifyNotBefore
    rw [hnbf]

end handlers

namespace reference

theorem issuedSignature_eq :
    issuedSignature = 115 :: ([101, 99, 114, 101, 116] ++
      ("HS256".data ++ '.' :: issuedSigningString.data).map Char.toNat) :=
  rfl

theorem get_zero_of_eq_cons (l : List Nat) (x : Nat) (rest : List Nat) (h : l = x :: rest)
    (hi : 0 < l.length) : l.get ⟨0, hi⟩ = x := by
  subst h
  rfl

theorem issuedSignature_pos : 0 < issuedSignature.length := by
  rw [issuedSignature_eq]
  exact List.length_pos.mpr (List.cons_ne_nil _ _)

theorem issuedSignature_head : issuedSignature.get ⟨0, issuedSignature_pos⟩ ≠ 0 := by
  rw [get_zero_of_eq_cons _ _ _ issuedSignature_eq]
  decide

end reference

/-! ## Claims C1 and C2: the token guard -/

/-- Counterexample to C1 as stated: the request whose header is `Bearer <token>`, with
a token that carries a valid signature, is unexpired (`exp` at second 100, clock at
5 ns) and names subject (7, alice), is rejected with 401 by `AuthRequired`, because
its `nbf` claim (second 50) lies in the future. -/
theorem C1_counterexample :
    ∃ claims,
      spec.IsBearer ((reference.request ("Bearer " ++ reference.notYetValidToken)).GetHeader
        "Authorization") reference.notYetValidToken ∧
      spec.SignatureValid reference.primitives reference.secret reference.notYetValidToken
        claims ∧
      spec.Unexpired claims 5 ∧
      gomap.get claims "user_id" = some (.float64 7) ∧
      gomap.get claims "username" = some (.string "alice") ∧
      middleware.AuthRequired reference.primitives reference.secret 5
          (reference.request ("Bearer " ++ reference.notYetValidToken)) =
        .ok (middleware.rejected (reference.request ("Bearer " ++ reference.notYetValidToken))
          "Invalid or expired token") := by
  have hP := reference.primitives_lawful
  obtain ⟨o1, hget, hiff⟩ := jwt.SignatureValid_hs256 reference.primitives hP reference.secret
    [("user_id", .int 7), ("username", .string "alice"), ("exp", .int64 100), ("nbf", .int64 50)]
    (reference.primitives.hmac "HS256" reference.secret
      ((jwt.NewWithClaims jwt.SigningMethodHS256
        [("user_id", .int 7), ("username", .string "alice"), ("exp", .int64 100),
          ("nbf", .int64 50)]).SigningString reference.primitives))
  have hb : spec.IsBearer ((reference.request ("Bearer " ++ reference.notYetValidToken)).GetHeader
      "Authorization") reference.notYetValidToken :=
    middleware.IsBearer_token reference.primitives hP _ _ _ rfl
  have h100 : jwt.roundFloat64 100 = 100 := jwt.roundFloat64_of_le 100 (by norm_num)
  have h50 : jwt.roundFloat64 50 = 50 := jwt.roundFloat64_of_le 50 (by norm_num)
  have h7 : jwt.roundFloat64 7 = 7 := jwt.roundFloat64_of_le 7 (by norm_num)
  have hexp : gomap.get o1 "exp" = some (.float64 ((100 : Int) : ℚ)) := by
    rw [hget]
    show some (jwt.Value.float64 (jwt.roundFloat64 100)) = _
    rw [h100]
  have hnbf : gomap.get o1 "nbf" = some (.float64 ((50 : Int) : ℚ)) := by
    rw [hget]
    show some (jwt.Value.float64 (jwt.roundFloat64 50)) = _
    rw [h50]
  have hid : gomap.get o1 "user_id" = some (.float64 7) := by
    rw [hget]
    show some (jwt.Value.float64 (jwt.roundFloat64 7)) = _
    rw [h7]
    rfl
  refine ⟨o1, hb, (hiff o1).mpr ⟨rfl, rfl⟩, ?_, hid, by rw [hget]; rfl, ?_⟩
  · unfold spec.Unexpired jwt.verifyExpiresAt
    rw [hexp]
    simp only
    rw [if_neg (by norm_num), jwt.numericDate_intCast 100 (by norm_num) (by norm_num)]
    decide
  · refine (middleware.guards_of_not_Verifies reference.primitives reference.secret 5 _ _ hb
      ?_).1
    rintro claims ⟨hv, _, hn⟩
    obtain ⟨rfl, _⟩ := (hiff claims).mp hv
    unfold jwt.verifyNotBefore at hn
    rw [hnbf] at hn
    simp only at hn
    rw [if_neg (by norm_num), jwt.numericDate_intCast 50 (by norm_num) (by norm_num)] at hn
    revert hn
    decide

/-- Claim C1, amended. For every request, `AuthRequired` admits it, storing `userID`
and `username` and running the next handler, when the header is `Bearer <token>`
and the token passes verification (valid HMAC signature under the secret, not
expired, not-before time reached) with a numeric `user_id` and a string `username`;
it rejects it with status 401 and aborts the chain when the header is absent,
malformed or carries a token that does not pass verification; and whenever every
token the request could be verified with carries those two claims, the outcome
is one of these two. The dates of `exp` and `nbf` are the ones the token library
builds (`numericDate`): whole seconds held in an int64, so that a claim beyond the
int64 range names a date long past, an expired `exp` and a reached `nbf`. -/
theorem C1_auth_required_outcomes (P : jwt.Primitives) (secret : List Nat) (now : Int)
    (c : gin.Context) :
    (∀ tok claims f u, spec.IsBearer (c.GetHeader "Authorization") tok →
      spec.Verifies P secret now tok claims →
      gomap.get claims "user_id" = some (.float64 f) →
      gomap.get claims "username" = some (.string u) →
      middleware.AuthRequired P secret now c =
        .ok (((c.Set "userID" (.int (jwt.goInt f))).Set "username" (.string u)).Next)) ∧
    ((∀ tok claims, spec.IsBearer (c.GetHeader "Authorization") tok →
        ¬ spec.Verifies P secret now tok claims) →
      ∃ msg, middleware.AuthRequired P secret now c = .ok (middleware.rejected c msg)) ∧
    ((∀ tok claims, spec.IsBearer (c.GetHeader "Authorization") tok →
        spec.Verifies P secret now tok claims →
        ∃ f u, gomap.get claims "user_id" = some (.float64 f) ∧
          gomap.get claims "username" = some (.string u)) →
      (∃ id u, middleware.AuthRequired P secret now c =
        .ok (((c.Set "userID" (.int id)).Set "username" (.string u)).Next)) ∨
      (∃ msg, middleware.AuthRequired P secret now c = .ok (middleware.rejected c msg))) := by
  have hrej : (∀ tok claims, spec.IsBearer (c.GetHeader "Authorization") tok →
        ¬ spec.Verifies P secret now tok claims) →
      ∃ msg, middleware.AuthRequired P secret now c = .ok (middleware.rejected c msg) := by
    intro h
    by_cases hb : ∃ tok, spec.IsBearer (c.GetHeader "Authorization") tok
    · obtain ⟨tok, hb⟩ := hb
      exact ⟨_, (middleware.guards_of_not_Verifies P secret now c tok hb (fun cl => h tok cl hb)).1⟩
    · exact (middleware.guards_of_not_bearer P secret now c (fun tok ht => hb ⟨tok, ht⟩)).1
  refine ⟨?_, hrej, ?_⟩
  · intro tok claims f u hb hv hid hname
    exact (middleware.guards_of_Verifies P secret now c tok claims f u hb hv hid hname).1
  · intro htyped
    by_cases hv : ∃ tok claims, spec.IsBearer (c.GetHeader "Authorization") tok ∧
        spec.Verifies P secret now tok claims
    · obtain ⟨tok, claims, hb, hver⟩ := hv
      obtain ⟨f, u, hid, hname⟩ := htyped tok claims hb hver
      exact Or.inl ⟨_, u,
        (middleware.guards_of_Verifies P secret now c tok claims f u hb hver hid hname).1⟩
    · exact Or.inr (hrej (fun tok claims hb hver => hv ⟨tok, claims, hb, hver⟩))

/-- Witness of C1: the request that carries the token issued at time 0 for (7, alice)
is admitted one second later with exactly that identity. -/
theorem C1_auth_required_outcomes_witness :
    middleware.AuthRequired reference.primitives reference.secret 1000000000
        (reference.request ("Bearer " ++
          (handlers.generateToken reference.primitives reference.secret 0 0 7 "alice").1)) =
      .ok ((((reference.request ("Bearer " ++
          (handlers.generateToken reference.primitives reference.secret 0 0 7 "alice").1)).Set
            "userID" (.int 7)).Set "username" (.string "alice")).Next) := by
  obtain ⟨claims, hv, hid, hname⟩ := handlers.issued_Verifies reference.primitives
    reference.primitives_lawful reference.secret 0 0 7 "alice" 1000000000 (by decide) (by decide)
  have hb : spec.IsBearer ((reference.request ("Bearer " ++
      (handlers.generateToken reference.primitives reference.secret 0 0 7 "alice").1)).GetHeader
      "Authorization")
      (handlers.generateToken reference.primitives reference.secret 0 0 7 "alice").1 :=
    middleware.IsBearer_token reference.primitives reference.primitives_lawful _ _ _ rfl
  have h7 : jwt.goInt ((jwt.roundFloat64 7 : Int) : ℚ) = 7 := by
    rw [jwt.roundFloat64_of_le 7 (by norm_num), jwt.goInt_intCast 7 (by norm_num) (by norm_num)]
  have h := (C1_auth_required_outcomes reference.primitives reference.secret 1000000000
    (reference.request ("Bearer " ++
      (handlers.generateToken reference.primitives reference.secret 0 0 7 "alice").1))).1
    _ claims _ _ hb hv hid hname
  rw [h7] at h
  exact h

/-- Counterexample to C2 as stated: for the subject id `2^53 + 1` the token of
`generateToken`, presented one second after issuance, is admitted by `AuthRequired`
with `userID = 2^53` in the context, not the id it was issued for. -/
theorem C2_counterexample :
    middleware.AuthRequired reference.primitives reference.secret 1000000000
        (reference.request ("Bearer " ++ (handlers.generateToken reference.primitives
          reference.secret 0 0 9007199254740993 "alice").1)) =
      .ok ((((reference.request ("Bearer " ++ (handlers.generateToken reference.primitives
          reference.secret 0 0 9007199254740993 "alice").1)).Set
            "userID" (.int 9007199254740992)).Set "username" (.string "alice")).Next) ∧
    gin.KeyValue.int 9007199254740992 ≠ gin.KeyValue.int 9007199254740993 := by
  obtain ⟨claims, hv, hid, hname⟩ := handlers.issued_Verifies reference.primitives
    reference.primitives_lawful reference.secret 0 0 9007199254740993 "alice" 1000000000
    (by decide) (by decide)
  have hb : spec.IsBearer ((reference.request ("Bearer " ++ (handlers.generateToken
      reference.primitives reference.secret 0 0 9007199254740993 "alice").1)).GetHeader
      "Authorization")
      (handlers.generateToken reference.primitives reference.secret 0 0 9007199254740993
        "alice").1 :=
    middleware.IsBearer_token reference.primitives reference.primitives_lawful _ _ _ rfl
  have hr : jwt.goInt ((jwt.roundFloat64 9007199254740993 : Int) : ℚ) = 9007199254740992 := by
    rw [jwt.roundFloat64_tie, jwt.goInt_intCast _ (by norm_num) (by norm_num)]
  have h := (middleware.guards_of_Verifies reference.primitives reference.secret 1000000000
    _ _ claims _ _ hb hv hid hname).1
  rw [hr] at h
  exact ⟨h, by decide⟩

/-- Claim C2, amended. For every subject name and every subject id of magnitude up to
`2^53`, with the clock of the issuer in the range of `UnixNano`: `generateToken`
returns no error, and its token, presented as `Bearer <token>` at any time before
the second its `exp` claim names, is admitted by `AuthRequired` and by
`OptionalAuth`, and both leave exactly `userID = id` and `username = name` in the
request context. -/
theorem C2_issued_token_admitted (P : jwt.Primitives) (hP : P.Lawful) (secret : List Nat)
    (now1 now2 t : Int) (userID : Int) (username : String) (c : gin.Context)
    (hh : c.GetHeader "Authorization" =
      "Bearer " ++ (handlers.generateToken P secret now1 now2 userID username).1)
    (hid : userID.natAbs ≤ 2 ^ 53)
    (hclock : 0 ≤ now1 ∧ now1 < 2 ^ 63)
    (ht : t < time.Unix (now1 + 24 * time.Hour) * 1000000000) :
    (handlers.generateToken P secret now1 now2 userID username).2.2 = none ∧
    middleware.AuthRequired P secret t c =
      .ok (((c.Set "userID" (.int userID)).Set "username" (.string username)).Next) ∧
    middleware.OptionalAuth P secret t c =
      .ok (((c.Set "userID" (.int userID)).Set "username" (.string username)).Next) ∧
    (((c.Set "userID" (.int userID)).Set "username" (.string username)).Next).Get "userID" =
      some (.int userID) ∧
    (((c.Set "userID" (.int userID)).Set "username" (.string username)).Next).Get "username" =
      some (.string username) := by
  have hunix : (time.Unix (now1 + 24 * time.Hour)).natAbs ≤ 2 ^ 53 := by
    unfold time.Unix time.Hour
    omega
  obtain ⟨claims, hv, hcid, hname⟩ := handlers.issued_Verifies P hP secret now1 now2 userID
    username t hunix ht
  have hb : spec.IsBearer (c.GetHeader "Authorization")
      (handlers.generateToken P secret now1 now2 userID username).1 :=
    middleware.IsBearer_token P hP _ _ c hh
  have hr : jwt.goInt ((jwt.roundFloat64 userID : Int) : ℚ) = userID := by
    rw [jwt.roundFloat64_of_le userID hid]
    apply jwt.goInt_intCast
    · omega
    · omega
  have h := middleware.guards_of_Verifies P secret t c _ claims _ _ hb hv hcid hname
  rw [hr] at h
  refine ⟨rfl, h.1, h.2, ?_, ?_⟩
  · show ((c.Set "userID" (.int userID)).Set "username" (.string username)).Get "userID" = _
    rw [gin.Get_Set_ne _ _ _ _ (by decide), gin.Get_Set_self]
  · show ((c.Set "userID" (.int userID)).Set "username" (.string username)).Get "username" = _
    rw [gin.Get_Set_self]

/-- Witness of C2: subject (7, alice), token issued at time 0 and presented one
second later. -/
theorem C2_issued_token_admitted_witness :
    middleware.AuthRequired reference.primitives reference.secret 1000000000
        (reference.request ("Bearer " ++
          (handlers.generateToken reference.primitives reference.secret 0 0 7 "alice").1)) =
      .ok ((((reference.request ("Bearer " ++
          (handlers.generateToken reference.primitives reference.secret 0 0 7 "alice").1)).Set
            "userID" (.int 7)).Set "username" (.string "alice")).Next) ∧
    middleware.OptionalAuth reference.primitives reference.secret 1000000000
        (reference.request ("Bearer " ++
          (handlers.generateToken reference.primitives reference.secret 0 0 7 "alice").1)) =
      .ok ((((reference.request ("Bearer " ++
          (handlers.generateToken reference.primitives reference.secret 0 0 7 "alice").1)).Set
            "userID" (.int 7)).Set "username" (.string "alice")).Next) :=
  ⟨(C2_issued_token_admitted reference.primitives reference.primitives_lawful reference.secret
      0 0 1000000000 7 "alice"
      (reference.request ("Bearer " ++
        (handlers.generateToken reference.primitives reference.secret 0 0 7 "alice").1))
      rfl (by decide) (by decide) (by decide)).2.1,
   (C2_issued_token_admitted reference.primitives reference.primitives_lawful reference.secret
      0 0 1000000000 7 "alice"
      (reference.request ("Bearer " ++
        (handlers.generateToken reference.primitives reference.secret 0 0 7 "alice").1))
      rfl (by decide) (by decide) (by decide)).2.2.1⟩

/-! ## Claims C3 to C7: the cache service -/

/-- Claim C3. For every store, key, value that `marshal` encodes to `data`, and
`ttl > 0`: `Set` returns no error, and `Get` of the key at the clock reading of the
`Set`, and at every later reading less than `ttl` after it, returns `data`, whatever
the store held under the key before. -/
theorem C3_get_after_set {V : Type} (marshal : V → Except String (List Nat))
    (c : cache.InMemoryCache) (now : Int) (k : String) (v : V) (ttl : Int) (data : List Nat)
    (hv : marshal v = .ok data) (httl : 0 < ttl) :
    (c.Set marshal now k v ttl).2 = none ∧
    (c.Set marshal now k v ttl).1.Get now k = .ok data ∧
    ∀ t, now ≤ t → t < now + ttl → (c.Set marshal now k v ttl).1.Get t k = .ok data := by
  have key : ∀ t, t ≤ now + ttl → (c.Set marshal now k v ttl).1.Get t k = .ok data := by
    intro t ht
    unfold cache.InMemoryCache.Set cache.InMemoryCache.Get
    rw [hv]
    simp only [gomap.get_set_self]
    rw [if_neg (not_lt.mpr ht)]
  refine ⟨?_, key now (by omega), fun t _ ht => key t (by omega)⟩
  unfold cache.InMemoryCache.Set
  rw [hv]

/-- Witness of C3: on a store that holds an expired entry under `cache:tags`, a `Set`
of that key with the five-minute TTL is followed by a `Get` that returns the new bytes. -/
theorem C3_get_after_set_witness :
    (({ items := [("cache:tags", { Value := [9], Expiration := -5 })] } : cache.InMemoryCache).Set
      (fun v : List Nat => Except.ok v) 0 cache.KeyTags [1, 2, 3] cache.TTLTags).1.Get 0
        cache.KeyTags = .ok [1, 2, 3] :=
  (C3_get_after_set (fun v : List Nat => Except.ok v)
    { items := [("cache:tags", { Value := [9], Expiration := -5 })] } 0 cache.KeyTags [1, 2, 3]
    cache.TTLTags [1, 2, 3] rfl (by decide)).2.1

/-- Counterexample to C4 as stated: an entry set at time 0 with `ttl = 5` is still
returned by a `Get` at time 5, when the elapsed time equals the TTL. -/
theorem C4_counterexample :
    ((5 : Int) - 0 ≥ 5) ∧
    (cache.InMemoryCache.new.Set (fun v : List Nat => Except.ok v) 0 "k" [1] 5).2 = none ∧
    cache.isNotFound
      ((cache.InMemoryCache.new.Set (fun v : List Nat => Except.ok v) 0 "k" [1] 5).1.Get 5 "k")
      = false := by
  refine ⟨by decide, rfl, ?_⟩
  rfl

/-- Claim C4, amended. If `Set` of key `k` with `ttl` succeeded at time `t0` and no
operation of the run that follows (reads, writes of other keys, deletions, prefix
deletions and sweeps, at any times) assigns `k`, then `Get` of `k` at every time `t`
with `t - t0 > ttl` fails. -/
theorem C4_get_after_ttl {V : Type} (marshal : V → Except String (List Nat))
    (c : cache.InMemoryCache) (t0 : Int) (k : String) (v : V) (ttl : Int)
    (trace : List (Int × cache.Op V)) (t : Int)
    (hset : (c.Set marshal t0 k v ttl).2 = none)
    (hno : ∀ op ∈ trace, cache.Op.setsKey k op.2 = false)
    (ht : ttl < t - t0) :
    cache.isNotFound (((c.Set marshal t0 k v ttl).1.run marshal trace).Get t k) = true := by
  have hbind : ∃ data, gomap.get (c.Set marshal t0 k v ttl).1.items k =
      some { Value := data, Expiration := t0 + ttl } := by
    unfold cache.InMemoryCache.Set at hset ⊢
    cases hm : marshal v with
    | error err => rw [hm] at hset; cases hset
    | ok data => exact ⟨data, gomap.get_set_self _ _ _⟩
  obtain ⟨data, hdata⟩ := hbind
  unfold cache.InMemoryCache.Get
  rcases cache.get_run marshal k trace (c.Set marshal t0 k v ttl).1 hno with h | h
  · rw [h]
    rfl
  · rw [h, hdata]
    have hlt : t0 + ttl < t := by omega
    simp only [hlt, if_true]
    rfl

/-- Witness of C4: an entry set at time 0 with `ttl = 5`, followed by a sweep at time
3 and a write of another key, is not found at time 6. -/
theorem C4_get_after_ttl_witness :
    cache.isNotFound (((cache.InMemoryCache.new.Set (fun v : List Nat => Except.ok v)
      0 "k" [1] 5).1.run (fun v : List Nat => Except.ok v)
        [(3, cache.Op.cleanup), (4, cache.Op.Set "j" [2] 100)]).Get 6 "k") = true :=
  C4_get_after_ttl (fun v : List Nat => Except.ok v) cache.InMemoryCache.new 0 "k" [1] 5
    [(3, cache.Op.cleanup), (4, cache.Op.Set "j" [2] 100)] 6 rfl (by decide) (by decide)

/-- Claim C5. After `DeleteByPrefix(p)`, which returns no error, a key that starts
with the characters of `p` has no entry left in the store and `Get` on it fails with
`key not found`. -/
theorem C5_delete_by_prefix_removes (c : cache.InMemoryCache) (pfx k : String) (now : Int)
    (h : pfx.data <+: k.data) :
    (c.DeleteByPrefix pfx).2 = none ∧
    (∀ item, (k, item) ∉ (c.DeleteByPrefix pfx).1.items) ∧
    (c.DeleteByPrefix pfx).1.Get now k = .error ("key not found: " ++ k) := by
  have hg : gomap.get (c.DeleteByPrefix pfx).1.items k = none := by
    rw [cache.get_DeleteByPrefix, if_pos ((cache.hasPrefix_iff k pfx).mpr h)]
  exact ⟨rfl, gomap.not_mem_of_get_eq_none _ _ hg, cache.Get_of_get_none _ _ _ hg⟩

/-- Witness of C5, the scenario of the spec: after `Set("cache:tags", blob, 5min)` a
`Get` returns the blob, and after `DeleteByPrefix("cache:t")` the `Get` fails. -/
theorem C5_delete_by_prefix_removes_witness :
    "cache:t".data <+: cache.KeyTags.data ∧
    (cache.InMemoryCache.new.Set (fun v : List Nat => Except.ok v) 0 cache.KeyTags [7, 7]
      cache.TTLTags).1.Get 1 cache.KeyTags = .ok [7, 7] ∧
    ((cache.InMemoryCache.new.Set (fun v : List Nat => Except.ok v) 0 cache.KeyTags [7, 7]
      cache.TTLTags).1.DeleteByPrefix "cache:t").1.Get 2 cache.KeyTags
      = .error ("key not found: " ++ cache.KeyTags) :=
  ⟨⟨"ags".data, rfl⟩, rfl,
    (C5_delete_by_prefix_removes (cache.InMemoryCache.new.Set (fun v : List Nat => Except.ok v)
      0 cache.KeyTags [7, 7] cache.TTLTags).1 "cache:t" cache.KeyTags 2 ⟨"ags".data, rfl⟩).2.2⟩

/-- Claim C6. `DeleteByPrefix(p)` leaves a key that does not start with the characters
of `p` as it was: the entry bound to it (value and expiry) is the same, and `Get` on
it at any time returns what it returned before the call. -/
theorem C6_delete_by_prefix_frame (c : cache.InMemoryCache) (pfx k : String)
    (h : ¬ pfx.data <+: k.data) :
    gomap.get (c.DeleteByPrefix pfx).1.items k = gomap.get c.items k ∧
    ∀ now, (c.DeleteByPrefix pfx).1.Get now k = c.Get now k := by
  have hg : gomap.get (c.DeleteByPrefix pfx).1.items k = gomap.get c.items k := by
    rw [cache.get_DeleteByPrefix, if_neg]
    exact fun hp => h ((cache.hasPrefix_iff k pfx).mp hp)
  exact ⟨hg, fun now => cache.Get_congr _ _ now k hg⟩

/-- Witness of C6: the key `cache`, shorter than the deleted `cache:t`, keeps its
entry next to a deleted `cache:tags`. -/
theorem C6_delete_by_prefix_frame_witness :
    gomap.get (({ items := [("cache:tags", { Value := [1], Expiration := 9 }),
      ("cache", { Value := [2], Expiration := 9 })] } : cache.InMemoryCache).DeleteByPrefix
        "cache:t").1.items "cache" = some { Value := [2], Expiration := 9 } :=
  (C6_delete_by_prefix_frame { items := [("cache:tags", { Value := [1], Expiration := 9 }),
      ("cache", { Value := [2], Expiration := 9 })] } "cache:t" "cache" (by decide)).1

/-- Claim C7. For every store and key, `Delete` returns no error and a `Get` of the
key that follows it, at any time, fails with `key not found`. -/
theorem C7_delete_then_get (c : cache.InMemoryCache) (k : String) (now : Int) :
    (c.Delete k).2 = none ∧
    (c.Delete k).1.Get now k = .error ("key not found: " ++ k) ∧
    cache.isNotFound ((c.Delete k).1.Get now k) = true := by
  have hg : (c.Delete k).1.Get now k = .error ("key not found: " ++ k) :=
    cache.Get_of_get_none _ _ _ (gomap.get_delete_self _ _)
  refine ⟨rfl, hg, ?_⟩
  rw [hg]
  rfl

/-! ## Claims C8 to C10: the token guard -/

/-- Claim C8 fails on the code: on the request that carries a token correctly signed
under the secret with an empty claims map, `OptionalAuth` does not forward the
request; it panics at the type assertion `claims["user_id"].(float64)`. -/
theorem C8_optional_auth_panics :
    middleware.OptionalAuth reference.primitives reference.secret 5
        (reference.request ("Bearer " ++ reference.noClaimsToken)) =
      .error { message := "interface conversion: interface \x7b\x7d is nil, not float64",
               c := reference.request ("Bearer " ++ reference.noClaimsToken) } := by
  obtain ⟨o1, hget, hiff⟩ := middleware.Verifies_signed reference.primitives
    reference.primitives_lawful reference.secret 5 []
  have hnone : ∀ k, gomap.get o1 k = none := fun k => by rw [hget]; rfl
  have hv : spec.Verifies reference.primitives reference.secret 5 reference.noClaimsToken o1 := by
    refine (hiff o1).mpr ⟨rfl, ?_, ?_⟩
    · unfold jwt.verifyExpiresAt
      rw [hnone]
    · unfold jwt.verifyNotBefore
      rw [hnone]
  have hb : spec.IsBearer ((reference.request ("Bearer " ++ reference.noClaimsToken)).GetHeader
      "Authorization") reference.noClaimsToken :=
    middleware.IsBearer_token reference.primitives reference.primitives_lawful _ _ _ rfl
  have h := (middleware.guards_panic_user_id reference.primitives reference.secret 5 _ _ o1 hb hv
    (fun f hf => by rw [hnone] at hf; cases hf)).2
  rw [hnone] at h
  exact h

/-- Claim C9 fails on the code: the token signed under the secret that names
`user_id` 7 and no `username` passes verification, and on the request that carries
it `OptionalAuth` stores `userID` alone and then panics at the type assertion
`claims["username"].(string)`, without forwarding the request. -/
theorem C9_optional_auth_half_identity :
    (∃ claims, spec.Verifies reference.primitives reference.secret 5 reference.noUsernameToken
      claims) ∧
    middleware.OptionalAuth reference.primitives reference.secret 5
        (reference.request ("Bearer " ++ reference.noUsernameToken)) =
      .error { message := "interface conversion: interface \x7b\x7d is nil, not string",
               c := (reference.request ("Bearer " ++ reference.noUsernameToken)).Set "userID"
                 (.int 7) } := by
  obtain ⟨o1, hget, hiff⟩ := middleware.Verifies_signed reference.primitives
    reference.primitives_lawful reference.secret 5 [("user_id", .int 7)]
  have hid : gomap.get o1 "user_id" = some (.float64 ((7 : Int) : ℚ)) := by
    rw [hget]
    show some (jwt.Value.float64 (jwt.roundFloat64 7)) = _
    rw [jwt.roundFloat64_of_le 7 (by norm_num)]
  have hname : gomap.get o1 "username" = none := by rw [hget]; rfl
  have hv : spec.Verifies reference.primitives reference.secret 5 reference.noUsernameToken
      o1 := by
    refine (hiff o1).mpr ⟨rfl, ?_, ?_⟩
    · unfold jwt.verifyExpiresAt
      rw [hget]
      rfl
    · unfold jwt.verifyNotBefore
      rw [hget]
      rfl
  have hb : spec.IsBearer ((reference.request ("Bearer " ++
      reference.noUsernameToken)).GetHeader "Authorization") reference.noUsernameToken :=
    middleware.IsBearer_token reference.primitives reference.primitives_lawful _ _ _ rfl
  have h := (middleware.guards_panic_username reference.primitives reference.secret 5 _ _ o1 _
    hb hv hid (fun u hu => by rw [hname] at hu; cases hu)).2
  rw [hname, jwt.goInt_intCast 7 (by norm_num) (by norm_num)] at h
  exact ⟨⟨o1, hv⟩, h⟩

/-- Claim C10. For every token issued by `generateToken`, read as its signing string,
a dot and the encoded signature: the token in which one byte of the signature is
changed is rejected by `AuthRequired` with status 401 and the chain aborted, and is
passed on by `OptionalAuth` with the context as it came, no identity stored. -/
theorem C10_tampered_signature (P : jwt.Primitives) (hP : P.Lawful) (secret : List Nat)
    (now1 now2 t : Int) (userID : Int) (username : String) (sstr : String) (sig : List Nat)
    (i b : Nat) (c : gin.Context)
    (htok : (handlers.generateToken P secret now1 now2 userID username).1 =
      sstr ++ "." ++ P.EncodeSegment sig)
    (hi : i < sig.length) (hb : sig.get ⟨i, hi⟩ ≠ b)
    (hh : c.GetHeader "Authorization" =
      "Bearer " ++ (sstr ++ "." ++ P.EncodeSegment (sig.set i b))) :
    middleware.AuthRequired P secret t c =
      .ok ((c.JSON 401 [("error", "Invalid or expired token")]).Abort) ∧
    middleware.OptionalAuth P secret t c = .ok c.Next ∧
    c.Next.Keys = c.Keys := by
  rw [handlers.generateToken_eq] at htok
  obtain ⟨hs, he⟩ := strings.append_dot_inj _ _ _ _ (jwt.not_mem_dot P hP _)
    (jwt.not_mem_dot P hP _) htok
  have hsig : sig = P.hmac "HS256" secret sstr := by
    have h1 := congrArg P.DecodeSegment he
    rw [hP.decode_encode, hP.decode_encode] at h1
    rw [hs] at h1
    exact (Option.some.inj h1).symm
  have hne : sig.set i b ≠ P.hmac "HS256" secret sstr := by
    rw [← hsig]
    intro hset
    have hget := congrArg (fun l => l[i]?) hset
    simp only [List.getElem?_set_self hi, List.getElem?_eq_getElem hi, Option.some.injEq]
      at hget
    exact hb hget.symm
  subst hs
  have hbearer := middleware.IsBearer_token P hP _ (sig.set i b) c hh
  have h := middleware.guards_of_not_Verifies P secret t c _ hbearer
    (middleware.not_Verifies_forged P hP secret t _ _ hne)
  exact ⟨h.1, h.2, rfl⟩

/-- Witness of C10: the token issued at time 0 for (7, alice), with the first byte of
its signature changed from 115 to 0. -/
theorem C10_tampered_signature_witness :
    middleware.AuthRequired reference.primitives reference.secret 1000000000
        (reference.request ("Bearer " ++ reference.tamperedToken)) =
      .ok (((reference.request ("Bearer " ++ reference.tamperedToken)).JSON 401
        [("error", "Invalid or expired token")]).Abort) ∧
    middleware.OptionalAuth reference.primitives reference.secret 1000000000
        (reference.request ("Bearer " ++ reference.tamperedToken)) =
      .ok (reference.request ("Bearer " ++ reference.tamperedToken)).Next :=
  ⟨(C10_tampered_signature reference.primitives reference.primitives_lawful reference.secret
      0 0 1000000000 7 "alice" reference.issuedSigningString reference.issuedSignature 0 0
      (reference.request ("Bearer " ++ reference.tamperedToken)) rfl
      reference.issuedSignature_pos reference.issuedSignature_head rfl).1,
   (C10_tampered_signature reference.primitives reference.primitives_lawful reference.secret
      0 0 1000000000 7 "alice" reference.issuedSigningString reference.issuedSignature 0 0
      (reference.request ("Bearer " ++ reference.tamperedToken)) rfl
      reference.issuedSignature_pos reference.issuedSignature_head rfl).2.1⟩

/-! ## Expiry, algorithm family and header format -/

namespace spec

/-- A token has one header only: the algorithm a valid signature was checked under
is the one the header names. -/
theorem IsHMAC_of_SignatureValid (P : jwt.Primitives) (secret : List Nat) (tok alg : String)
    (claims : List (String × jwt.Value)) (hn : HeaderNames P tok alg)
    (hv : SignatureValid P secret tok claims) : IsHMAC alg := by
  obtain ⟨h, p, s, htok, hh, hp, hs, hb, header, e1, e2, e3⟩ := hn
  obtain ⟨h2, p2, s2, htok2, hh2, hp2, hs2, hb2, cb2, header2, alg2, f1, f2, _, _, f5, f6, _⟩ := hv
  have hsplit := strings.Split_three h p s hh hp hs
  rw [← htok, htok2, strings.Split_three h2 p2 s2 hh2 hp2 hs2] at hsplit
  simp only [List.cons.injEq, and_true] at hsplit
  obtain ⟨rfl, rfl, rfl⟩ := hsplit
  rw [e1] at f1
  simp only [Option.some.injEq] at f1
  subst f1
  rw [e2] at f2
  simp only [Option.some.injEq] at f2
  subst f2
  rw [e3] at f5
  simp only [Option.some.injEq, jwt.Value.string.injEq] at f5
  subst f5
  exact f6

/-- The empty string is no token: it passes verification with no claims. -/
theorem not_Verifies_empty (P : jwt.Primitives) (secret : List Nat) (now : Int)
    (claims : List (String × jwt.Value)) : ¬ Verifies P secret now "" claims := by
  rintro ⟨⟨h, p, s, htok, _⟩, _⟩
  have := congrArg String.data htok
  simp only [String.data_append] at this
  have hlen := congrArg List.length this
  simp only [List.length_nil, List.length_append, List.length_cons] at hlen
  omega

/-- A header value has one reading as `Bearer <token>` at most. -/
theorem IsBearer_unique (hdr t1 t2 : String) (h1 : IsBearer hdr t1) (h2 : IsBearer hdr t2) :
    t1 = t2 := by
  have h := h1.1.symm.trans h2.1
  have hd := congrArg String.data h
  simp only [String.data_append] at hd
  exact String.ext (List.append_cancel_left hd)

end spec

namespace middleware

/-- The key function hands the secret out for a method of the HMAC family only. -/
theorem keyFunc_error (secret : List Nat) (token : jwt.Token) (alg : String)
    (hm : token.Method = jwt.GetSigningMethod alg) (hfam : ¬ spec.IsHMAC alg) :
    keyFunc secret token = .error .ErrSignatureInvalid := by
  unfold keyFunc
  rw [hm]
  cases hg : jwt.GetSigningMethod alg with
  | none => rfl
  | some m =>
    cases m with
    | HMAC n => exact absurd (jwt.GetSigningMethod_eq_hmac alg n hg).2 hfam
    | _ => rfl

/-- The response of `AuthRequired` to a header that is not `Bearer <token>`: one
message for the absent header, one for every other value. -/
theorem AuthRequired_not_bearer (P : jwt.Primitives) (secret : List Nat) (now : Int)
    (c : gin.Context) (h : ∀ tok, ¬ spec.IsBearer (c.GetHeader "Authorization") tok) :
    AuthRequired P secret now c = .ok (rejected c
      (if c.GetHeader "Authorization" = "" then "Authorization header required"
        else "Invalid authorization header format")) := by
  by_cases hempty : c.GetHeader "Authorization" = ""
  · unfold AuthRequired
    simp only [hempty, if_true]
    rfl
  · have hparts : (strings.Split (c.GetHeader "Authorization") ' ').length ≠ 2 ∨
        (strings.Split (c.GetHeader "Authorization") ' ').getD 0 "" ≠ "Bearer" := by
      by_contra hc
      rw [not_or, not_not, not_not] at hc
      obtain ⟨hlen, hfirst⟩ := hc
      match hs : strings.Split (c.GetHeader "Authorization") ' ', hlen, hfirst with
      | [p0, p1], _, hfirst =>
        simp only [List.getD_cons_zero] at hfirst
        subst hfirst
        obtain ⟨heq, _, hsp⟩ := strings.eq_of_Split_two _ _ _ _ hs
        exact h p1 ⟨heq, hsp⟩
    unfold AuthRequired
    simp only [hempty, if_false, hparts, if_true]
    rfl

end middleware

namespace handlers

/-- A token of `generateToken`, issued by a clock in the UnixNano range, passes
verification at no time from 24 hours after the clock reading on. -/
theorem issued_not_Verifies (P : jwt.Primitives) (hP : P.Lawful) (secret : List Nat)
    (now1 now2 : Int) (userID : Int) (username : String) (t : Int)
    (h0 : 0 ≤ now1) (h63 : now1 < 2 ^ 63) (ht : now1 + 24 * time.Hour ≤ t)
    (claims : List (String × jwt.Value)) :
    ¬ spec.Verifies P secret t (generateToken P secret now1 now2 userID username).1 claims := by
  obtain ⟨o1, hget, hiff⟩ := middleware.Verifies_signed P hP secret t
    (issuedClaims now1 now2 userID username)
  have hpow : (2 : Int) ^ 63 = 9223372036854775808 := by norm_num
  have hpow53 : (2 : Nat) ^ 53 = 9007199254740992 := by norm_num
  rw [hpow] at h63
  have hclock : (time.Unix (now1 + 24 * time.Hour)).natAbs ≤ 2 ^ 53 := by
    rw [hpow53]
    unfold time.Unix time.Hour
    omega
  have hpos : 0 < time.Unix (now1 + 24 * time.Hour) := by
    unfold time.Unix time.Hour
    omega
  have hle : time.Unix (now1 + 24 * time.Hour) * 1000000000 ≤ t := by
    unfold time.Unix time.Hour at *
    omega
  have hexp : gomap.get o1 "exp" =
      some (.float64 ((time.Unix (now1 + 24 * time.Hour) : Int) : ℚ)) := by
    rw [hget]
    show some (jwt.Value.float64 (jwt.roundFloat64 (time.Unix (now1 + 24 * time.Hour)))) = _
    rw [jwt.roundFloat64_of_le _ hclock]
  rw [generateToken_eq_signed, hiff]
  rintro ⟨_, hexpired, _⟩
  unfold jwt.verifyExpiresAt at hexpired
  rw [hexp] at hexpired
  simp only at hexpired
  have hne : ((time.Unix (now1 + 24 * time.Hour) : Int) : ℚ) ≠ 0 :=
    Int.cast_ne_zero.mpr (ne_of_gt hpos)
  rw [if_neg hne, jwt.numericDate_of_le _ hclock] at hexpired
  exact absurd (of_decide_eq_true hexpired) (not_lt.mpr hle)

end handlers

namespace middleware

/-- A rejection by `AuthRequired` is the 401 response whose message is fixed by the
stage the request failed at: no header, a header that is not `Bearer <token>`, or a
token that does not pass verification. -/
theorem AuthRequired_rejection (P : jwt.Primitives) (secret : List Nat) (now : Int)
    (c r : gin.Context) (ha : c.aborted = false)
    (h : AuthRequired P secret now c = .ok r) (hr : r.aborted = true) :
    (c.GetHeader "Authorization" = "" ∧ r = rejected c "Authorization header required") ∨
    (c.GetHeader "Authorization" ≠ "" ∧
      (∀ tok, ¬ spec.IsBearer (c.GetHeader "Authorization") tok) ∧
      r = rejected c "Invalid authorization header format") ∨
    ((∃ tok, spec.IsBearer (c.GetHeader "Authorization") tok) ∧
      r = rejected c "Invalid or expired token") := by
  by_cases hb : ∃ tok, spec.IsBearer (c.GetHeader "Authorization") tok
  · right
    right
    refine ⟨hb, ?_⟩
    obtain ⟨tok, hb⟩ := hb
    by_cases hv : ∃ claims, spec.Verifies P secret now tok claims
    · exfalso
      obtain ⟨claims, hv⟩ := hv
      by_cases hid : ∃ f, gomap.get claims "user_id" = some (.float64 f)
      · obtain ⟨f, hid⟩ := hid
        by_cases hname : ∃ u, gomap.get claims "username" = some (.string u)
        · obtain ⟨u, hname⟩ := hname
          rw [(guards_of_Verifies P secret now c tok claims f u hb hv hid hname).1] at h
          simp only [Except.ok.injEq] at h
          subst h
          have : c.aborted = true := hr
          rw [ha] at this
          exact Bool.noConfusion this
        · rw [(guards_panic_username P secret now c tok claims f hb hv hid
            (fun u hu => hname ⟨u, hu⟩)).1] at h
          exact Except.noConfusion h
      · rw [(guards_panic_user_id P secret now c tok claims hb hv
          (fun f hf => hid ⟨f, hf⟩)).1] at h
        exact Except.noConfusion h
    · rw [(guards_of_not_Verifies P secret now c tok hb (fun cl hcl => hv ⟨cl, hcl⟩)).1] at h
      simp only [Except.ok.injEq] at h
      exact h.symm
  · have hnb : ∀ tok, ¬ spec.IsBearer (c.GetHeader "Authorization") tok :=
      fun tok ht => hb ⟨tok, ht⟩
    rw [AuthRequired_not_bearer P secret now c hnb] at h
    simp only [Except.ok.injEq] at h
    by_cases hempty : c.GetHeader "Authorization" = ""
    · rw [if_pos hempty] at h
      exact Or.inl ⟨hempty, h.symm⟩
    · rw [if_neg hempty] at h
      exact Or.inr (Or.inl ⟨hempty, hnb, h.symm⟩)

end middleware

namespace spec

/-- What a header reads as when it is `Bearer <token>`, character by character. -/
theorem IsBearer_data (hdr tok : String) (h : IsBearer hdr tok) :
    hdr.data = 'B' :: 'e' :: 'a' :: 'r' :: 'e' :: 'r' :: ' ' :: tok.data := by
  have := congrArg String.data h.1
  rw [String.data_append] at this
  exact this

/-- A header that does not start with the word and one space is not `Bearer <token>`. -/
theorem not_bearer_of_take (hdr : String)
    (h : hdr.data.take 7 ≠ ['B', 'e', 'a', 'r', 'e', 'r', ' ']) :
    ∀ tok, ¬ IsBearer hdr tok := by
  intro tok hb
  exact absurd (by rw [IsBearer_data hdr tok hb]; rfl) h

/-- A header that does not start with the word and one space carries no token. -/
theorem not_usable_of_take (hdr : String)
    (h : hdr.data.take 7 ≠ ['B', 'e', 'a', 'r', 'e', 'r', ' ']) :
    ∀ tok, IsBearer hdr tok → tok = "" :=
  fun tok hb => absurd hb (not_bearer_of_take hdr h tok)

/-- A header with a space after the word and one space carries no token. -/
theorem not_usable_of_space (hdr : String) (h : ' ' ∈ hdr.data.drop 7) :
    ∀ tok, IsBearer hdr tok → tok = "" := by
  intro tok hb
  rw [IsBearer_data hdr tok hb] at h
  exact absurd h hb.2

/-- A header that ends after the word and one space carries the empty token only. -/
theorem not_usable_of_drop (hdr : String) (h : hdr.data.drop 7 = []) :
    ∀ tok, IsBearer hdr tok → tok = "" := by
  intro tok hb
  rw [IsBearer_data hdr tok hb] at h
  exact String.ext h

end spec

namespace reference

/-- The unsigned token of the examples names the algorithm `none` in its header. -/
theorem unsignedToken_HeaderNames : spec.HeaderNames primitives unsignedToken "none" := by
  obtain ⟨o1, ho1, hget⟩ := primitives_lawful.unmarshal_marshal
    [("typ", .string "JWT"), ("alg", .string "none")]
  exact ⟨_, _, _, rfl, jwt.not_mem_dot primitives primitives_lawful _,
    jwt.not_mem_dot primitives primitives_lawful _, jwt.not_mem_dot primitives primitives_lawful _,
    _, o1, primitives_lawful.decode_encode _, ho1, by rw [hget]; rfl⟩

/-- The unsigned token of the examples has no space. -/
theorem unsignedToken_no_space : ' ' ∉ unsignedToken.data := by
  unfold unsignedToken
  simp only [String.data_append, List.mem_append, not_or]
  exact ⟨⟨⟨⟨jwt.not_mem_space primitives primitives_lawful _, by decide⟩,
    jwt.not_mem_space primitives primitives_lawful _⟩, by decide⟩,
    jwt.not_mem_space primitives primitives_lawful _⟩

end reference

/-! ## Claims C11 to C14: expiry, algorithm family, header format, rejections -/

/-- Claim C11. For every token issued by `generateToken` at clock reading `t0` (a
clock in the UnixNano range), presented as `Bearer <token>`: verification at
`t0 + 24 hours + 1 second`, and at every time from `t0 + 24 hours` on, fails under
both guards: `AuthRequired` rejects with status 401 and aborts, `OptionalAuth`
forwards the request with nothing attached to the context. -/
theorem C11_expired_token_fails (P : jwt.Primitives) (hP : P.Lawful) (secret : List Nat)
    (t0 now2 userID : Int) (username : String) (c : gin.Context)
    (hclock : 0 ≤ t0 ∧ t0 < 2 ^ 63)
    (hh : c.GetHeader "Authorization" =
      "Bearer " ++ (handlers.generateToken P secret t0 now2 userID username).1) :
    (middleware.AuthRequired P secret (t0 + 24 * time.Hour + time.Second) c =
        .ok ((c.JSON 401 [("error", "Invalid or expired token")]).Abort) ∧
      middleware.OptionalAuth P secret (t0 + 24 * time.Hour + time.Second) c = .ok c.Next ∧
      c.Next.Keys = c.Keys) ∧
    ∀ t, t0 + 24 * time.Hour ≤ t →
      middleware.AuthRequired P secret t c =
        .ok ((c.JSON 401 [("error", "Invalid or expired token")]).Abort) ∧
      middleware.OptionalAuth P secret t c = .ok c.Next := by
  have hb : spec.IsBearer (c.GetHeader "Authorization")
      (handlers.generateToken P secret t0 now2 userID username).1 :=
    middleware.IsBearer_token P hP _ _ c hh
  have hall : ∀ t, t0 + 24 * time.Hour ≤ t →
      middleware.AuthRequired P secret t c =
        .ok ((c.JSON 401 [("error", "Invalid or expired token")]).Abort) ∧
      middleware.OptionalAuth P secret t c = .ok c.Next := fun t ht =>
    middleware.guards_of_not_Verifies P secret t c _ hb
      (handlers.issued_not_Verifies P hP secret t0 now2 userID username t hclock.1 hclock.2 ht)
  have hs : t0 + 24 * time.Hour ≤ t0 + 24 * time.Hour + time.Second := by
    unfold time.Second
    omega
  exact ⟨⟨(hall _ hs).1, (hall _ hs).2, rfl⟩, hall⟩

/-- Witness of C11: the token issued at time 0 for (7, alice), presented 24 hours and
one second later, is rejected by `AuthRequired` and forwarded bare by `OptionalAuth`. -/
theorem C11_expired_token_fails_witness :
    middleware.AuthRequired reference.primitives reference.secret
        (0 + 24 * time.Hour + time.Second)
        (reference.request ("Bearer " ++
          (handlers.generateToken reference.primitives reference.secret 0 0 7 "alice").1)) =
      .ok (((reference.request ("Bearer " ++
          (handlers.generateToken reference.primitives reference.secret 0 0 7 "alice").1)).JSON
            401 [("error", "Invalid or expired token")]).Abort) ∧
    middleware.OptionalAuth reference.primitives reference.secret
        (0 + 24 * time.Hour + time.Second)
        (reference.request ("Bearer " ++
          (handlers.generateToken reference.primitives reference.secret 0 0 7 "alice").1)) =
      .ok (reference.request ("Bearer " ++
          (handlers.generateToken reference.primitives reference.secret 0 0 7 "alice").1)).Next :=
  have h := (C11_expired_token_fails reference.primitives reference.primitives_lawful
    reference.secret 0 0 7 "alice"
    (reference.request ("Bearer " ++
      (handlers.generateToken reference.primitives reference.secret 0 0 7 "alice").1))
    ⟨by decide, by decide⟩ rfl).1
  ⟨h.1, h.2.1⟩

/-- Claim C12. For every request whose header is `Bearer <token>` with a token whose
header names a signing algorithm outside the HMAC family (the unsigned `none`
included), whatever its claims and signature segments are: the key function of the
guards returns an error, not the secret, for a token with the method registered
under that name; the parser returns an error; the token passes verification with no
claims; `AuthRequired` rejects with status 401 and aborts, and `OptionalAuth`
forwards the request with nothing attached to the context. -/
theorem C12_foreign_algorithm_rejected (P : jwt.Primitives) (secret : List Nat) (now : Int)
    (c : gin.Context) (tok alg : String)
    (hb : spec.IsBearer (c.GetHeader "Authorization") tok)
    (hn : spec.HeaderNames P tok alg) (hfam : ¬ spec.IsHMAC alg) :
    (∀ token : jwt.Token, token.Method = jwt.GetSigningMethod alg →
      middleware.keyFunc secret token = .error .ErrSignatureInvalid) ∧
    (jwt.Parse P now tok (middleware.keyFunc secret)).2 ≠ none ∧
    (∀ claims, ¬ spec.Verifies P secret now tok claims) ∧
    middleware.AuthRequired P secret now c =
      .ok ((c.JSON 401 [("error", "Invalid or expired token")]).Abort) ∧
    middleware.OptionalAuth P secret now c = .ok c.Next ∧
    c.Next.Keys = c.Keys := by
  have hv : ∀ claims, ¬ spec.Verifies P secret now tok claims := fun claims hver =>
    hfam (spec.IsHMAC_of_SignatureValid P secret tok alg claims hn hver.1)
  have hg := middleware.guards_of_not_Verifies P secret now c tok hb hv
  refine ⟨fun token hm => middleware.keyFunc_error secret token alg hm hfam, ?_, hv, hg.1,
    hg.2, rfl⟩
  intro he
  cases hparse : jwt.Parse P now tok (middleware.keyFunc secret) with
  | mk t e =>
    rw [hparse] at he
    simp only at he
    subst he
    cases t with
    | none => exact jwt.Parse_ne_nil P now tok _ hparse
    | some t =>
      obtain ⟨_, claims, _, hver⟩ := jwt.Verifies_of_Parse P secret now tok t hparse
      exact hv claims hver

/-- Witness of C12: the unsigned token, whose header names `none`, is rejected by
`AuthRequired` and forwarded bare by `OptionalAuth`. -/
theorem C12_foreign_algorithm_rejected_witness :
    middleware.AuthRequired reference.primitives reference.secret 0
        (reference.request ("Bearer " ++ reference.unsignedToken)) =
      .ok (((reference.request ("Bearer " ++ reference.unsignedToken)).JSON 401
        [("error", "Invalid or expired token")]).Abort) ∧
    middleware.OptionalAuth reference.primitives reference.secret 0
        (reference.request ("Bearer " ++ reference.unsignedToken)) =
      .ok (reference.request ("Bearer " ++ reference.unsignedToken)).Next :=
  have h := C12_foreign_algorithm_rejected reference.primitives reference.secret 0
    (reference.request ("Bearer " ++ reference.unsignedToken)) reference.unsignedToken "none"
    ⟨rfl, reference.unsignedToken_no_space⟩ reference.unsignedToken_HeaderNames (by decide)
  ⟨h.2.2.2.1, h.2.2.2.2.1⟩

/-- Claim C13. For every request whose `Authorization` header is not `Bearer <token>`
with a non-empty token (the literal word, one space, a token without a space):
`AuthRequired` rejects it with status 401 and aborts, and `OptionalAuth` forwards it
with nothing attached to the context. A header has one reading as `Bearer <token>`
at most, and that token is what both guards hand to the parser. -/
theorem C13_header_format (P : jwt.Primitives) (secret : List Nat) (now : Int)
    (c : gin.Context)
    (h : ∀ tok, spec.IsBearer (c.GetHeader "Authorization") tok → tok = "") :
    (∃ msg, middleware.AuthRequired P secret now c =
      .ok ((c.JSON 401 [("error", msg)]).Abort)) ∧
    middleware.OptionalAuth P secret now c = .ok c.Next ∧
    c.Next.Keys = c.Keys := by
  by_cases hb : ∃ tok, spec.IsBearer (c.GetHeader "Authorization") tok
  · obtain ⟨tok, hb⟩ := hb
    have he := h tok hb
    subst he
    have hg := middleware.guards_of_not_Verifies P secret now c "" hb
      (fun claims => spec.not_Verifies_empty P secret now claims)
    exact ⟨⟨_, hg.1⟩, hg.2, rfl⟩
  · have hg := middleware.guards_of_not_bearer P secret now c (fun tok ht => hb ⟨tok, ht⟩)
    exact ⟨hg.1, hg.2, rfl⟩

/-- Witness of C13: another scheme, another letter case, no space, two spaces, an
extra field and an empty token are each forwarded bare by `OptionalAuth` and
rejected by `AuthRequired`. -/
theorem C13_header_format_witness :
    (middleware.OptionalAuth reference.primitives reference.secret 0
        (reference.request "Basic abc") = .ok (reference.request "Basic abc").Next) ∧
    (middleware.OptionalAuth reference.primitives reference.secret 0
        (reference.request "bearer abc") = .ok (reference.request "bearer abc").Next) ∧
    (middleware.OptionalAuth reference.primitives reference.secret 0
        (reference.request "Bearer") = .ok (reference.request "Bearer").Next) ∧
    (middleware.OptionalAuth reference.primitives reference.secret 0
        (reference.request "Bearer  abc") = .ok (reference.request "Bearer  abc").Next) ∧
    (middleware.OptionalAuth reference.primitives reference.secret 0
        (reference.request "Bearer abc def") = .ok (reference.request "Bearer abc def").Next) ∧
    (middleware.OptionalAuth reference.primitives reference.secret 0
        (reference.request "Bearer ") = .ok (reference.request "Bearer ").Next) ∧
    (∃ msg, middleware.AuthRequired reference.primitives reference.secret 0
        (reference.request "Bearer ") =
      .ok (((reference.request "Bearer ").JSON 401 [("error", msg)]).Abort)) :=
  ⟨(C13_header_format reference.primitives reference.secret 0 (reference.request "Basic abc")
      (spec.not_usable_of_take "Basic abc" (by decide))).2.1,
    (C13_header_format reference.primitives reference.secret 0 (reference.request "bearer abc")
      (spec.not_usable_of_take "bearer abc" (by decide))).2.1,
    (C13_header_format reference.primitives reference.secret 0 (reference.request "Bearer")
      (spec.not_usable_of_take "Bearer" (by decide))).2.1,
    (C13_header_format reference.primitives reference.secret 0 (reference.request "Bearer  abc")
      (spec.not_usable_of_space "Bearer  abc" (by decide))).2.1,
    (C13_header_format reference.primitives reference.secret 0
      (reference.request "Bearer abc def")
      (spec.not_usable_of_space "Bearer abc def" (by decide))).2.1,
    (C13_header_format reference.primitives reference.secret 0 (reference.request "Bearer ")
      (spec.not_usable_of_drop "Bearer " rfl)).2.1,
    (C13_header_format reference.primitives reference.secret 0 (reference.request "Bearer ")
      (spec.not_usable_of_drop "Bearer " rfl)).1⟩

/-- Counterexample to C14 as stated: the request without an `Authorization` header
and the request whose header is `Basic abc` are both rejected by `AuthRequired`, with
different bodies. -/
theorem C14_counterexample :
    middleware.AuthRequired reference.primitives reference.secret 0 (gin.Context.request []) =
      .ok (((gin.Context.request []).JSON 401
        [("error", "Authorization header required")]).Abort) ∧
    middleware.AuthRequired reference.primitives reference.secret 0
        (reference.request "Basic abc") =
      .ok (((reference.request "Basic abc").JSON 401
        [("error", "Invalid authorization header format")]).Abort) ∧
    (((gin.Context.request []).JSON 401
        [("error", "Authorization header required")]).Abort).Writer ≠
      (((reference.request "Basic abc").JSON 401
        [("error", "Invalid authorization header format")]).Abort).Writer := by
  refine ⟨rfl, ?_, by decide⟩
  rw [middleware.AuthRequired_not_bearer reference.primitives reference.secret 0
    (reference.request "Basic abc") (spec.not_bearer_of_take "Basic abc" (by decide))]
  rfl

/-- Claim C14, amended. Every rejection by `AuthRequired` has status 401 and a body
with the single field `error`, and its message is fixed by the stage the request
failed at: no header, a header that is not `Bearer <token>`, or a token that does
not pass verification. Two rejected requests that fail at the same stage get the
same response; in particular every token that fails verification, whichever check
it failed (malformed token, signature, algorithm family, expiry, not yet valid),
gets the response of every other. -/
theorem C14_rejections_by_stage (P : jwt.Primitives) (secret : List Nat) (n1 n2 : Int)
    (c1 c2 r1 r2 : gin.Context)
    (ha1 : c1.aborted = false) (ha2 : c2.aborted = false)
    (h1 : middleware.AuthRequired P secret n1 c1 = .ok r1) (hr1 : r1.aborted = true)
    (h2 : middleware.AuthRequired P secret n2 c2 = .ok r2) (hr2 : r2.aborted = true) :
    (∃ m1, r1.Writer = some { status := 401, body := [("error", m1)] }) ∧
    (∃ m2, r2.Writer = some { status := 401, body := [("error", m2)] }) ∧
    ((c1.GetHeader "Authorization" = "" ↔ c2.GetHeader "Authorization" = "") →
      ((∃ t, spec.IsBearer (c1.GetHeader "Authorization") t) ↔
        (∃ t, spec.IsBearer (c2.GetHeader "Authorization") t)) →
      r1.Writer = r2.Writer) ∧
    ((∃ t, spec.IsBearer (c1.GetHeader "Authorization") t) →
      (∃ t, spec.IsBearer (c2.GetHeader "Authorization") t) →
      r1.Writer = r2.Writer ∧
        r1.Writer = some { status := 401, body := [("error", "Invalid or expired token")] }) := by
  have e1 := middleware.AuthRequired_rejection P secret n1 c1 r1 ha1 h1 hr1
  have e2 := middleware.AuthRequired_rejection P secret n2 c2 r2 ha2 h2 hr2
  have hne : ∀ c : gin.Context, (∃ t, spec.IsBearer (c.GetHeader "Authorization") t) →
      c.GetHeader "Authorization" ≠ "" := by
    rintro c ⟨t, ht⟩ he
    rw [ht.1] at he
    exact middleware.bearer_ne_empty t he
  refine ⟨?_, ?_, ?_, ?_⟩
  · rcases e1 with ⟨_, rfl⟩ | ⟨_, _, rfl⟩ | ⟨_, rfl⟩ <;> exact ⟨_, rfl⟩
  · rcases e2 with ⟨_, rfl⟩ | ⟨_, _, rfl⟩ | ⟨_, rfl⟩ <;> exact ⟨_, rfl⟩
  · intro hempty hbearer
    rcases e1 with ⟨a1, rfl⟩ | ⟨a1, b1, rfl⟩ | ⟨b1, rfl⟩ <;>
      rcases e2 with ⟨a2, rfl⟩ | ⟨a2, b2, rfl⟩ | ⟨b2, rfl⟩
    · rfl
    · exact absurd (hempty.mp a1) a2
    · exact absurd (hempty.mp a1) (hne c2 b2)
    · exact absurd (hempty.mpr a2) a1
    · rfl
    · obtain ⟨t, ht⟩ := hbearer.mpr b2
      exact absurd ht (b1 t)
    · exact absurd (hempty.mpr a2) (hne c1 b1)
    · obtain ⟨t, ht⟩ := hbearer.mp b1
      exact absurd ht (b2 t)
    · rfl
  · intro b1 b2
    rcases e1 with ⟨a1, rfl⟩ | ⟨a1, n1, rfl⟩ | ⟨_, rfl⟩
    · exact absurd a1 (hne c1 b1)
    · obtain ⟨t, ht⟩ := b1
      exact absurd ht (n1 t)
    · rcases e2 with ⟨a2, rfl⟩ | ⟨a2, n2, rfl⟩ | ⟨_, rfl⟩
      · exact absurd a2 (hne c2 b2)
      · obtain ⟨t, ht⟩ := b2
        exact absurd ht (n2 t)
      · exact ⟨rfl, rfl⟩

/-- Witness of C14: the expired token of subject (7, alice) and the unsigned token
are rejected with one and the same response. -/
theorem C14_rejections_by_stage_witness :
    (middleware.rejected (reference.request ("Bearer " ++
        (handlers.generateToken reference.primitives reference.secret 0 0 7 "alice").1))
      "Invalid or expired token").Writer =
    (middleware.rejected (reference.request ("Bearer " ++ reference.unsignedToken))
      "Invalid or expired token").Writer ∧
    (middleware.rejected (reference.request ("Bearer " ++
        (handlers.generateToken reference.primitives reference.secret 0 0 7 "alice").1))
      "Invalid or expired token").Writer =
      some { status := 401, body := [("error", "Invalid or expired token")] } := by
  have hb1 : spec.IsBearer ((reference.request ("Bearer " ++
      (handlers.generateToken reference.primitives reference.secret 0 0 7 "alice").1)).GetHeader
      "Authorization")
      (handlers.generateToken reference.primitives reference.secret 0 0 7 "alice").1 :=
    middleware.IsBearer_token reference.primitives reference.primitives_lawful _ _ _ rfl
  have hb2 : spec.IsBearer ((reference.request ("Bearer " ++ reference.unsignedToken)).GetHeader
      "Authorization") reference.unsignedToken :=
    ⟨rfl, reference.unsignedToken_no_space⟩
  have g1 := (middleware.guards_of_not_Verifies reference.primitives reference.secret
    (0 + 24 * time.Hour + time.Second) _ _ hb1
    (handlers.issued_not_Verifies reference.primitives reference.primitives_lawful
      reference.secret 0 0 7 "alice" _ (by decide) (by decide) (by decide))).1
  have g2 := (middleware.guards_of_not_Verifies reference.primitives reference.secret 0 _ _ hb2
    (fun claims hver => absurd (spec.IsHMAC_of_SignatureValid reference.primitives
      reference.secret _ "none" claims reference.unsignedToken_HeaderNames hver.1)
      (by decide))).1
  exact (C14_rejections_by_stage reference.primitives reference.secret
    (0 + 24 * time.Hour + time.Second) 0
    (reference.request ("Bearer " ++
      (handlers.generateToken reference.primitives reference.secret 0 0 7 "alice").1))
    (reference.request ("Bearer " ++ reference.unsignedToken)) _ _ rfl rfl g1 rfl
    g2 rfl).2.2.2 ⟨_, hb1⟩ ⟨_, hb2⟩

/-! ## The store as a map with distinct keys -/

namespace gomap

theorem Distinct_nil {V : Type} : Distinct ([] : List (String × V)) :=
  List.nodup_nil

theorem Distinct_cons {V : Type} (k : String) (v : V) (m : List (String × V)) :
    Distinct ((k, v) :: m) ↔ (∀ kv ∈ m, kv.1 ≠ k) ∧ Distinct m := by
  unfold Distinct
  rw [List.map_cons, List.nodup_cons]
  constructor
  · rintro ⟨h1, h2⟩
    exact ⟨fun kv hkv e => h1 (List.mem_map.mpr ⟨kv, hkv, e⟩), h2⟩
  · rintro ⟨h1, h2⟩
    refine ⟨fun hmem => ?_, h2⟩
    obtain ⟨kv, hkv, e⟩ := List.mem_map.mp hmem
    exact h1 kv hkv e

/-- Filtering keeps the keys distinct. -/
theorem Distinct_filter {V : Type} (q : String × V → Bool) (m : List (String × V))
    (h : Distinct m) : Distinct (m.filter q) := by
  unfold Distinct at h ⊢
  exact List.Nodup.sublist (List.Sublist.map _ (List.filter_sublist m)) h

theorem Distinct_delete {V : Type} (m : List (String × V)) (key : String) (h : Distinct m) :
    Distinct (delete m key) :=
  Distinct_filter _ m h

theorem Distinct_set {V : Type} (m : List (String × V)) (key : String) (v : V)
    (h : Distinct m) : Distinct (set m key v) := by
  unfold set
  rw [Distinct_cons]
  refine ⟨fun kv hkv => ?_, Distinct_delete m key h⟩
  unfold delete at hkv
  rw [List.mem_filter] at hkv
  simpa using hkv.2

/-- In a map with distinct keys the entry of a key is the one lookup returns. -/
theorem get_eq_some_iff {V : Type} (m : List (String × V)) (h : Distinct m) (key : String)
    (v : V) : get m key = some v ↔ (key, v) ∈ m := by
  constructor
  · exact mem_of_get_eq_some m key v
  · intro hmem
    induction m with
    | nil => cases hmem
    | cons kv rest ih =>
      obtain ⟨k, w⟩ := kv
      rw [Distinct_cons] at h
      rcases List.mem_cons.mp hmem with e | e
      · cases e
        exact get_cons_self _ _ _
      · rw [get_cons_ne _ _ _ _ (h.1 (key, v) e).symm]
        exact ih h.2 e

/-- A loop that walks over entries and deletes the keys of those that satisfy `p`
keeps exactly the entries whose key no walked entry satisfying `p` carries. -/
theorem foldl_delete_eq_filter {V : Type} (p : String × V → Prop) [DecidablePred p]
    (xs m : List (String × V)) :
    xs.foldl (fun m kv => if p kv then delete m kv.1 else m) m =
      m.filter (fun kv => xs.all (fun x => !(decide (p x) && decide (x.1 = kv.1)))) := by
  induction xs generalizing m with
  | nil => simp
  | cons x rest ih =>
    rw [List.foldl_cons, ih]
    by_cases hp : p x
    · rw [if_pos hp]
      unfold delete
      rw [List.filter_filter]
      apply List.filter_congr
      intro kv _
      simp only [List.all_cons, hp, decide_True, Bool.true_and, ne_eq, decide_not]
      rw [Bool.and_comm]
      congr 1
      by_cases hk : x.1 = kv.1
      · simp [hk]
      · have hk1 : ¬ kv.1 = x.1 := fun e => hk e.symm
        simp [hk, hk1]
    · rw [if_neg hp]
      apply List.filter_congr
      intro kv _
      simp [hp]

/-- Run over the entries of the map itself, with distinct keys, the loop keeps
exactly the entries that do not satisfy `p`. -/
theorem foldl_delete_self {V : Type} (p : String × V → Prop) [DecidablePred p]
    (m : List (String × V)) (h : Distinct m) :
    m.foldl (fun m kv => if p kv then delete m kv.1 else m) m =
      m.filter (fun kv => !decide (p kv)) := by
  rw [foldl_delete_eq_filter]
  apply List.filter_congr
  intro kv hkv
  by_cases hp : p kv
  · have : m.all (fun x => !(decide (p x) && decide (x.1 = kv.1))) = false := by
      rw [Bool.eq_false_iff]
      intro hall
      rw [List.all_eq_true] at hall
      have := hall kv hkv
      simp [hp] at this
    rw [this]
    simp [hp]
  · have : m.all (fun x => !(decide (p x) && decide (x.1 = kv.1))) = true := by
      rw [List.all_eq_true]
      intro x hx
      by_cases hk : x.1 = kv.1
      · have hget1 := (get_eq_some_iff m h x.1 x.2).mpr hx
        have hget2 := (get_eq_some_iff m h kv.1 kv.2).mpr hkv
        rw [hk, hget2] at hget1
        have hx2 : x = kv := Prod.ext hk (Option.some.inj hget1).symm
        rw [hx2]
        simp [hp]
      · simp [hk]
    rw [this]
    simp [hp]

end gomap

namespace cache

theorem WellFormed_new : InMemoryCache.new.WellFormed :=
  gomap.Distinct_nil

theorem WellFormed_Set {V : Type} (marshal : V → Except String (List Nat)) (c : InMemoryCache)
    (now : Int) (key : String) (value : V) (ttl : Int) (h : c.WellFormed) :
    (c.Set marshal now key value ttl).1.WellFormed := by
  unfold InMemoryCache.Set
  cases marshal value with
  | error err => exact h
  | ok data => exact gomap.Distinct_set _ _ _ h

theorem WellFormed_Delete (c : InMemoryCache) (key : String) (h : c.WellFormed) :
    (c.Delete key).1.WellFormed :=
  gomap.Distinct_delete _ _ h

/-- What one sweep leaves of a well-formed store: the entries not expired. -/
theorem cleanup_items (c : InMemoryCache) (now : Int) (h : c.WellFormed) :
    (c.cleanup now).items = c.items.filter (fun kv => !decide (kv.2.Expiration < now)) :=
  gomap.foldl_delete_self (fun kv : String × CacheItem => kv.2.Expiration < now) c.items h

theorem WellFormed_cleanup (c : InMemoryCache) (now : Int) (h : c.WellFormed) :
    (c.cleanup now).WellFormed := by
  unfold InMemoryCache.WellFormed
  rw [cleanup_items c now h]
  exact gomap.Distinct_filter _ _ h

theorem DeleteByPrefix_items (c : InMemoryCache) (pfx : String) (h : c.WellFormed) :
    (c.DeleteByPrefix pfx).1.items = c.items.filter (fun kv => !decide (hasPrefix kv.1 pfx = true)) :=
  gomap.foldl_delete_self (fun kv : String × CacheItem => hasPrefix kv.1 pfx = true) c.items h

theorem WellFormed_DeleteByPrefix (c : InMemoryCache) (pfx : String) (h : c.WellFormed) :
    (c.DeleteByPrefix pfx).1.WellFormed := by
  unfold InMemoryCache.WellFormed
  rw [DeleteByPrefix_items c pfx h]
  exact gomap.Distinct_filter _ _ h

theorem WellFormed_step {V : Type} (marshal : V → Except String (List Nat)) (c : InMemoryCache)
    (now : Int) (op : Op V) (h : c.WellFormed) : (c.step marshal now op).WellFormed := by
  cases op with
  | Get k => exact h
  | Set k value ttl => exact WellFormed_Set marshal c now k value ttl h
  | Delete k => exact WellFormed_Delete c k h
  | DeleteByPrefix pfx => exact WellFormed_DeleteByPrefix c pfx h
  | cleanup => exact WellFormed_cleanup c now h

/-- Every store reached from a well-formed one is well-formed. -/
theorem WellFormed_run {V : Type} (marshal : V → Except String (List Nat))
    (trace : List (Int × Op V)) (c : InMemoryCache) (h : c.WellFormed) :
    (c.run marshal trace).WellFormed := by
  induction trace generalizing c with
  | nil => exact h
  | cons x rest ih =>
    obtain ⟨now, op⟩ := x
    exact ih _ (WellFormed_step marshal c now op h)

end cache

/-! ## Claims C15 to C19: the cache service -/

/-- Claim C15. `Get` of a key that was never set fails with `key not found`: on the
freshly created store, and on every store reached from it by a run of operations none
of which assigns the key. -/
theorem C15_get_never_set {V : Type} (marshal : V → Except String (List Nat))
    (trace : List (Int × cache.Op V)) (k : String) (now : Int)
    (h : ∀ op ∈ trace, cache.Op.setsKey k op.2 = false) :
    cache.InMemoryCache.new.Get now k = .error ("key not found: " ++ k) ∧
    (cache.InMemoryCache.new.run marshal trace).Get now k = .error ("key not found: " ++ k) ∧
    cache.isNotFound ((cache.InMemoryCache.new.run marshal trace).Get now k) = true := by
  have hg : (cache.InMemoryCache.new.run marshal trace).Get now k =
      .error ("key not found: " ++ k) := by
    apply cache.Get_of_get_none
    rcases cache.get_run marshal k trace cache.InMemoryCache.new h with h1 | h1
    · exact h1
    · rw [h1]
      rfl
  refine ⟨rfl, hg, ?_⟩
  rw [hg]
  rfl

/-- Witness of C15: after writes and deletions of other keys and a sweep, the key
`cache:stats`, never set, is not found. -/
theorem C15_get_never_set_witness :
    (cache.InMemoryCache.new.run (fun v : List Nat => Except.ok v)
      [(0, cache.Op.Set "cache:tags" [1] 5), (1, cache.Op.cleanup),
       (2, cache.Op.Delete "cache:tags")]).Get 3 cache.KeyStats
      = .error ("key not found: " ++ cache.KeyStats) :=
  (C15_get_never_set (fun v : List Nat => Except.ok v)
    [(0, cache.Op.Set "cache:tags" [1] 5), (1, cache.Op.cleanup),
     (2, cache.Op.Delete "cache:tags")] cache.KeyStats 3 (by decide)).2.1

/-- Claim C16. A `Set` of key `k` with a value that `marshal` encodes to `data`, run
at time `now` on any store, returns no error and leaves exactly one entry for `k`:
the bytes `data` with expiry `now + ttl`, whatever the store held under `k` before;
lookup returns that entry, and a later `Set` replaces it by its own, also with a
shorter TTL. -/
theorem C16_set_overwrites {V : Type} (marshal : V → Except String (List Nat))
    (c : cache.InMemoryCache) (now : Int) (k : String) (v : V) (ttl : Int) (data : List Nat)
    (hv : marshal v = .ok data) :
    (c.Set marshal now k v ttl).2 = none ∧
    (c.Set marshal now k v ttl).1.items.filter (fun kv => decide (kv.1 = k)) =
      [(k, { Value := data, Expiration := now + ttl })] ∧
    gomap.get (c.Set marshal now k v ttl).1.items k =
      some { Value := data, Expiration := now + ttl } ∧
    ∀ (now2 : Int) (v2 : V) (ttl2 : Int) (data2 : List Nat), marshal v2 = .ok data2 →
      gomap.get ((c.Set marshal now k v ttl).1.Set marshal now2 k v2 ttl2).1.items k =
        some { Value := data2, Expiration := now2 + ttl2 } := by
  have hset : ∀ (c0 : cache.InMemoryCache) (n0 : Int) (v0 : V) (t0 : Int) (d0 : List Nat),
      marshal v0 = .ok d0 →
      (c0.Set marshal n0 k v0 t0) =
        ({ items := gomap.set c0.items k { Value := d0, Expiration := n0 + t0 } }, none) := by
    intro c0 n0 v0 t0 d0 h0
    unfold cache.InMemoryCache.Set
    rw [h0]
  rw [hset c now v ttl data hv]
  refine ⟨rfl, ?_, gomap.get_set_self _ _ _, ?_⟩
  · show (gomap.set c.items k _).filter _ = _
    unfold gomap.set gomap.delete
    rw [List.filter_cons_of_pos (by simp), List.filter_filter]
    congr 1
    rw [List.filter_eq_nil_iff]
    intro kv _
    simp
  · intro now2 v2 ttl2 data2 h2
    rw [hset _ now2 v2 ttl2 data2 h2]
    exact gomap.get_set_self _ _ _

/-- Witness of C16: over an entry with a long life, a `Set` with a short TTL leaves
the one entry with the short life. -/
theorem C16_set_overwrites_witness :
    (({ items := [("k", { Value := [9], Expiration := 1000 })] } : cache.InMemoryCache).Set
      (fun v : List Nat => Except.ok v) 10 "k" [1, 2] 5).1.items.filter
        (fun kv => decide (kv.1 = "k")) = [("k", { Value := [1, 2], Expiration := 10 + 5 })] :=
  (C16_set_overwrites (fun v : List Nat => Except.ok v)
    { items := [("k", { Value := [9], Expiration := 1000 })] } 10 "k" [1, 2] 5 [1, 2] rfl).2.1

/-- Claim C17. `Set` returns an error exactly when `marshal` fails on the value; the
error is the marshalling error wrapped as `failed to marshal value: ...`, and the
store after the failed call is the store before it. -/
theorem C17_set_failure {V : Type} (marshal : V → Except String (List Nat))
    (c : cache.InMemoryCache) (now : Int) (k : String) (v : V) (ttl : Int) :
    ((c.Set marshal now k v ttl).2 ≠ none ↔ ∃ err, marshal v = .error err) ∧
    (∀ err, marshal v = .error err →
      (c.Set marshal now k v ttl).2 = some ("failed to marshal value: " ++ err) ∧
      (c.Set marshal now k v ttl).1 = c) := by
  unfold cache.InMemoryCache.Set
  cases hm : marshal v with
  | error err =>
    refine ⟨⟨fun _ => ⟨err, rfl⟩, fun _ h => by cases h⟩, ?_⟩
    intro e he
    cases he
    exact ⟨rfl, rfl⟩
  | ok data =>
    refine ⟨⟨fun h => absurd rfl h, ?_⟩, ?_⟩
    · rintro ⟨e, he⟩
      cases he
    · intro e he
      cases he

/-- Witness of C17: a value `marshal` refuses makes `Set` fail with the wrapped
error, and the entry the key held stays as it was. -/
theorem C17_set_failure_witness :
    (({ items := [("k", { Value := [9], Expiration := 1000 })] } : cache.InMemoryCache).Set
        (fun _ : Unit => Except.error "unsupported type") 10 "k" () 5).2 =
      some ("failed to marshal value: " ++ "unsupported type") ∧
    (({ items := [("k", { Value := [9], Expiration := 1000 })] } : cache.InMemoryCache).Set
        (fun _ : Unit => Except.error "unsupported type") 10 "k" () 5).1 =
      { items := [("k", { Value := [9], Expiration := 1000 })] } :=
  (C17_set_failure (fun _ : Unit => Except.error "unsupported type")
    { items := [("k", { Value := [9], Expiration := 1000 })] } 10 "k" () 5).2
    "unsupported type" rfl

/-- Claim C18. A `Get` leaves the store as it is: the store after any run of reads
is the store before it; and a `Get` that fails on an expired entry fails with
`key expired`, with the entry still bound in the store after the read. -/
theorem C18_get_frame {V : Type} (marshal : V → Except String (List Nat))
    (c : cache.InMemoryCache) :
    (∀ now key, c.step marshal now (cache.Op.Get key) = c) ∧
    (∀ trace : List (Int × cache.Op V), (∀ op ∈ trace, cache.Op.isGet op.2 = true) →
      c.run marshal trace = c) ∧
    (∀ now key item, gomap.get c.items key = some item → item.Expiration < now →
      c.Get now key = .error ("key expired: " ++ key) ∧
      gomap.get (c.step marshal now (cache.Op.Get key)).items key = some item) := by
  refine ⟨fun _ _ => rfl, ?_, ?_⟩
  · intro trace
    induction trace with
    | nil => intro _; rfl
    | cons x rest ih =>
      intro h
      obtain ⟨now, op⟩ := x
      have hop := h (now, op) (List.mem_cons_self _ _)
      cases op with
      | Get key =>
        show (c.step marshal now (cache.Op.Get key)).run marshal rest = c
        exact ih (fun o ho => h o (List.mem_cons_of_mem _ ho))
      | Set key value ttl => cases hop
      | Delete key => cases hop
      | DeleteByPrefix pfx => cases hop
      | cleanup => cases hop
  · intro now key item hget hexp
    refine ⟨?_, hget⟩
    unfold cache.InMemoryCache.Get
    rw [hget]
    simp only [hexp, if_true]

/-- Witness of C18: the read of an entry that expired at time 5, at time 10, fails
with `key expired` and leaves the entry bound. -/
theorem C18_get_frame_witness :
    ({ items := [("k", { Value := [9], Expiration := 5 })] } : cache.InMemoryCache).Get 10 "k" =
      .error ("key expired: " ++ "k") ∧
    gomap.get (({ items := [("k", { Value := [9], Expiration := 5 })] } :
        cache.InMemoryCache).step (fun v : List Nat => Except.ok v) 10
          (cache.Op.Get "k")).items "k" =
      some { Value := [9], Expiration := 5 } :=
  (C18_get_frame (fun v : List Nat => Except.ok v)
    { items := [("k", { Value := [9], Expiration := 5 })] }).2.2 10 "k"
    { Value := [9], Expiration := 5 } rfl (by decide)

/-- Claim C19. One sweep at time `now` over a store with distinct keys keeps exactly
the entries whose stored expiry `now` is not past: an entry is in the store after the
sweep if and only if it was in it before and is not expired at `now`, value and expiry
as they were; so an entry refreshed by a `Set` before the sweep stays when its new
expiry is not past, whatever expiry the key had before. -/
theorem C19_sweep_exact (c : cache.InMemoryCache) (now : Int) (hwf : c.WellFormed) :
    (∀ k item, (k, item) ∈ (c.cleanup now).items ↔
      ((k, item) ∈ c.items ∧ ¬ item.Expiration < now)) ∧
    (∀ k, gomap.get (c.cleanup now).items k =
      match gomap.get c.items k with
      | some item => if item.Expiration < now then none else some item
      | none => none) ∧
    (∀ (V : Type) (marshal : V → Except String (List Nat)) (t1 : Int) (k : String) (v : V)
      (ttl : Int) (data : List Nat), marshal v = .ok data → now ≤ t1 + ttl →
      gomap.get ((c.Set marshal t1 k v ttl).1.cleanup now).items k =
        some { Value := data, Expiration := t1 + ttl }) := by
  have hmem : ∀ (c0 : cache.InMemoryCache), c0.WellFormed → ∀ k item,
      (k, item) ∈ (c0.cleanup now).items ↔ ((k, item) ∈ c0.items ∧ ¬ item.Expiration < now) := by
    intro c0 h0 k item
    rw [cache.cleanup_items c0 now h0, List.mem_filter]
    simp
  have hget : ∀ (c0 : cache.InMemoryCache), c0.WellFormed → ∀ k,
      gomap.get (c0.cleanup now).items k =
        match gomap.get c0.items k with
        | some item => if item.Expiration < now then none else some item
        | none => none := by
    intro c0 h0 k
    have hwf1 := cache.WellFormed_cleanup c0 now h0
    cases hg : gomap.get c0.items k with
    | none =>
      rcases cache.get_cleanup c0 now k with h1 | h1
      · exact h1
      · rw [h1, hg]
    | some item =>
      simp only
      by_cases hexp : item.Expiration < now
      · rw [if_pos hexp]
        cases hg1 : gomap.get (c0.cleanup now).items k with
        | none => rfl
        | some item1 =>
          have h1 := (hmem c0 h0 k item1).mp ((gomap.get_eq_some_iff _ hwf1 k item1).mp hg1)
          have h2 := (gomap.get_eq_some_iff _ h0 k item1).mpr h1.1
          rw [hg] at h2
          cases h2
          exact absurd hexp h1.2
      · rw [if_neg hexp]
        exact (gomap.get_eq_some_iff _ hwf1 k item).mpr
          ((hmem c0 h0 k item).mpr ⟨(gomap.get_eq_some_iff _ h0 k item).mp hg, hexp⟩)
  refine ⟨hmem c hwf, hget c hwf, ?_⟩
  intro V marshal t1 k v ttl data hv hle
  rw [hget _ (cache.WellFormed_Set marshal c t1 k v ttl hwf)]
  have hs : gomap.get (c.Set marshal t1 k v ttl).1.items k =
      some { Value := data, Expiration := t1 + ttl } := by
    unfold cache.InMemoryCache.Set
    rw [hv]
    exact gomap.get_set_self _ _ _
  rw [hs]
  simp only
  rw [if_neg (by omega)]

/-- Witness of C19: of an expired and a live entry the sweep at time 10 removes the
first and keeps the second. -/
theorem C19_sweep_exact_witness :
    gomap.get (({ items := [("old", { Value := [1], Expiration := 5 }),
        ("live", { Value := [2], Expiration := 20 })] } : cache.InMemoryCache).cleanup 10).items
      "old" = none ∧
    gomap.get (({ items := [("old", { Value := [1], Expiration := 5 }),
        ("live", { Value := [2], Expiration := 20 })] } : cache.InMemoryCache).cleanup 10).items
      "live" = some { Value := [2], Expiration := 20 } :=
  ⟨(C19_sweep_exact { items := [("old", { Value := [1], Expiration := 5 }),
        ("live", { Value := [2], Expiration := 20 })] } 10 (by decide)).2.1 "old",
   (C19_sweep_exact { items := [("old", { Value := [1], Expiration := 5 }),
        ("live", { Value := [2], Expiration := 20 })] } 10 (by decide)).2.1 "live"⟩

/-! ## The write handlers and the cache -/

namespace handlers

/-- After a tag handler has answered with a success status, the tag list is unbound
and every other key is bound as before. -/
theorem TagHandler_Create_store (store : cache.InMemoryCache)
    (bind : Except String models.TagInput) (repoCreate : models.TagInput → Except String Int)
    (h : (TagHandler.Create store bind repoCreate).2.status = http.StatusCreated) :
    (TagHandler.Create store bind repoCreate).1 = (store.Delete cache.KeyTags).1 := by
  unfold TagHandler.Create at h ⊢
  cases bind with
  | error err => exact absurd (show http.StatusBadRequest = http.StatusCreated from h) (by decide)
  | ok input =>
    simp only at h ⊢
    cases hr : repoCreate input with
    | error err =>
      rw [hr] at h
      exact absurd (show http.StatusInternalServerError = http.StatusCreated from h) (by decide)
    | ok tagID => rfl

theorem TagHandler_Update_store (store : cache.InMemoryCache) (id : String)
    (bind : Except String models.TagInput)
    (repoUpdate : String → models.TagInput → Option String)
    (h : (TagHandler.Update store id bind repoUpdate).2.status = http.StatusOK) :
    (TagHandler.Update store id bind repoUpdate).1 = (store.Delete cache.KeyTags).1 := by
  unfold TagHandler.Update at h ⊢
  cases bind with
  | error err => exact absurd (show http.StatusBadRequest = http.StatusOK from h) (by decide)
  | ok input =>
    simp only at h ⊢
    cases hr : repoUpdate id input with
    | some err =>
      rw [hr] at h
      exact absurd (show http.StatusInternalServerError = http.StatusOK from h) (by decide)
    | none => rfl

theorem TagHandler_Delete_store (store : cache.InMemoryCache) (id : String)
    (repoDelete : String → Except String Int)
    (h : (TagHandler.Delete store id repoDelete).2.status = http.StatusOK) :
    (TagHandler.Delete store id repoDelete).1 = (store.Delete cache.KeyTags).1 := by
  unfold TagHandler.Delete at h ⊢
  cases hr : repoDelete id with
  | error err =>
    rw [hr] at h
    exact absurd (show http.StatusInternalServerError = http.StatusOK from h) (by decide)
  | ok affected =>
    rw [hr] at h
    simp only at h ⊢
    by_cases h0 : affected = 0
    · rw [if_pos h0] at h
      exact absurd (show http.StatusNotFound = http.StatusOK from h) (by decide)
    · rw [if_neg h0]

theorem CategoryHandler_Create_store (store : cache.InMemoryCache)
    (bind : Except String models.CategoryInput)
    (repoCreate : models.CategoryInput → Except String Int)
    (h : (CategoryHandler.Create store bind repoCreate).2.status = http.StatusCreated) :
    (CategoryHandler.Create store bind repoCreate).1 =
      (store.Delete cache.KeyCategories).1 := by
  unfold CategoryHandler.Create at h ⊢
  cases bind with
  | error err => exact absurd (show http.StatusBadRequest = http.StatusCreated from h) (by decide)
  | ok input =>
    simp only at h ⊢
    cases hr : repoCreate input with
    | error err =>
      rw [hr] at h
      exact absurd (show http.StatusInternalServerError = http.StatusCreated from h) (by decide)
    | ok categoryID => rfl

theorem CategoryHandler_Update_store (store : cache.InMemoryCache) (id : Except String Int)
    (bind : Except String models.CategoryInput)
    (repoUpdate : Int → models.CategoryInput → Option String)
    (h : (CategoryHandler.Update store id bind repoUpdate).2.status = http.StatusOK) :
    (CategoryHandler.Update store id bind repoUpdate).1 =
      (store.Delete cache.KeyCategories).1 := by
  unfold CategoryHandler.Update at h ⊢
  cases id with
  | error e => exact absurd (show http.StatusBadRequest = http.StatusOK from h) (by decide)
  | ok id =>
    cases bind with
    | error err => exact absurd (show http.StatusBadRequest = http.StatusOK from h) (by decide)
    | ok input =>
      simp only at h ⊢
      cases hr : repoUpdate id input with
      | some err =>
        rw [hr] at h
        exact absurd (show http.StatusInternalServerError = http.StatusOK from h) (by decide)
      | none => rfl

theorem CategoryHandler_Delete_store (store : cache.InMemoryCache) (id : Except String Int)
    (repoDelete : Int → Option String)
    (h : (CategoryHandler.Delete store id repoDelete).2.status = http.StatusOK) :
    (CategoryHandler.Delete store id repoDelete).1 = (store.Delete cache.KeyCategories).1 := by
  unfold CategoryHandler.Delete at h ⊢
  cases id with
  | error e => exact absurd (show http.StatusBadRequest = http.StatusOK from h) (by decide)
  | ok id =>
    simp only at h ⊢
    cases hr : repoDelete id with
    | some err =>
      rw [hr] at h
      exact absurd (show http.StatusInternalServerError = http.StatusOK from h) (by decide)
    | none => rfl

/-- The prompt handlers leave the store as it is, whatever they answer. -/
theorem PromptHandler_Create_store (store : cache.InMemoryCache)
    (bind : Except String models.PromptInput)
    (repoCreate : models.PromptInput → Except String Int) :
    (PromptHandler.Create store bind repoCreate).1 = store := by
  unfold PromptHandler.Create
  cases bind with
  | error err => rfl
  | ok input =>
    simp only
    cases repoCreate input <;> rfl

theorem PromptHandler_Delete_store (store : cache.InMemoryCache) (id : String)
    (repoDelete : String → Option String) :
    (PromptHandler.Delete store id repoDelete).1 = store := by
  unfold PromptHandler.Delete
  cases repoDelete id <;> rfl

theorem PromptHandler_BulkDelete_store (store : cache.InMemoryCache)
    (bind : Except String models.BulkActionInput)
    (repoBulkDelete : List Int → Except String Int) :
    (PromptHandler.BulkDelete store bind repoBulkDelete).1 = store := by
  unfold PromptHandler.BulkDelete
  cases bind with
  | error err => rfl
  | ok input =>
    simp only
    split
    · rfl
    · cases repoBulkDelete input.IDs <;> rfl

/-- The cached views a write handler leaves behind. After a successful tag write the
tag list is unbound and the statistics are bound as before; after a successful
category write the category list is unbound; a prompt write changes no binding. -/
theorem write_handlers_cache (store : cache.InMemoryCache) :
    (∀ bind repo, (TagHandler.Create store bind repo).2.status = http.StatusCreated →
      gomap.get (TagHandler.Create store bind repo).1.items cache.KeyTags = none ∧
      gomap.get (TagHandler.Create store bind repo).1.items cache.KeyStats =
        gomap.get store.items cache.KeyStats) ∧
    (∀ id bind repo, (TagHandler.Update store id bind repo).2.status = http.StatusOK →
      gomap.get (TagHandler.Update store id bind repo).1.items cache.KeyTags = none ∧
      gomap.get (TagHandler.Update store id bind repo).1.items cache.KeyStats =
        gomap.get store.items cache.KeyStats) ∧
    (∀ id repo, (TagHandler.Delete store id repo).2.status = http.StatusOK →
      gomap.get (TagHandler.Delete store id repo).1.items cache.KeyTags = none ∧
      gomap.get (TagHandler.Delete store id repo).1.items cache.KeyStats =
        gomap.get store.items cache.KeyStats) ∧
    (∀ bind repo, (CategoryHandler.Create store bind repo).2.status = http.StatusCreated →
      gomap.get (CategoryHandler.Create store bind repo).1.items cache.KeyCategories = none) ∧
    (∀ id bind repo, (CategoryHandler.Update store id bind repo).2.status = http.StatusOK →
      gomap.get (CategoryHandler.Update store id bind repo).1.items cache.KeyCategories =
        none) ∧
    (∀ id repo, (CategoryHandler.Delete store id repo).2.status = http.StatusOK →
      gomap.get (CategoryHandler.Delete store id repo).1.items cache.KeyCategories = none) ∧
    (∀ bind repo, (PromptHandler.Create store bind repo).1 = store) ∧
    (∀ id repo, (PromptHandler.Delete store id repo).1 = store) ∧
    (∀ bind repo, (PromptHandler.BulkDelete store bind repo).1 = store) := by
  have hne : cache.KeyStats ≠ cache.KeyTags := by decide
  refine ⟨?_, ?_, ?_, ?_, ?_, ?_, PromptHandler_Create_store store,
    PromptHandler_Delete_store store, PromptHandler_BulkDelete_store store⟩
  · intro bind repo h
    rw [TagHandler_Create_store store bind repo h]
    exact ⟨gomap.get_delete_self _ _, gomap.get_delete_ne _ _ _ hne⟩
  · intro id bind repo h
    rw [TagHandler_Update_store store id bind repo h]
    exact ⟨gomap.get_delete_self _ _, gomap.get_delete_ne _ _ _ hne⟩
  · intro id repo h
    rw [TagHandler_Delete_store store id repo h]
    exact ⟨gomap.get_delete_self _ _, gomap.get_delete_ne _ _ _ hne⟩
  · intro bind repo h
    rw [CategoryHandler_Create_store store bind repo h]
    exact gomap.get_delete_self _ _
  · intro id bind repo h
    rw [CategoryHandler_Update_store store id bind repo h]
    exact gomap.get_delete_self _ _
  · intro id repo h
    rw [CategoryHandler_Delete_store store id repo h]
    exact gomap.get_delete_self _ _

end handlers

/-! ## Claim C20: the write handlers invalidate the cache -/

/-- Counterexample to C20 as stated: on a store that holds the statistics and the tag
list computed at time 0, a successful `TagHandler.Create` answers 201 and unbinds
`cache:tags`, and one second later `cache:stats` is still read from the store with
the bytes computed before the tag was created; a successful `PromptHandler.Create`
answers 201 and leaves `cache:stats` readable in the same way. -/
theorem C20_counterexample :
    (handlers.TagHandler.Create reference.warmStore (.ok reference.tagInput)
        (fun _ => .ok 7)).2.status = 201 ∧
    (handlers.TagHandler.Create reference.warmStore (.ok reference.tagInput)
        (fun _ => .ok 7)).1.Get 1000000000 cache.KeyTags =
      .error "key not found: cache:tags" ∧
    (handlers.TagHandler.Create reference.warmStore (.ok reference.tagInput)
        (fun _ => .ok 7)).1.Get 1000000000 cache.KeyStats = .ok [1] ∧
    (handlers.PromptHandler.Create reference.warmStore (.ok reference.promptInput)
        (fun _ => .ok 7)).2.status = 201 ∧
    (handlers.PromptHandler.Create reference.warmStore (.ok reference.promptInput)
        (fun _ => .ok 7)).1.Get 1000000000 cache.KeyStats = .ok [1] := by
  exact ⟨rfl, rfl, rfl, rfl, rfl⟩

/-- Claim C20, amended. After a write handler has answered with its success status,
the list view of the entity written is absent from the cache and no other cached view
is touched: after a successful tag Create, Update or Delete `cache:tags` is unbound
and every other key, `cache:stats` among them, is bound as before; after a successful
category Create, Update or Delete `cache:categories` is unbound and every other key is
bound as before; a prompt Create, Delete or BulkDelete leaves the whole store as it
was. The cached statistics are not invalidated by any write: they are served until
their own expiry. -/
theorem C20_write_handlers_invalidate (store : cache.InMemoryCache) :
    (∀ bind repo, (handlers.TagHandler.Create store bind repo).2.status = http.StatusCreated →
      gomap.get (handlers.TagHandler.Create store bind repo).1.items cache.KeyTags = none ∧
      ∀ k, k ≠ cache.KeyTags →
        gomap.get (handlers.TagHandler.Create store bind repo).1.items k =
          gomap.get store.items k) ∧
    (∀ id bind repo, (handlers.TagHandler.Update store id bind repo).2.status = http.StatusOK →
      gomap.get (handlers.TagHandler.Update store id bind repo).1.items cache.KeyTags = none ∧
      ∀ k, k ≠ cache.KeyTags →
        gomap.get (handlers.TagHandler.Update store id bind repo).1.items k =
          gomap.get store.items k) ∧
    (∀ id repo, (handlers.TagHandler.Delete store id repo).2.status = http.StatusOK →
      gomap.get (handlers.TagHandler.Delete store id repo).1.items cache.KeyTags = none ∧
      ∀ k, k ≠ cache.KeyTags →
        gomap.get (handlers.TagHandler.Delete store id repo).1.items k =
          gomap.get store.items k) ∧
    (∀ bind repo,
      (handlers.CategoryHandler.Create store bind repo).2.status = http.StatusCreated →
      gomap.get (handlers.CategoryHandler.Create store bind repo).1.items
        cache.KeyCategories = none ∧
      ∀ k, k ≠ cache.KeyCategories →
        gomap.get (handlers.CategoryHandler.Create store bind repo).1.items k =
          gomap.get store.items k) ∧
    (∀ id bind repo,
      (handlers.CategoryHandler.Update store id bind repo).2.status = http.StatusOK →
      gomap.get (handlers.CategoryHandler.Update store id bind repo).1.items
        cache.KeyCategories = none ∧
      ∀ k, k ≠ cache.KeyCategories →
        gomap.get (handlers.CategoryHandler.Update store id bind repo).1.items k =
          gomap.get store.items k) ∧
    (∀ id repo, (handlers.CategoryHandler.Delete store id repo).2.status = http.StatusOK →
      gomap.get (handlers.CategoryHandler.Delete store id repo).1.items
        cache.KeyCategories = none ∧
      ∀ k, k ≠ cache.KeyCategories →
        gomap.get (handlers.CategoryHandler.Delete store id repo).1.items k =
          gomap.get store.items k) ∧
    (∀ bind repo, (handlers.PromptHandler.Create store bind repo).1 = store) ∧
    (∀ id repo, (handlers.PromptHandler.Delete store id repo).1 = store) ∧
    (∀ bind repo, (handlers.PromptHandler.BulkDelete store bind repo).1 = store) := by
  refine ⟨?_, ?_, ?_, ?_, ?_, ?_, handlers.PromptHandler_Create_store store,
    handlers.PromptHandler_Delete_store store, handlers.PromptHandler_BulkDelete_store store⟩
  · intro bind repo h
    rw [handlers.TagHandler_Create_store store bind repo h]
    exact ⟨gomap.get_delete_self _ _, fun k hk => gomap.get_delete_ne _ _ _ hk⟩
  · intro id bind repo h
    rw [handlers.TagHandler_Update_store store id bind repo h]
    exact ⟨gomap.get_delete_self _ _, fun k hk => gomap.get_delete_ne _ _ _ hk⟩
  · intro id repo h
    rw [handlers.TagHandler_Delete_store store id repo h]
    exact ⟨gomap.get_delete_self _ _, fun k hk => gomap.get_delete_ne _ _ _ hk⟩
  · intro bind repo h
    rw [handlers.CategoryHandler_Create_store store bind repo h]
    exact ⟨gomap.get_delete_self _ _, fun k hk => gomap.get_delete_ne _ _ _ hk⟩
  · intro id bind repo h
    rw [handlers.CategoryHandler_Update_store store id bind repo h]
    exact ⟨gomap.get_delete_self _ _, fun k hk => gomap.get_delete_ne _ _ _ hk⟩
  · intro id repo h
    rw [handlers.CategoryHandler_Delete_store store id repo h]
    exact ⟨gomap.get_delete_self _ _, fun k hk => gomap.get_delete_ne _ _ _ hk⟩

/-- Witness of C20: on the store that holds the tag list and the statistics, the tag
Create that the repository accepts answers 201, after which `cache:tags` is unbound
and `cache:stats` is bound as before. -/
theorem C20_write_handlers_invalidate_witness :
    (handlers.TagHandler.Create reference.warmStore (.ok reference.tagInput)
        (fun _ => .ok 7)).2.status = http.StatusCreated ∧
    gomap.get (handlers.TagHandler.Create reference.warmStore (.ok reference.tagInput)
        (fun _ => .ok 7)).1.items cache.KeyTags = none ∧
    gomap.get (handlers.TagHandler.Create reference.warmStore (.ok reference.tagInput)
        (fun _ => .ok 7)).1.items cache.KeyStats =
      gomap.get reference.warmStore.items cache.KeyStats :=
  ⟨rfl,
    ((C20_write_handlers_invalidate reference.warmStore).1 (.ok reference.tagInput)
      (fun _ => .ok 7) rfl).1,
    ((C20_write_handlers_invalidate reference.warmStore).1 (.ok reference.tagInput)
      (fun _ => .ok 7) rfl).2 cache.KeyStats (by decide)⟩

/-! ## Claim C21: a failed `Set` does not abort a read -/

namespace handlers

/-- On a miss `TagHandler.List` answers from the repository result alone. -/
theorem TagHandler_List_miss (store : cache.InMemoryCache) (now1 now2 : Int)
    (unmarshal : List Nat → Option (List models.Tag))
    (marshal : List models.Tag → Except String (List Nat))
    (repoList : Except String (List models.Tag))
    (hmiss : ∀ cached, store.Get now1 cache.KeyTags = .ok cached → unmarshal cached = none) :
    (TagHandler.List store now1 now2 unmarshal marshal repoList).2 =
      match repoList with
      | .error err =>
        { status := http.StatusInternalServerError, body := .H [("error", .string err)] }
      | .ok tags => { status := http.StatusOK, body := .data tags } := by
  unfold TagHandler.List
  cases hg : store.Get now1 cache.KeyTags with
  | error e => cases repoList <;> rfl
  | ok cached =>
    simp only [hmiss cached hg]
    cases repoList <;> rfl

theorem TagHandler_GetStats_miss (store : cache.InMemoryCache) (now1 now2 : Int)
    (unmarshal : List Nat → Option (List (String × jwt.Value)))
    (marshal : models.Stats → Except String (List Nat))
    (repoGetStats : Except String models.Stats)
    (hmiss : ∀ cached, store.Get now1 cache.KeyStats = .ok cached → unmarshal cached = none) :
    (TagHandler.GetStats store now1 now2 unmarshal marshal repoGetStats).2 =
      match repoGetStats with
      | .error err =>
        { status := http.StatusInternalServerError, body := .H [("error", .string err)] }
      | .ok stats => { status := http.StatusOK, body := .json stats } := by
  unfold TagHandler.GetStats
  cases hg : store.Get now1 cache.KeyStats with
  | error e => cases repoGetStats <;> rfl
  | ok cached =>
    simp only [hmiss cached hg]
    cases repoGetStats <;> rfl

theorem CategoryHandler_List_miss (store : cache.InMemoryCache) (now1 now2 : Int)
    (unmarshal : List Nat → Option (List models.Category))
    (marshal : List models.Category → Except String (List Nat))
    (repoList : Except String (List models.Category))
    (hmiss : ∀ cached, store.Get now1 cache.KeyCategories = .ok cached →
      unmarshal cached = none) :
    (CategoryHandler.List store now1 now2 unmarshal marshal repoList).2 =
      match repoList with
      | .error err =>
        { status := http.StatusInternalServerError, body := .H [("error", .string err)] }
      | .ok categories => { status := http.StatusOK, body := .json categories } := by
  unfold CategoryHandler.List
  cases hg : store.Get now1 cache.KeyCategories with
  | error e => cases repoList <;> rfl
  | ok cached =>
    simp only [hmiss cached hg]
    cases repoList <;> rfl

/-- The response of `TagHandler.List` does not depend on `json.Marshal` inside `Set`. -/
theorem TagHandler_List_reply (store : cache.InMemoryCache) (now1 now2 : Int)
    (unmarshal : List Nat → Option (List models.Tag))
    (m1 m2 : List models.Tag → Except String (List Nat))
    (repoList : Except String (List models.Tag)) :
    (TagHandler.List store now1 now2 unmarshal m1 repoList).2 =
      (TagHandler.List store now1 now2 unmarshal m2 repoList).2 := by
  unfold TagHandler.List
  cases hg : store.Get now1 cache.KeyTags with
  | error e => cases repoList <;> rfl
  | ok cached =>
    simp only
    cases unmarshal cached with
    | some tags => rfl
    | none => cases repoList <;> rfl

theorem TagHandler_GetStats_reply (store : cache.InMemoryCache) (now1 now2 : Int)
    (unmarshal : List Nat → Option (List (String × jwt.Value)))
    (m1 m2 : models.Stats → Except String (List Nat))
    (repoGetStats : Except String models.Stats) :
    (TagHandler.GetStats store now1 now2 unmarshal m1 repoGetStats).2 =
      (TagHandler.GetStats store now1 now2 unmarshal m2 repoGetStats).2 := by
  unfold TagHandler.GetStats
  cases hg : store.Get now1 cache.KeyStats with
  | error e => cases repoGetStats <;> rfl
  | ok cached =>
    simp only
    cases unmarshal cached with
    | some stats => rfl
    | none => cases repoGetStats <;> rfl

theorem CategoryHandler_List_reply (store : cache.InMemoryCache) (now1 now2 : Int)
    (unmarshal : List Nat → Option (List models.Category))
    (m1 m2 : List models.Category → Except String (List Nat))
    (repoList : Except String (List models.Category)) :
    (CategoryHandler.List store now1 now2 unmarshal m1 repoList).2 =
      (CategoryHandler.List store now1 now2 unmarshal m2 repoList).2 := by
  unfold CategoryHandler.List
  cases hg : store.Get now1 cache.KeyCategories with
  | error e => cases repoList <;> rfl
  | ok cached =>
    simp only
    cases unmarshal cached with
    | some categories => rfl
    | none => cases repoList <;> rfl

end handlers

/-- Claim C21. In `TagHandler.List`, `TagHandler.GetStats` and `CategoryHandler.List`
the response, status and body, is the same for every behaviour of `json.Marshal`
inside `Set`, so the same whether the `Set` succeeds or returns an error; on a miss
it is fixed by the repository result alone: 500 with the error, or 200 with the
value read. -/
theorem C21_set_failure_not_fatal (store : cache.InMemoryCache) (now1 now2 : Int) :
    (∀ unmarshal m1 m2 repoList,
      (handlers.TagHandler.List store now1 now2 unmarshal m1 repoList).2 =
        (handlers.TagHandler.List store now1 now2 unmarshal m2 repoList).2) ∧
    (∀ unmarshal m1 m2 repoGetStats,
      (handlers.TagHandler.GetStats store now1 now2 unmarshal m1 repoGetStats).2 =
        (handlers.TagHandler.GetStats store now1 now2 unmarshal m2 repoGetStats).2) ∧
    (∀ unmarshal m1 m2 repoList,
      (handlers.CategoryHandler.List store now1 now2 unmarshal m1 repoList).2 =
        (handlers.CategoryHandler.List store now1 now2 unmarshal m2 repoList).2) ∧
    (∀ unmarshal marshal repoList,
      (∀ cached, store.Get now1 cache.KeyTags = .ok cached → unmarshal cached = none) →
      (handlers.TagHandler.List store now1 now2 unmarshal marshal repoList).2 =
        match repoList with
        | .error err => { status := 500, body := .H [("error", .string err)] }
        | .ok tags => { status := 200, body := .data tags }) ∧
    (∀ unmarshal marshal repoGetStats,
      (∀ cached, store.Get now1 cache.KeyStats = .ok cached → unmarshal cached = none) →
      (handlers.TagHandler.GetStats store now1 now2 unmarshal marshal repoGetStats).2 =
        match repoGetStats with
        | .error err => { status := 500, body := .H [("error", .string err)] }
        | .ok stats => { status := 200, body := .json stats }) ∧
    (∀ unmarshal marshal repoList,
      (∀ cached, store.Get now1 cache.KeyCategories = .ok cached → unmarshal cached = none) →
      (handlers.CategoryHandler.List store now1 now2 unmarshal marshal repoList).2 =
        match repoList with
        | .error err => { status := 500, body := .H [("error", .string err)] }
        | .ok categories => { status := 200, body := .json categories }) :=
  ⟨handlers.TagHandler_List_reply store now1 now2,
    handlers.TagHandler_GetStats_reply store now1 now2,
    handlers.CategoryHandler_List_reply store now1 now2,
    handlers.TagHandler_List_miss store now1 now2,
    handlers.TagHandler_GetStats_miss store now1 now2,
    handlers.CategoryHandler_List_miss store now1 now2⟩

/-- Witness of C21: on the empty store, with a `json.Marshal` that fails, `GetStats`
answers 200 with the statistics read from the repository. -/
theorem C21_set_failure_not_fatal_witness :
    (handlers.TagHandler.GetStats cache.InMemoryCache.new 0 0 (fun _ => none)
        (fun _ => .error "unsupported type")
        (.ok { TotalPrompts := 3, TotalTags := 2, TotalImages := 1, TotalCategories := 0 })).2 =
      { status := 200,
        body := .json { TotalPrompts := 3, TotalTags := 2, TotalImages := 1,
                        TotalCategories := 0 } } :=
  (C21_set_failure_not_fatal cache.InMemoryCache.new 0 0).2.2.2.2.1 (fun _ => none)
    (fun _ => .error "unsupported type")
    (.ok { TotalPrompts := 3, TotalTags := 2, TotalImages := 1, TotalCategories := 0 })
    (fun _ _ => rfl)

/-! ## Claims C22 and C23: issuance and the signing secret -/

/-- Counterexample to C22 as stated: `generateToken` reads the clock twice. With the
first reading one nanosecond before second 1 and the next reading at second 1, the
token is signed over `exp = 86400` and `iat = 1`: `exp - iat` is 86399, while
`expiresIn` is 86400. -/
theorem C22_counterexample :
    (handlers.generateToken reference.primitives reference.secret 999999999 1000000000 7
        "alice").1 =
      reference.signed reference.primitives reference.secret
        [("user_id", .int 7), ("username", .string "alice"), ("exp", .int64 86400),
          ("iat", .int64 1)] ∧
    (handlers.generateToken reference.primitives reference.secret 999999999 1000000000 7
        "alice").2.1 = 86400 ∧
    (86400 : Int) - 1 ≠ 86400 := by
  have hc : handlers.issuedClaims 999999999 1000000000 7 "alice" =
      [("user_id", .int 7), ("username", .string "alice"), ("exp", .int64 86400),
        ("iat", .int64 1)] := by
    decide
  refine ⟨?_, rfl, by decide⟩
  rw [handlers.generateToken_eq_signed, hc]

/-- Claim C22, amended. For every `(userID, username)` and two clock readings
`now1 ≤ now2`, in the order `generateToken` takes them: it returns `expiresIn = 86400`
and no error, and a token signed over the claims `user_id = userID`,
`username = username`, `exp` = the second of `now1` plus 86400 and `iat` = the second
of `now2`; read back, the token carries these claims as JSON returns them; and
`exp - iat` is at most 86400, and equal to 86400 exactly when both readings fall in
the same second. -/
theorem C22_issued_claims (P : jwt.Primitives) (hP : P.Lawful) (secret : List Nat)
    (now1 now2 userID : Int) (username : String) (h12 : now1 ≤ now2) :
    (handlers.generateToken P secret now1 now2 userID username).2.1 = 86400 ∧
    (handlers.generateToken P secret now1 now2 userID username).2.2 = none ∧
    (handlers.generateToken P secret now1 now2 userID username).1 =
      reference.signed P secret
        [("user_id", .int userID), ("username", .string username),
          ("exp", .int64 (time.Unix now1 + 86400)), ("iat", .int64 (time.Unix now2))] ∧
    (∃ claims, spec.SignatureValid P secret
        (handlers.generateToken P secret now1 now2 userID username).1 claims ∧
      gomap.get claims "user_id" = some (.float64 (jwt.roundFloat64 userID)) ∧
      gomap.get claims "username" = some (.string username) ∧
      gomap.get claims "exp" = some (.float64 (jwt.roundFloat64 (time.Unix now1 + 86400))) ∧
      gomap.get claims "iat" = some (.float64 (jwt.roundFloat64 (time.Unix now2)))) ∧
    (time.Unix now1 + 86400) - time.Unix now2 ≤ 86400 ∧
    ((time.Unix now1 + 86400) - time.Unix now2 = 86400 ↔ time.Unix now1 = time.Unix now2) := by
  have hunix : time.Unix (now1 + 24 * time.Hour) = time.Unix now1 + 86400 := by
    unfold time.Unix time.Hour
    omega
  have hc : handlers.issuedClaims now1 now2 userID username =
      [("user_id", .int userID), ("username", .string username),
        ("exp", .int64 (time.Unix now1 + 86400)), ("iat", .int64 (time.Unix now2))] := by
    unfold handlers.issuedClaims
    rw [hunix]
  have hmono : time.Unix now1 ≤ time.Unix now2 := by
    unfold time.Unix
    omega
  refine ⟨rfl, rfl, by rw [handlers.generateToken_eq_signed, hc], ?_, by omega,
    ⟨fun h => by omega, fun h => by omega⟩⟩
  obtain ⟨o1, hget, hiff⟩ := jwt.SignatureValid_hs256 P hP secret
    (handlers.issuedClaims now1 now2 userID username)
    (P.hmac "HS256" secret ((jwt.NewWithClaims jwt.SigningMethodHS256
      (handlers.issuedClaims now1 now2 userID username)).SigningString P))
  refine ⟨o1, ?_, ?_, ?_, ?_, ?_⟩
  · rw [handlers.generateToken_eq]
    exact (hiff o1).mpr ⟨rfl, rfl⟩
  · rw [hget]
    rfl
  · rw [hget]
    rfl
  · rw [hget, hc]
    rfl
  · rw [hget]
    rfl

/-- Witness of C22: both readings at time 0, subject (7, alice). -/
theorem C22_issued_claims_witness :
    (handlers.generateToken reference.primitives reference.secret 0 0 7 "alice").2.1 = 86400 ∧
    (time.Unix 0 + 86400) - time.Unix 0 = 86400 :=
  have h := C22_issued_claims reference.primitives reference.primitives_lawful
    reference.secret 0 0 7 "alice" (by decide)
  ⟨h.1, h.2.2.2.2.2.mpr rfl⟩

/-- Counterexample to C23 as stated: with `JWT_SECRET` unset, and with `JWT_SECRET` set
to the empty string, `getJWTSecret` returns the fixed development secret, and
`AuthRequired`, running on it, admits a token that anyone signs with the published
string, for whatever subject it names. -/
theorem C23_counterexample :
    handlers.getJWTSecret [] = "mimirprompt-secret-key-change-in-production" ∧
    handlers.getJWTSecret [("JWT_SECRET", "")] = "mimirprompt-secret-key-change-in-production" ∧
    middleware.AuthRequired reference.primitives (middleware.getJWTSecret []) 0
        (reference.request ("Bearer " ++ reference.signed reference.primitives
          (handlers.jwtSecret []) [("user_id", .int 1), ("username", .string "admin")])) =
      .ok ((((reference.request ("Bearer " ++ reference.signed reference.primitives
          (handlers.jwtSecret []) [("user_id", .int 1), ("username", .string "admin")])).Set
            "userID" (.int 1)).Set "username" (.string "admin")).Next) := by
  refine ⟨by decide, by decide, ?_⟩
  obtain ⟨o1, hget, hiff⟩ := middleware.Verifies_signed reference.primitives
    reference.primitives_lawful (handlers.jwtSecret []) 0
    [("user_id", .int 1), ("username", .string "admin")]
  have hexp : jwt.verifyExpiresAt o1 0 = true := by
    unfold jwt.verifyExpiresAt
    rw [hget]
    rfl
  have hnbf : jwt.verifyNotBefore o1 0 = true := by
    unfold jwt.verifyNotBefore
    rw [hget]
    rfl
  have hv := (hiff o1).mpr ⟨rfl, hexp, hnbf⟩
  have hid : gomap.get o1 "user_id" = some (.float64 ((1 : Int) : ℚ)) := by
    rw [hget]
    show some (jwt.Value.float64 (jwt.roundFloat64 1)) = _
    rw [jwt.roundFloat64_of_le 1 (by norm_num)]
  have hname : gomap.get o1 "username" = some (.string "admin") := by
    rw [hget]
    rfl
  have hb : spec.IsBearer ((reference.request ("Bearer " ++ reference.signed
      reference.primitives (handlers.jwtSecret [])
      [("user_id", .int 1), ("username", .string "admin")])).GetHeader "Authorization")
      (reference.signed reference.primitives (handlers.jwtSecret [])
        [("user_id", .int 1), ("username", .string "admin")]) :=
    middleware.IsBearer_token reference.primitives reference.primitives_lawful _ _ _ rfl
  have h := (middleware.guards_of_Verifies reference.primitives (handlers.jwtSecret []) 0
    _ _ o1 _ _ hb hv hid hname).1
  rw [jwt.goInt_intCast 1 (by norm_num) (by norm_num)] at h
  exact h

/-- Claim C23, amended. Loading the signing secret never fails. In every environment
`getJWTSecret` returns a non-empty secret: the value of `JWT_SECRET` when the variable
is set to a non-empty string, and the fixed development secret
`mimirprompt-secret-key-change-in-production` when it is unset or empty; the guards
verify with the bytes of that string. -/
theorem C23_secret_loading (environ : List (String × String)) :
    handlers.getJWTSecret environ ≠ "" ∧
    (os.Getenv environ "JWT_SECRET" = "" →
      handlers.getJWTSecret environ = "mimirprompt-secret-key-change-in-production") ∧
    (os.Getenv environ "JWT_SECRET" ≠ "" →
      handlers.getJWTSecret environ = os.Getenv environ "JWT_SECRET") ∧
    (gomap.get environ "JWT_SECRET" = none →
      handlers.getJWTSecret environ = "mimirprompt-secret-key-change-in-production") ∧
    middleware.getJWTSecret environ =
      ((handlers.getJWTSecret environ).data.flatMap String.utf8EncodeChar).map UInt8.toNat := by
  have hdef : os.Getenv environ "JWT_SECRET" = "" →
      handlers.getJWTSecret environ = "mimirprompt-secret-key-change-in-production" := by
    intro h
    unfold handlers.getJWTSecret
    simp only [h, if_true]
  have hset : os.Getenv environ "JWT_SECRET" ≠ "" →
      handlers.getJWTSecret environ = os.Getenv environ "JWT_SECRET" := by
    intro h
    unfold handlers.getJWTSecret
    simp only [h, if_false]
  refine ⟨?_, hdef, hset, ?_, rfl⟩
  · by_cases h : os.Getenv environ "JWT_SECRET" = ""
    · rw [hdef h]
      decide
    · rw [hset h]
      exact h
  · intro h
    apply hdef
    unfold os.Getenv
    rw [h]
    rfl

/-- Witness of C23: an environment that sets the variable yields its value, and one
that does not yields the default. -/
theorem C23_secret_loading_witness :
    handlers.getJWTSecret [("JWT_SECRET", "s3cret")] = "s3cret" ∧
    handlers.getJWTSecret [("PATH", "/bin")] = "mimirprompt-secret-key-change-in-production" :=
  ⟨(C23_secret_loading [("JWT_SECRET", "s3cret")]).2.2.1 (by decide),
   (C23_secret_loading [("PATH", "/bin")]).2.2.2.1 rfl⟩

/-! ## The route table -/

namespace routes

/-- The route table: the two routes of the file server when an image directory is
given, then the routes of the API group, which do not depend on the directory. -/
theorem SetupRouter_routes (imagesDir : String) :
    (SetupRouter imagesDir).routes =
      (if imagesDir ≠ "" then
        [{ Method := .GET, Path := "/images/*filepath",
           Handlers := [.Logger, .Recovery, .CORS, .Recovery, .static imagesDir] },
         { Method := .HEAD, Path := "/images/*filepath",
           Handlers := [.Logger, .Recovery, .CORS, .Recovery, .static imagesDir] }]
      else []) ++ (SetupRouter "").routes := by
  by_cases h : imagesDir = ""
  · subst h
    rfl
  · simp [SetupRouter, h, gin.Engine.Static, gin.RouterGroup.GET, gin.RouterGroup.POST,
      gin.RouterGroup.PUT, gin.RouterGroup.DELETE, gin.RouterGroup.handle,
      gin.RouterGroup.Group, gin.RouterGroup.Use, gin.Engine.Use, gin.Default, gin.joinPaths]

end routes

namespace routes

theorem mutating_guarded_api : ∀ r ∈ (SetupRouter "").routes,
    (r.Method = .POST ∨ r.Method = .PUT ∨ r.Method = .DELETE) → ¬ IsLogin r → Guarded r := by
  decide

theorem admin_guarded_api : ∀ r ∈ (SetupRouter "").routes,
    (Under "/api/audit-logs" r ∨ Under "/api/upload" r ∨ r.Path = "/api/auth/profile" ∨
      r.Path = "/api/auth/password") → Guarded r := by
  decide

theorem public_api : ∀ r ∈ (SetupRouter "").routes,
    ¬ Guarded r → r.Method = .GET ∨ IsLogin r := by
  decide

theorem no_register_api : ∀ r ∈ (SetupRouter "").routes, ¬ Dispatches "Register" r := by
  decide

theorem under_api : ∀ r ∈ (SetupRouter "").routes, Under "/api" r := by
  decide

/-- The routes of the file server are outside the API group, answer GET and HEAD,
and are not guarded. -/
theorem static_routes (imagesDir : String) (r : gin.RouteInfo)
    (hr : r ∈ (if imagesDir ≠ "" then
        [{ Method := .GET, Path := "/images/*filepath",
           Handlers := [.Logger, .Recovery, .CORS, .Recovery, .static imagesDir] },
         { Method := .HEAD, Path := "/images/*filepath",
           Handlers := [.Logger, .Recovery, .CORS, .Recovery, .static imagesDir] }]
      else ([] : List gin.RouteInfo))) :
    (r.Method = .GET ∨ r.Method = .HEAD) ∧ r.Path = "/images/*filepath" ∧
      ¬ Dispatches "Register" r := by
  split at hr
  · simp only [List.mem_cons, List.mem_singleton, List.not_mem_nil, or_false] at hr
    rcases hr with rfl | rfl
    · refine ⟨Or.inl rfl, rfl, ?_⟩
      rintro ⟨f, hf, hn⟩
      simp only [List.mem_cons, List.mem_singleton, List.not_mem_nil, or_false] at hf
      rcases hf with rfl | rfl | rfl | rfl | rfl <;> cases hn
    · refine ⟨Or.inr rfl, rfl, ?_⟩
      rintro ⟨f, hf, hn⟩
      simp only [List.mem_cons, List.mem_singleton, List.not_mem_nil, or_false] at hf
      rcases hf with rfl | rfl | rfl | rfl | rfl <;> cases hn
  · cases hr

theorem not_under_images (r : gin.RouteInfo) (h : r.Path = "/images/*filepath") :
    ¬ Under "/api" r ∧ ¬ Under "/api/audit-logs" r ∧ ¬ Under "/api/upload" r ∧
      r.Path ≠ "/api/auth/profile" ∧ r.Path ≠ "/api/auth/password" := by
  unfold Under
  rw [h]
  decide

end routes

/-! ## Claim C24: the route table -/

/-- Claim C24. In the route table `SetupRouter` builds, with or without an image
directory: every POST, PUT and DELETE route other than `POST /api/auth/login` is
served behind `AuthRequired`; so is every route under `/api/audit-logs` and
`/api/upload` and the routes `/api/auth/profile` and `/api/auth/password`; a route
of the API group that is not behind the guard is a GET route or the login route;
and no route calls the `Register` handler. The login route, the upload route, the
audit-log list and the profile and password routes are in the table. -/
theorem C24_route_table (imagesDir : String) :
    (∀ r ∈ (routes.SetupRouter imagesDir).routes,
      (r.Method = .POST ∨ r.Method = .PUT ∨ r.Method = .DELETE) → ¬ routes.IsLogin r →
        routes.Guarded r) ∧
    (∀ r ∈ (routes.SetupRouter imagesDir).routes,
      (routes.Under "/api/audit-logs" r ∨ routes.Under "/api/upload" r ∨
        r.Path = "/api/auth/profile" ∨ r.Path = "/api/auth/password") → routes.Guarded r) ∧
    (∀ r ∈ (routes.SetupRouter imagesDir).routes, routes.Under "/api" r →
      ¬ routes.Guarded r → r.Method = .GET ∨ routes.IsLogin r) ∧
    (∀ r ∈ (routes.SetupRouter imagesDir).routes, ¬ routes.Dispatches "Register" r) ∧
    ({ Method := .POST, Path := "/api/auth/login",
       Handlers := [.Logger, .Recovery, .CORS, .Recovery, .method "authHandler" "Login"] } ∈
      (routes.SetupRouter imagesDir).routes) ∧
    ({ Method := .POST, Path := "/api/upload",
       Handlers := [.Logger, .Recovery, .CORS, .Recovery, .AuthRequired,
         .method "uploadHandler" "UploadImage"] } ∈ (routes.SetupRouter imagesDir).routes) ∧
    ({ Method := .GET, Path := "/api/audit-logs",
       Handlers := [.Logger, .Recovery, .CORS, .Recovery, .AuthRequired,
         .method "auditHandler" "List"] } ∈ (routes.SetupRouter imagesDir).routes) ∧
    ({ Method := .GET, Path := "/api/auth/profile",
       Handlers := [.Logger, .Recovery, .CORS, .Recovery, .AuthRequired,
         .method "authHandler" "GetProfile"] } ∈ (routes.SetupRouter imagesDir).routes) ∧
    ({ Method := .PUT, Path := "/api/auth/password",
       Handlers := [.Logger, .Recovery, .CORS, .Recovery, .AuthRequired,
         .method "authHandler" "ChangePassword"] } ∈
      (routes.SetupRouter imagesDir).routes) := by
  rw [routes.SetupRouter_routes imagesDir]
  refine ⟨?_, ?_, ?_, ?_, ?_, ?_, ?_, ?_, ?_⟩
  · intro r hr hm hl
    rcases List.mem_append.mp hr with hs | ha
    · obtain ⟨hmeth, _, _⟩ := routes.static_routes imagesDir r hs
      rcases hmeth with e | e <;> rw [e] at hm <;> exact absurd hm (by decide)
    · exact routes.mutating_guarded_api r ha hm hl
  · intro r hr hp
    rcases List.mem_append.mp hr with hs | ha
    · obtain ⟨_, hpath, _⟩ := routes.static_routes imagesDir r hs
      obtain ⟨_, h1, h2, h3, h4⟩ := routes.not_under_images r hpath
      rcases hp with h | h | h | h
      · exact absurd h h1
      · exact absurd h h2
      · exact absurd h h3
      · exact absurd h h4
    · exact routes.admin_guarded_api r ha hp
  · intro r hr hu hg
    rcases List.mem_append.mp hr with hs | ha
    · obtain ⟨_, hpath, _⟩ := routes.static_routes imagesDir r hs
      exact absurd hu (routes.not_under_images r hpath).1
    · exact routes.public_api r ha hg
  · intro r hr
    rcases List.mem_append.mp hr with hs | ha
    · exact (routes.static_routes imagesDir r hs).2.2
    · exact routes.no_register_api r ha
  all_goals exact List.mem_append_right _ (by decide)

/-! ## Two flows that run `Set` -/

namespace cache

/-- The steps a flow can take when its value marshals to `data`: it waits or has
returned; it takes the free lock; it marshals; it assigns; it unlocks. -/
theorem SetFlow.step_cases {V : Type} (marshal : V → Except String (List Nat)) (now : Int)
    (store : InMemoryCache) (mu : Bool) (f : SetFlow V) (data : List Nat)
    (hm : marshal f.value = .ok data) (hs : f.pc.Sound data) :
    (f.step marshal now store mu).2.2.key = f.key ∧
    (f.step marshal now store mu).2.2.value = f.value ∧
    (f.step marshal now store mu).2.2.ttl = f.ttl ∧
    (((f.pc = .start ∧ mu = true) ∨ f.pc = .returned none) ∧
        f.step marshal now store mu = (store, mu, f) ∨
      (f.pc = .start ∧ mu = false ∧ (f.step marshal now store mu).1 = store ∧
        (f.step marshal now store mu).2.1 = true ∧
        (f.step marshal now store mu).2.2.pc = .locked) ∨
      (f.pc = .locked ∧ (f.step marshal now store mu).1 = store ∧
        (f.step marshal now store mu).2.1 = mu ∧
        (f.step marshal now store mu).2.2.pc = .marshalled data) ∨
      (f.pc = .marshalled data ∧
        (f.step marshal now store mu).1 = (store.Set marshal now f.key f.value f.ttl).1 ∧
        (f.step marshal now store mu).2.1 = mu ∧
        (f.step marshal now store mu).2.2.pc = .leaving none) ∨
      (f.pc = .leaving none ∧ (f.step marshal now store mu).1 = store ∧
        (f.step marshal now store mu).2.1 = false ∧
        (f.step marshal now store mu).2.2.pc = .returned none)) := by
  have hset : (store.Set marshal now f.key f.value f.ttl).1 =
      { items := gomap.set store.items f.key { Value := data, Expiration := now + f.ttl } } := by
    unfold InMemoryCache.Set
    rw [hm]
  unfold SetFlow.step
  rcases hs with h | h | h | h | h
  · rw [h]
    cases mu with
    | true => exact ⟨rfl, rfl, rfl, Or.inl ⟨Or.inl ⟨rfl, rfl⟩, rfl⟩⟩
    | false => exact ⟨rfl, rfl, rfl, Or.inr (Or.inl ⟨rfl, rfl, rfl, rfl, rfl⟩)⟩
  · rw [h]
    simp only [hm]
    exact ⟨trivial, trivial, trivial, Or.inr (Or.inr (Or.inl ⟨trivial, trivial, trivial,
      trivial⟩))⟩
  · rw [h]
    exact ⟨rfl, rfl, rfl, Or.inr (Or.inr (Or.inr (Or.inl ⟨rfl, hset.symm, rfl, rfl⟩)))⟩
  · rw [h]
    exact ⟨rfl, rfl, rfl, Or.inr (Or.inr (Or.inr (Or.inr ⟨rfl, rfl, rfl, rfl⟩)))⟩
  · rw [h]
    exact ⟨rfl, rfl, rfl, Or.inl ⟨Or.inr rfl, rfl⟩⟩

theorem Race.Inv_init {V : Type} (marshal : V → Except String (List Nat)) (c : InMemoryCache)
    (k : String) (v1 v2 : V) (ttl : Int) (d1 d2 : List Nat) :
    Race.Inv marshal c k v1 v2 ttl d1 d2 (Race.init c k v1 v2 ttl) where
  akey := rfl
  avalue := rfl
  attl := rfl
  bkey := rfl
  bvalue := rfl
  bttl := rfl
  asound := Or.inl rfl
  bsound := Or.inl rfl
  mutex := rfl
  excl := fun h => Bool.noConfusion h.1
  none_written := fun _ _ => rfl
  a_written := fun h _ => Bool.noConfusion h
  b_written := fun _ h => Bool.noConfusion h
  both_written := fun h _ => Bool.noConfusion h

/-- The invariant passes to a state that differs in flow `a`, when the place of `a`
is sound, the mutex is as the places say, and the store is the same with the same
assignments made, or `a` has just made its assignment. -/
theorem Race.Inv_change_a {V : Type} (marshal : V → Except String (List Nat))
    (c : InMemoryCache) (k : String) (v1 v2 : V) (ttl : Int) (d1 d2 : List Nat)
    (r r2 : Race V) (inv : Race.Inv marshal c k v1 v2 ttl d1 d2 r)
    (hb : r2.b = r.b) (hk : r2.a.key = r.a.key) (hv : r2.a.value = r.a.value)
    (ht : r2.a.ttl = r.a.ttl) (hsound : r2.a.pc.Sound d1)
    (hmutex : r2.mu = (r2.a.pc.holdsLock || r.b.pc.holdsLock))
    (hexcl : ¬ (r2.a.pc.holdsLock = true ∧ r.b.pc.holdsLock = true))
    (hstore : (r2.a.pc.written = r.a.pc.written ∧ r2.store = r.store) ∨
      (r.a.pc.written = false ∧ r2.a.pc.written = true ∧
        ∃ t, r2.store = (r.store.Set marshal t k v1 ttl).1)) :
    Race.Inv marshal c k v1 v2 ttl d1 d2 r2 where
  akey := by rw [hk]; exact inv.akey
  avalue := by rw [hv]; exact inv.avalue
  attl := by rw [ht]; exact inv.attl
  bkey := by rw [hb]; exact inv.bkey
  bvalue := by rw [hb]; exact inv.bvalue
  bttl := by rw [hb]; exact inv.bttl
  asound := hsound
  bsound := by rw [hb]; exact inv.bsound
  mutex := by rw [hb]; exact hmutex
  excl := by rw [hb]; exact hexcl
  none_written := by
    rw [hb]
    intro h1 h2
    rcases hstore with ⟨hw, hs⟩ | ⟨_, hw, _⟩
    · rw [hs]
      exact inv.none_written (hw ▸ h1) h2
    · rw [hw] at h1
      exact Bool.noConfusion h1
  a_written := by
    rw [hb]
    intro h1 h2
    rcases hstore with ⟨hw, hs⟩ | ⟨hw0, _, t, hs⟩
    · rw [hs]
      exact inv.a_written (hw ▸ h1) h2
    · exact ⟨t, by rw [hs, inv.none_written hw0 h2]⟩
  b_written := by
    rw [hb]
    intro h1 h2
    rcases hstore with ⟨hw, hs⟩ | ⟨_, hw, _⟩
    · rw [hs]
      exact inv.b_written (hw ▸ h1) h2
    · rw [hw] at h1
      exact Bool.noConfusion h1
  both_written := by
    rw [hb]
    intro h1 h2
    rcases hstore with ⟨hw, hs⟩ | ⟨hw0, _, t, hs⟩
    · rw [hs]
      exact inv.both_written (hw ▸ h1) h2
    · obtain ⟨tb, hsb⟩ := inv.b_written hw0 h2
      exact ⟨tb, t, Or.inr (by rw [hs, hsb])⟩

/-- The same for a state that differs in flow `b`. -/
theorem Race.Inv_change_b {V : Type} (marshal : V → Except String (List Nat))
    (c : InMemoryCache) (k : String) (v1 v2 : V) (ttl : Int) (d1 d2 : List Nat)
    (r r2 : Race V) (inv : Race.Inv marshal c k v1 v2 ttl d1 d2 r)
    (ha : r2.a = r.a) (hk : r2.b.key = r.b.key) (hv : r2.b.value = r.b.value)
    (ht : r2.b.ttl = r.b.ttl) (hsound : r2.b.pc.Sound d2)
    (hmutex : r2.mu = (r.a.pc.holdsLock || r2.b.pc.holdsLock))
    (hexcl : ¬ (r.a.pc.holdsLock = true ∧ r2.b.pc.holdsLock = true))
    (hstore : (r2.b.pc.written = r.b.pc.written ∧ r2.store = r.store) ∨
      (r.b.pc.written = false ∧ r2.b.pc.written = true ∧
        ∃ t, r2.store = (r.store.Set marshal t k v2 ttl).1)) :
    Race.Inv marshal c k v1 v2 ttl d1 d2 r2 where
  akey := by rw [ha]; exact inv.akey
  avalue := by rw [ha]; exact inv.avalue
  attl := by rw [ha]; exact inv.attl
  bkey := by rw [hk]; exact inv.bkey
  bvalue := by rw [hv]; exact inv.bvalue
  bttl := by rw [ht]; exact inv.bttl
  asound := by rw [ha]; exact inv.asound
  bsound := hsound
  mutex := by rw [ha]; exact hmutex
  excl := by rw [ha]; exact hexcl
  none_written := by
    rw [ha]
    intro h1 h2
    rcases hstore with ⟨hw, hs⟩ | ⟨_, hw, _⟩
    · rw [hs]
      exact inv.none_written h1 (hw ▸ h2)
    · rw [hw] at h2
      exact Bool.noConfusion h2
  a_written := by
    rw [ha]
    intro h1 h2
    rcases hstore with ⟨hw, hs⟩ | ⟨_, hw, _⟩
    · rw [hs]
      exact inv.a_written h1 (hw ▸ h2)
    · rw [hw] at h2
      exact Bool.noConfusion h2
  b_written := by
    rw [ha]
    intro h1 h2
    rcases hstore with ⟨hw, hs⟩ | ⟨hw0, _, t, hs⟩
    · rw [hs]
      exact inv.b_written h1 (hw ▸ h2)
    · exact ⟨t, by rw [hs, inv.none_written h1 hw0]⟩
  both_written := by
    rw [ha]
    intro h1 h2
    rcases hstore with ⟨hw, hs⟩ | ⟨hw0, _, t, hs⟩
    · rw [hs]
      exact inv.both_written h1 (hw ▸ h2)
    · obtain ⟨ta, hsa⟩ := inv.a_written h1 hw0
      exact ⟨ta, t, Or.inl (by rw [hs, hsa])⟩

/-- The mutex side of one step of a flow whose place is `pc` before and `pc2` after,
next to a flow at `other`. -/
theorem SetFlow.mutex_step (mu mu2 : Bool) (pc pc2 other : SetPC)
    (hmutex : mu = (pc.holdsLock || other.holdsLock))
    (hexcl : ¬ (pc.holdsLock = true ∧ other.holdsLock = true))
    (hcase : (pc = .start ∧ mu = false ∧ mu2 = true ∧ pc2 = .locked) ∨
      (pc = .locked ∧ mu2 = mu ∧ ∃ d, pc2 = .marshalled d) ∨
      ((∃ d, pc = .marshalled d) ∧ mu2 = mu ∧ pc2 = .leaving none) ∨
      (pc = .leaving none ∧ mu2 = false ∧ pc2 = .returned none)) :
    mu2 = (pc2.holdsLock || other.holdsLock) ∧
      ¬ (pc2.holdsLock = true ∧ other.holdsLock = true) := by
  rcases hcase with ⟨h1, h2, h3, h4⟩ | ⟨h1, h3, d, h4⟩ | ⟨⟨d, h1⟩, h3, h4⟩ | ⟨h1, h3, h4⟩
  · subst h1 h2 h3 h4
    have ho : other.holdsLock = false := by
      cases h : other.holdsLock with
      | false => rfl
      | true => rw [h] at hmutex; exact Bool.noConfusion hmutex
    rw [ho]
    exact ⟨rfl, fun h => Bool.noConfusion h.2⟩
  · subst h1 h3 h4
    exact ⟨hmutex, hexcl⟩
  · subst h1 h3 h4
    exact ⟨hmutex, hexcl⟩
  · subst h1 h3 h4
    have ho : other.holdsLock = false := by
      cases h : other.holdsLock with
      | false => rfl
      | true => exact absurd ⟨rfl, h⟩ hexcl
    rw [ho]
    exact ⟨rfl, fun h => Bool.noConfusion h.1⟩

/-- The same with the other flow named first. -/
theorem SetFlow.mutex_step_right (mu mu2 : Bool) (pc pc2 other : SetPC)
    (hmutex : mu = (other.holdsLock || pc.holdsLock))
    (hexcl : ¬ (other.holdsLock = true ∧ pc.holdsLock = true))
    (hcase : (pc = .start ∧ mu = false ∧ mu2 = true ∧ pc2 = .locked) ∨
      (pc = .locked ∧ mu2 = mu ∧ ∃ d, pc2 = .marshalled d) ∨
      ((∃ d, pc = .marshalled d) ∧ mu2 = mu ∧ pc2 = .leaving none) ∨
      (pc = .leaving none ∧ mu2 = false ∧ pc2 = .returned none)) :
    mu2 = (other.holdsLock || pc2.holdsLock) ∧
      ¬ (other.holdsLock = true ∧ pc2.holdsLock = true) := by
  obtain ⟨m1, m2⟩ := SetFlow.mutex_step mu mu2 pc pc2 other
    (by rw [Bool.or_comm]; exact hmutex) (fun h => hexcl ⟨h.2, h.1⟩) hcase
  exact ⟨by rw [Bool.or_comm]; exact m1, fun h => m2 ⟨h.2, h.1⟩⟩

/-- A step of flow `a` keeps the invariant. -/
theorem Race.Inv_step_a {V : Type} (marshal : V → Except String (List Nat))
    (c : InMemoryCache) (k : String) (v1 v2 : V) (ttl : Int) (d1 d2 : List Nat)
    (h1 : marshal v1 = .ok d1) (r : Race V) (now : Int)
    (inv : Race.Inv marshal c k v1 v2 ttl d1 d2 r) :
    Race.Inv marshal c k v1 v2 ttl d1 d2 (r.step marshal now .a) := by
  have hm : marshal r.a.value = .ok d1 := by rw [inv.avalue]; exact h1
  obtain ⟨hk, hv, ht, hcase⟩ := SetFlow.step_cases marshal now r.store r.mu r.a d1 hm inv.asound
  rcases hcase with ⟨_, hsame⟩ | ⟨hpc, hfree, hs, hm2, hpc2⟩ | ⟨hpc, hs, hm2, hpc2⟩ |
    ⟨hpc, hs, hm2, hpc2⟩ | ⟨hpc, hs, hm2, hpc2⟩
  · have : r.step marshal now .a = r := by
      show ({ r with store := _, mu := _, a := _ } : Race V) = r
      rw [hsame]
    rw [this]
    exact inv
  · obtain ⟨m1, m2⟩ := SetFlow.mutex_step r.mu true r.a.pc .locked r.b.pc inv.mutex inv.excl
      (Or.inl ⟨hpc, hfree, rfl, rfl⟩)
    refine Race.Inv_change_a marshal c k v1 v2 ttl d1 d2 r _ inv rfl hk hv ht ?_ ?_ ?_ ?_
    · show SetPC.Sound d1 (r.a.step marshal now r.store r.mu).2.2.pc
      rw [hpc2]
      exact Or.inr (Or.inl rfl)
    · show (r.a.step marshal now r.store r.mu).2.1 =
        ((r.a.step marshal now r.store r.mu).2.2.pc.holdsLock || r.b.pc.holdsLock)
      rw [hm2, hpc2]
      exact m1
    · show ¬ ((r.a.step marshal now r.store r.mu).2.2.pc.holdsLock = true ∧ _)
      rw [hpc2]
      exact m2
    · left
      show (r.a.step marshal now r.store r.mu).2.2.pc.written = _ ∧
        (r.a.step marshal now r.store r.mu).1 = _
      rw [hpc2, hpc, hs]
      exact ⟨rfl, rfl⟩
  · obtain ⟨m1, m2⟩ := SetFlow.mutex_step r.mu r.mu r.a.pc (.marshalled d1) r.b.pc inv.mutex
      inv.excl (Or.inr (Or.inl ⟨hpc, rfl, d1, rfl⟩))
    refine Race.Inv_change_a marshal c k v1 v2 ttl d1 d2 r _ inv rfl hk hv ht ?_ ?_ ?_ ?_
    · show SetPC.Sound d1 (r.a.step marshal now r.store r.mu).2.2.pc
      rw [hpc2]
      exact Or.inr (Or.inr (Or.inl rfl))
    · show (r.a.step marshal now r.store r.mu).2.1 =
        ((r.a.step marshal now r.store r.mu).2.2.pc.holdsLock || r.b.pc.holdsLock)
      rw [hm2, hpc2]
      exact m1
    · show ¬ ((r.a.step marshal now r.store r.mu).2.2.pc.holdsLock = true ∧ _)
      rw [hpc2]
      exact m2
    · left
      show (r.a.step marshal now r.store r.mu).2.2.pc.written = _ ∧
        (r.a.step marshal now r.store r.mu).1 = _
      rw [hpc2, hpc, hs]
      exact ⟨rfl, rfl⟩
  · obtain ⟨m1, m2⟩ := SetFlow.mutex_step r.mu r.mu r.a.pc (.leaving none) r.b.pc inv.mutex
      inv.excl (Or.inr (Or.inr (Or.inl ⟨⟨d1, hpc⟩, rfl, rfl⟩)))
    refine Race.Inv_change_a marshal c k v1 v2 ttl d1 d2 r _ inv rfl hk hv ht ?_ ?_ ?_ ?_
    · show SetPC.Sound d1 (r.a.step marshal now r.store r.mu).2.2.pc
      rw [hpc2]
      exact Or.inr (Or.inr (Or.inr (Or.inl rfl)))
    · show (r.a.step marshal now r.store r.mu).2.1 =
        ((r.a.step marshal now r.store r.mu).2.2.pc.holdsLock || r.b.pc.holdsLock)
      rw [hm2, hpc2]
      exact m1
    · show ¬ ((r.a.step marshal now r.store r.mu).2.2.pc.holdsLock = true ∧ _)
      rw [hpc2]
      exact m2
    · right
      show r.a.pc.written = false ∧ (r.a.step marshal now r.store r.mu).2.2.pc.written = true ∧
        ∃ t, (r.a.step marshal now r.store r.mu).1 = _
      rw [hpc2, hpc, hs, inv.akey, inv.avalue, inv.attl]
      exact ⟨rfl, rfl, now, rfl⟩
  · obtain ⟨m1, m2⟩ := SetFlow.mutex_step r.mu false r.a.pc (.returned none) r.b.pc inv.mutex
      inv.excl (Or.inr (Or.inr (Or.inr ⟨hpc, rfl, rfl⟩)))
    refine Race.Inv_change_a marshal c k v1 v2 ttl d1 d2 r _ inv rfl hk hv ht ?_ ?_ ?_ ?_
    · show SetPC.Sound d1 (r.a.step marshal now r.store r.mu).2.2.pc
      rw [hpc2]
      exact Or.inr (Or.inr (Or.inr (Or.inr rfl)))
    · show (r.a.step marshal now r.store r.mu).2.1 =
        ((r.a.step marshal now r.store r.mu).2.2.pc.holdsLock || r.b.pc.holdsLock)
      rw [hm2, hpc2]
      exact m1
    · show ¬ ((r.a.step marshal now r.store r.mu).2.2.pc.holdsLock = true ∧ _)
      rw [hpc2]
      exact m2
    · left
      show (r.a.step marshal now r.store r.mu).2.2.pc.written = _ ∧
        (r.a.step marshal now r.store r.mu).1 = _
      rw [hpc2, hpc, hs]
      exact ⟨rfl, rfl⟩

/-- A step of flow `b` keeps the invariant. -/
theorem Race.Inv_step_b {V : Type} (marshal : V → Except String (List Nat))
    (c : InMemoryCache) (k : String) (v1 v2 : V) (ttl : Int) (d1 d2 : List Nat)
    (h2 : marshal v2 = .ok d2) (r : Race V) (now : Int)
    (inv : Race.Inv marshal c k v1 v2 ttl d1 d2 r) :
    Race.Inv marshal c k v1 v2 ttl d1 d2 (r.step marshal now .b) := by
  have hm : marshal r.b.value = .ok d2 := by rw [inv.bvalue]; exact h2
  obtain ⟨hk, hv, ht, hcase⟩ := SetFlow.step_cases marshal now r.store r.mu r.b d2 hm inv.bsound
  rcases hcase with ⟨_, hsame⟩ | ⟨hpc, hfree, hs, hm2, hpc2⟩ | ⟨hpc, hs, hm2, hpc2⟩ |
    ⟨hpc, hs, hm2, hpc2⟩ | ⟨hpc, hs, hm2, hpc2⟩
  · have : r.step marshal now .b = r := by
      show ({ r with store := _, mu := _, b := _ } : Race V) = r
      rw [hsame]
    rw [this]
    exact inv
  · obtain ⟨m1, m2⟩ := SetFlow.mutex_step_right r.mu true r.b.pc .locked r.a.pc inv.mutex inv.excl
      (Or.inl ⟨hpc, hfree, rfl, rfl⟩)
    refine Race.Inv_change_b marshal c k v1 v2 ttl d1 d2 r _ inv rfl hk hv ht ?_ ?_ ?_ ?_
    · show SetPC.Sound d2 (r.b.step marshal now r.store r.mu).2.2.pc
      rw [hpc2]
      exact Or.inr (Or.inl rfl)
    · show (r.b.step marshal now r.store r.mu).2.1 =
        (r.a.pc.holdsLock || (r.b.step marshal now r.store r.mu).2.2.pc.holdsLock)
      rw [hm2, hpc2]
      exact m1
    · show ¬ (_ ∧ (r.b.step marshal now r.store r.mu).2.2.pc.holdsLock = true)
      rw [hpc2]
      exact m2
    · left
      show (r.b.step marshal now r.store r.mu).2.2.pc.written = _ ∧
        (r.b.step marshal now r.store r.mu).1 = _
      rw [hpc2, hpc, hs]
      exact ⟨rfl, rfl⟩
  · obtain ⟨m1, m2⟩ := SetFlow.mutex_step_right r.mu r.mu r.b.pc (.marshalled d2) r.a.pc inv.mutex
      inv.excl (Or.inr (Or.inl ⟨hpc, rfl, d2, rfl⟩))
    refine Race.Inv_change_b marshal c k v1 v2 ttl d1 d2 r _ inv rfl hk hv ht ?_ ?_ ?_ ?_
    · show SetPC.Sound d2 (r.b.step marshal now r.store r.mu).2.2.pc
      rw [hpc2]
      exact Or.inr (Or.inr (Or.inl rfl))
    · show (r.b.step marshal now r.store r.mu).2.1 =
        (r.a.pc.holdsLock || (r.b.step marshal now r.store r.mu).2.2.pc.holdsLock)
      rw [hm2, hpc2]
      exact m1
    · show ¬ (_ ∧ (r.b.step marshal now r.store r.mu).2.2.pc.holdsLock = true)
      rw [hpc2]
      exact m2
    · left
      show (r.b.step marshal now r.store r.mu).2.2.pc.written = _ ∧
        (r.b.step marshal now r.store r.mu).1 = _
      rw [hpc2, hpc, hs]
      exact ⟨rfl, rfl⟩
  · obtain ⟨m1, m2⟩ := SetFlow.mutex_step_right r.mu r.mu r.b.pc (.leaving none) r.a.pc inv.mutex
      inv.excl (Or.inr (Or.inr (Or.inl ⟨⟨d2, hpc⟩, rfl, rfl⟩)))
    refine Race.Inv_change_b marshal c k v1 v2 ttl d1 d2 r _ inv rfl hk hv ht ?_ ?_ ?_ ?_
    · show SetPC.Sound d2 (r.b.step marshal now r.store r.mu).2.2.pc
      rw [hpc2]
      exact Or.inr (Or.inr (Or.inr (Or.inl rfl)))
    · show (r.b.step marshal now r.store r.mu).2.1 =
        (r.a.pc.holdsLock || (r.b.step marshal now r.store r.mu).2.2.pc.holdsLock)
      rw [hm2, hpc2]
      exact m1
    · show ¬ (_ ∧ (r.b.step marshal now r.store r.mu).2.2.pc.holdsLock = true)
      rw [hpc2]
      exact m2
    · right
      show r.b.pc.written = false ∧ (r.b.step marshal now r.store r.mu).2.2.pc.written = true ∧
        ∃ t, (r.b.step marshal now r.store r.mu).1 = _
      rw [hpc2, hpc, hs, inv.bkey, inv.bvalue, inv.bttl]
      exact ⟨rfl, rfl, now, rfl⟩
  · obtain ⟨m1, m2⟩ := SetFlow.mutex_step_right r.mu false r.b.pc (.returned none) r.a.pc inv.mutex
      inv.excl (Or.inr (Or.inr (Or.inr ⟨hpc, rfl, rfl⟩)))
    refine Race.Inv_change_b marshal c k v1 v2 ttl d1 d2 r _ inv rfl hk hv ht ?_ ?_ ?_ ?_
    · show SetPC.Sound d2 (r.b.step marshal now r.store r.mu).2.2.pc
      rw [hpc2]
      exact Or.inr (Or.inr (Or.inr (Or.inr rfl)))
    · show (r.b.step marshal now r.store r.mu).2.1 =
        (r.a.pc.holdsLock || (r.b.step marshal now r.store r.mu).2.2.pc.holdsLock)
      rw [hm2, hpc2]
      exact m1
    · show ¬ (_ ∧ (r.b.step marshal now r.store r.mu).2.2.pc.holdsLock = true)
      rw [hpc2]
      exact m2
    · left
      show (r.b.step marshal now r.store r.mu).2.2.pc.written = _ ∧
        (r.b.step marshal now r.store r.mu).1 = _
      rw [hpc2, hpc, hs]
      exact ⟨rfl, rfl⟩

/-- Every state of the race satisfies the invariant. -/
theorem Race.Inv_run {V : Type} (marshal : V → Except String (List Nat))
    (c : InMemoryCache) (k : String) (v1 v2 : V) (ttl : Int) (d1 d2 : List Nat)
    (h1 : marshal v1 = .ok d1) (h2 : marshal v2 = .ok d2) (sched : List (Int × Who))
    (r : Race V) (inv : Race.Inv marshal c k v1 v2 ttl d1 d2 r) :
    Race.Inv marshal c k v1 v2 ttl d1 d2 (r.run marshal sched) := by
  induction sched generalizing r with
  | nil => exact inv
  | cons x rest ih =>
    obtain ⟨now, who⟩ := x
    show Race.Inv marshal c k v1 v2 ttl d1 d2 ((r.step marshal now who).run marshal rest)
    apply ih
    cases who with
    | a => exact Race.Inv_step_a marshal c k v1 v2 ttl d1 d2 h1 r now inv
    | b => exact Race.Inv_step_b marshal c k v1 v2 ttl d1 d2 h2 r now inv

/-- A flow that has returned at a sound place has made its assignment. -/
theorem SetPC.written_of_returned (data : List Nat) (pc : SetPC) (hs : pc.Sound data)
    (hr : pc.isReturned = true) : pc = .returned none ∧ pc.written = true := by
  rcases hs with h | h | h | h | h <;> subst h <;>
    first
      | exact ⟨rfl, rfl⟩
      | exact Bool.noConfusion hr

/-- After a successful `Set` the store holds one entry for the key: the one written. -/
theorem Set_entry {V : Type} (marshal : V → Except String (List Nat)) (c : InMemoryCache)
    (now : Int) (k : String) (v : V) (ttl : Int) (data : List Nat) (hv : marshal v = .ok data) :
    (c.Set marshal now k v ttl).1.items.filter (fun kv => decide (kv.1 = k)) =
        [(k, { Value := data, Expiration := now + ttl })] ∧
      gomap.get (c.Set marshal now k v ttl).1.items k =
        some { Value := data, Expiration := now + ttl } := by
  unfold InMemoryCache.Set
  rw [hv]
  refine ⟨?_, gomap.get_set_self _ _ _⟩
  show (gomap.set c.items k _).filter _ = _
  unfold gomap.set gomap.delete
  rw [List.filter_cons_of_pos (by simp), List.filter_filter]
  congr 1
  rw [List.filter_eq_nil_iff]
  intro kv _
  simp

end cache

/-! ## Claim C25: two concurrent `Set` on one key -/

/-- Claim C25. Two flows run `Set(k, v1, ttl)` and `Set(k, v2, ttl)` on one store, for
values that marshal to `d1` and `d2`, under any schedule of their steps (lock,
marshal, assign, unlock) and any clock readings. In no state do both flows hold the
lock. Once both have returned, both returned no error, the store is the store after
the two calls run one after the other in one of the two orders, and it holds exactly
one entry for `k`, whose value is exactly `d1` or exactly `d2`. The schedule that
runs the first flow to its end and then the second makes both return. -/
theorem C25_concurrent_sets {V : Type} (marshal : V → Except String (List Nat))
    (c : cache.InMemoryCache) (k : String) (v1 v2 : V) (ttl : Int) (d1 d2 : List Nat)
    (sched : List (Int × cache.Who))
    (h1 : marshal v1 = .ok d1) (h2 : marshal v2 = .ok d2)
    (hdone : ((cache.Race.init c k v1 v2 ttl).run marshal sched).a.pc.isReturned = true ∧
      ((cache.Race.init c k v1 v2 ttl).run marshal sched).b.pc.isReturned = true) :
    (((cache.Race.init c k v1 v2 ttl).run marshal sched).a.pc = .returned none ∧
      ((cache.Race.init c k v1 v2 ttl).run marshal sched).b.pc = .returned none) ∧
    (∃ ta tb,
      ((cache.Race.init c k v1 v2 ttl).run marshal sched).store =
          ((c.Set marshal ta k v1 ttl).1.Set marshal tb k v2 ttl).1 ∨
        ((cache.Race.init c k v1 v2 ttl).run marshal sched).store =
          ((c.Set marshal ta k v2 ttl).1.Set marshal tb k v1 ttl).1) ∧
    (∃ t,
      (((cache.Race.init c k v1 v2 ttl).run marshal sched).store.items.filter
          (fun kv => decide (kv.1 = k)) = [(k, { Value := d1, Expiration := t + ttl })] ∧
        gomap.get ((cache.Race.init c k v1 v2 ttl).run marshal sched).store.items k =
          some { Value := d1, Expiration := t + ttl }) ∨
      (((cache.Race.init c k v1 v2 ttl).run marshal sched).store.items.filter
          (fun kv => decide (kv.1 = k)) = [(k, { Value := d2, Expiration := t + ttl })] ∧
        gomap.get ((cache.Race.init c k v1 v2 ttl).run marshal sched).store.items k =
          some { Value := d2, Expiration := t + ttl })) ∧
    (∀ pre : List (Int × cache.Who),
      ¬ (((cache.Race.init c k v1 v2 ttl).run marshal pre).a.pc.holdsLock = true ∧
        ((cache.Race.init c k v1 v2 ttl).run marshal pre).b.pc.holdsLock = true)) ∧
    (∀ t : Int,
      ((cache.Race.init c k v1 v2 ttl).run marshal
        [(t, .a), (t, .a), (t, .a), (t, .a), (t, .b), (t, .b), (t, .b), (t, .b)]).a.pc =
          .returned none ∧
      ((cache.Race.init c k v1 v2 ttl).run marshal
        [(t, .a), (t, .a), (t, .a), (t, .a), (t, .b), (t, .b), (t, .b), (t, .b)]).b.pc =
          .returned none) := by
  have hinv : ∀ s, cache.Race.Inv marshal c k v1 v2 ttl d1 d2
      ((cache.Race.init c k v1 v2 ttl).run marshal s) := fun s =>
    cache.Race.Inv_run marshal c k v1 v2 ttl d1 d2 h1 h2 s _
      (cache.Race.Inv_init marshal c k v1 v2 ttl d1 d2)
  have inv := hinv sched
  obtain ⟨ha, hwa⟩ := cache.SetPC.written_of_returned d1 _ inv.asound hdone.1
  obtain ⟨hb, hwb⟩ := cache.SetPC.written_of_returned d2 _ inv.bsound hdone.2
  obtain ⟨ta, tb, hstore⟩ := inv.both_written hwa hwb
  refine ⟨⟨ha, hb⟩, ⟨ta, tb, hstore⟩, ?_, fun pre => (hinv pre).excl, ?_⟩
  · rcases hstore with hs | hs
    · exact ⟨tb, Or.inr (by rw [hs]; exact cache.Set_entry marshal _ tb k v2 ttl d2 h2)⟩
    · exact ⟨tb, Or.inl (by rw [hs]; exact cache.Set_entry marshal _ tb k v1 ttl d1 h1)⟩
  · intro t
    simp [cache.Race.run, cache.Race.step, cache.SetFlow.step, cache.Race.init, h1, h2]

/-- Witness of C25: on the empty store, flow `b` asks for the lock while flow `a`
holds it and waits; `a` finishes, then `b`: the entry left is the one of `b`. -/
theorem C25_concurrent_sets_witness :
    gomap.get ((cache.Race.init cache.InMemoryCache.new "k" [1] [2] 5).run
        (fun v : List Nat => Except.ok v)
        [(0, .a), (1, .b), (2, .a), (3, .a), (4, .b), (5, .a), (6, .b), (7, .b), (8, .b),
          (9, .b)]).store.items "k" = some { Value := [2], Expiration := 8 + 5 } ∧
    ∃ ta tb,
      ((cache.Race.init cache.InMemoryCache.new "k" [1] [2] 5).run
        (fun v : List Nat => Except.ok v)
        [(0, .a), (1, .b), (2, .a), (3, .a), (4, .b), (5, .a), (6, .b), (7, .b), (8, .b),
          (9, .b)]).store =
          ((cache.InMemoryCache.new.Set (fun v : List Nat => Except.ok v) ta "k" [1] 5).1.Set
            (fun v : List Nat => Except.ok v) tb "k" [2] 5).1 ∨
      ((cache.Race.init cache.InMemoryCache.new "k" [1] [2] 5).run
        (fun v : List Nat => Except.ok v)
        [(0, .a), (1, .b), (2, .a), (3, .a), (4, .b), (5, .a), (6, .b), (7, .b), (8, .b),
          (9, .b)]).store =
          ((cache.InMemoryCache.new.Set (fun v : List Nat => Except.ok v) ta "k" [2] 5).1.Set
            (fun v : List Nat => Except.ok v) tb "k" [1] 5).1 :=
  ⟨by decide,
   (C25_concurrent_sets (fun v : List Nat => Except.ok v) cache.InMemoryCache.new "k" [1] [2]
    5 [1] [2]
    [(0, .a), (1, .b), (2, .a), (3, .a), (4, .b), (5, .a), (6, .b), (7, .b), (8, .b), (9, .b)]
    rfl rfl ⟨rfl, rfl⟩).2.1⟩

/-! ## The sweep and the frame of `Set` and `Delete` -/

namespace gomap

/-- The entries under another key are the same before and after `delete(m, key)`. -/
theorem mem_delete_ne {V : Type} (m : List (String × V)) (key : String) (e : String × V)
    (h : e.1 ≠ key) : e ∈ delete m key ↔ e ∈ m := by
  unfold delete
  rw [List.mem_filter]
  simp [h]

/-- The entries under another key are the same before and after `m[key] = v`. -/
theorem mem_set_ne {V : Type} (m : List (String × V)) (key : String) (v : V) (e : String × V)
    (h : e.1 ≠ key) : e ∈ set m key v ↔ e ∈ m := by
  unfold set
  rw [List.mem_cons, mem_delete_ne m key e h]
  constructor
  · rintro (rfl | h1)
    · exact absurd rfl h
    · exact h1
  · exact Or.inr

end gomap

namespace cache

/-- The binding of a key after one sweep of a store with distinct keys. -/
theorem get_cleanup_eq (c : InMemoryCache) (now : Int) (hwf : c.WellFormed) (k : String) :
    gomap.get (c.cleanup now).items k =
      match gomap.get c.items k with
      | some item => if item.Expiration < now then none else some item
      | none => none := by
  have hmem : ∀ key item, (key, item) ∈ (c.cleanup now).items ↔
      ((key, item) ∈ c.items ∧ ¬ item.Expiration < now) := by
    intro key item
    rw [cleanup_items c now hwf, List.mem_filter]
    simp
  have hwf1 := WellFormed_cleanup c now hwf
  cases hg : gomap.get c.items k with
  | none =>
    rcases get_cleanup c now k with h1 | h1
    · exact h1
    · rw [h1, hg]
  | some item =>
    simp only
    by_cases hexp : item.Expiration < now
    · rw [if_pos hexp]
      cases hg1 : gomap.get (c.cleanup now).items k with
      | none => rfl
      | some item1 =>
        have h1 := (hmem k item1).mp ((gomap.get_eq_some_iff _ hwf1 k item1).mp hg1)
        have h2 := (gomap.get_eq_some_iff _ hwf k item1).mpr h1.1
        rw [hg] at h2
        cases h2
        exact absurd hexp h1.2
    · rw [if_neg hexp]
      exact (gomap.get_eq_some_iff _ hwf1 k item).mpr
        ((hmem k item).mpr ⟨(gomap.get_eq_some_iff _ hwf k item).mp hg, hexp⟩)

/-- What a read returns after a sweep that ran no later than the read. -/
theorem Get_cleanup (c : InMemoryCache) (k : String) (t1 t2 : Int) (hwf : c.WellFormed)
    (ht : t1 ≤ t2) :
    (c.cleanup t1).Get t2 k = c.Get t2 k ∨
      ((c.cleanup t1).Get t2 k = .error ("key not found: " ++ k) ∧
        c.Get t2 k = .error ("key expired: " ++ k)) := by
  unfold InMemoryCache.Get
  rw [get_cleanup_eq c t1 hwf k]
  cases hg : gomap.get c.items k with
  | none => exact Or.inl rfl
  | some item =>
    simp only
    by_cases hexp : item.Expiration < t1
    · rw [if_pos hexp, if_pos (lt_of_lt_of_le hexp ht)]
      exact Or.inr ⟨rfl, rfl⟩
    · rw [if_neg hexp]
      exact Or.inl rfl

end cache

/-! ## Claims C26 and C28: the sweep is not needed, writes touch one key -/

/-- Claim C26. For every store (a map: its keys are distinct), key `k` and times
`t1 ≤ t2`: `Get(k)` at `t2` has the same outcome whether or not a sweep ran at `t1`.
A read that returns bytes on one side returns the same bytes on the other, and a
read that fails on one side fails on the other; after the sweep the failure of an
expired entry reads `key not found` where it read `key expired` before. -/
theorem C26_sweep_not_needed (c : cache.InMemoryCache) (k : String) (t1 t2 : Int)
    (hwf : c.WellFormed) (ht : t1 ≤ t2) :
    ((c.cleanup t1).Get t2 k).toOption = (c.Get t2 k).toOption ∧
    cache.isNotFound ((c.cleanup t1).Get t2 k) = cache.isNotFound (c.Get t2 k) ∧
    (∀ data, (c.cleanup t1).Get t2 k = .ok data ↔ c.Get t2 k = .ok data) ∧
    ((c.cleanup t1).Get t2 k = c.Get t2 k ∨
      ((c.cleanup t1).Get t2 k = .error ("key not found: " ++ k) ∧
        c.Get t2 k = .error ("key expired: " ++ k))) := by
  have h := cache.Get_cleanup c k t1 t2 hwf ht
  refine ⟨?_, ?_, ?_, h⟩
  · rcases h with h | ⟨h1, h2⟩
    · rw [h]
    · rw [h1, h2]
      rfl
  · rcases h with h | ⟨h1, h2⟩
    · rw [h]
    · rw [h1, h2]
      rfl
  · intro data
    rcases h with h | ⟨h1, h2⟩
    · rw [h]
    · rw [h1, h2]
      constructor <;> intro hc <;> cases hc

/-- Witness of C26: an entry that expired at time 5 reads as a failure at time 20 with
and without the sweep at time 10, and a live entry reads with the same bytes. -/
theorem C26_sweep_not_needed_witness :
    ((({ items := [("old", { Value := [1], Expiration := 5 }),
        ("live", { Value := [2], Expiration := 30 })] } : cache.InMemoryCache).cleanup 10).Get
          20 "old").toOption =
      (({ items := [("old", { Value := [1], Expiration := 5 }),
        ("live", { Value := [2], Expiration := 30 })] } : cache.InMemoryCache).Get
          20 "old").toOption ∧
    ((({ items := [("old", { Value := [1], Expiration := 5 }),
        ("live", { Value := [2], Expiration := 30 })] } : cache.InMemoryCache).cleanup 10).Get
          20 "live" = .ok [2] ↔
      ({ items := [("old", { Value := [1], Expiration := 5 }),
        ("live", { Value := [2], Expiration := 30 })] } : cache.InMemoryCache).Get
          20 "live" = .ok [2]) :=
  ⟨(C26_sweep_not_needed { items := [("old", { Value := [1], Expiration := 5 }),
        ("live", { Value := [2], Expiration := 30 })] } "old" 10 20 (by decide) (by decide)).1,
   (C26_sweep_not_needed { items := [("old", { Value := [1], Expiration := 5 }),
        ("live", { Value := [2], Expiration := 30 })] } "live" 10 20 (by decide)
        (by decide)).2.2.1 [2]⟩

/-- Claim C28. `Set(k, ...)` and `Delete(k)` touch key `k` only: for every store and
every other key `k2`, the entries stored under `k2` are the same before and after
the call, lookup of `k2` returns the same entry, value and expiry, and `Get(k2)` at
any time returns what it returns without the call; this whether `Set` succeeds or
fails. -/
theorem C28_set_delete_frame {V : Type} (marshal : V → Except String (List Nat))
    (c : cache.InMemoryCache) (now : Int) (k k2 : String) (v : V) (ttl : Int)
    (hne : k2 ≠ k) :
    (∀ item, (k2, item) ∈ (c.Set marshal now k v ttl).1.items ↔ (k2, item) ∈ c.items) ∧
    (∀ item, (k2, item) ∈ (c.Delete k).1.items ↔ (k2, item) ∈ c.items) ∧
    gomap.get (c.Set marshal now k v ttl).1.items k2 = gomap.get c.items k2 ∧
    gomap.get (c.Delete k).1.items k2 = gomap.get c.items k2 ∧
    (∀ t, (c.Set marshal now k v ttl).1.Get t k2 = c.Get t k2) ∧
    (∀ t, (c.Delete k).1.Get t k2 = c.Get t k2) := by
  have hset : gomap.get (c.Set marshal now k v ttl).1.items k2 = gomap.get c.items k2 := by
    unfold cache.InMemoryCache.Set
    cases marshal v with
    | error err => rfl
    | ok data => exact gomap.get_set_ne _ _ _ _ hne
  have hdel : gomap.get (c.Delete k).1.items k2 = gomap.get c.items k2 :=
    gomap.get_delete_ne _ _ _ hne
  refine ⟨?_, ?_, hset, hdel, fun t => cache.Get_congr _ _ t k2 hset,
    fun t => cache.Get_congr _ _ t k2 hdel⟩
  · intro item
    unfold cache.InMemoryCache.Set
    cases marshal v with
    | error err => exact Iff.rfl
    | ok data => exact gomap.mem_set_ne c.items k _ (k2, item) hne
  · intro item
    exact gomap.mem_delete_ne c.items k (k2, item) hne

/-- Witness of C28: a `Set` and a `Delete` of `cache:tags` leave the read of
`cache:stats` as it was. -/
theorem C28_set_delete_frame_witness :
    ((reference.warmStore.Set (fun v : List Nat => Except.ok v) 7 cache.KeyTags [3]
        cache.TTLTags).1.Get 8 cache.KeyStats = reference.warmStore.Get 8 cache.KeyStats) ∧
    ((reference.warmStore.Delete cache.KeyTags).1.Get 8 cache.KeyStats =
      reference.warmStore.Get 8 cache.KeyStats) :=
  ⟨(C28_set_delete_frame (fun v : List Nat => Except.ok v) reference.warmStore 7
      cache.KeyTags cache.KeyStats [3] cache.TTLTags (by decide)).2.2.2.2.1 8,
   (C28_set_delete_frame (fun v : List Nat => Except.ok v) reference.warmStore 7
      cache.KeyTags cache.KeyStats [3] cache.TTLTags (by decide)).2.2.2.2.2 8⟩

/-! ## The arithmetic of the paginated handlers -/

namespace goint

/-- A number in the `int` range is its own value. -/
theorem wrap_of_range (n : Int) (h1 : -9223372036854775808 ≤ n)
    (h2 : n < 9223372036854775808) : wrap n = n := by
  unfold wrap
  omega

theorem div_zero (a : Int) : div a 0 = .error "runtime error: integer divide by zero" := by
  unfold div
  rw [if_pos rfl]

/-- The expression `(total + perPage - 1) / perPage` for a total and a page size
without overflow: the ceiling of `total / perPage`. -/
theorem totalPages (total perPage : Int) (h0 : 0 ≤ total)
    (ht : total ≤ 9223372036854775707) (h1 : 1 ≤ perPage) (h100 : perPage ≤ 100) :
    div (sub (add total perPage) 1) perPage = .ok ((total + perPage - 1) / perPage) ∧
      spec.IsCeilDiv total perPage ((total + perPage - 1) / perPage) := by
  have hq0 : 0 ≤ (total + perPage - 1) / perPage := Int.ediv_nonneg (by omega) (by omega)
  have hle : total ≤ (total + perPage - 1) / perPage * perPage := by
    have h := Int.ediv_add_emod (total + perPage - 1) perPage
    have hr := Int.emod_lt_of_pos (total + perPage - 1) (by omega : 0 < perPage)
    nlinarith
  have hmin : ∀ m, 0 ≤ m → total ≤ m * perPage → (total + perPage - 1) / perPage ≤ m := by
    intro m _ hm
    have h2 : (total + perPage - 1) / perPage < m + 1 := by
      apply Int.ediv_lt_of_lt_mul (by omega)
      nlinarith
    omega
  have hqle : (total + perPage - 1) / perPage ≤ total + perPage - 1 :=
    Int.ediv_le_self _ (by omega)
  refine ⟨?_, hq0, hle, hmin⟩
  unfold div sub add
  rw [wrap_of_range (total + perPage) (by omega) (by omega),
    wrap_of_range (total + perPage - 1) (by omega) (by omega), if_neg (by omega),
    Int.tdiv_eq_ediv (by omega) (by omega), wrap_of_range _ (by omega) (by omega)]

end goint

namespace repository

/-- The offset of a page within the range that the product fits the `int`: not
negative, and the product itself. -/
theorem offset_nonneg (page perPage : Int) (h1 : 1 ≤ page) (hp : page ≤ 92233720368547758)
    (h2 : 1 ≤ perPage) (h100 : perPage ≤ 100) :
    offset page perPage = (page - 1) * perPage ∧ 0 ≤ offset page perPage := by
  have hprod0 : 0 ≤ (page - 1) * perPage := Int.mul_nonneg (by omega) (by omega)
  have hprod : (page - 1) * perPage ≤ 9223372036854775700 := by nlinarith
  have he : offset page perPage = (page - 1) * perPage := by
    unfold offset goint.mul goint.sub
    rw [goint.wrap_of_range (page - 1) (by omega) (by omega),
      goint.wrap_of_range _ (by omega) (by omega)]
  rw [he]
  exact ⟨rfl, hprod0⟩

end repository

namespace spec

theorem pageUsed_ge (page : Int) : 1 ≤ pageUsed page := by
  unfold pageUsed
  split <;> omega

theorem perPageUsed_range (dflt perPage : Int) (h1 : 1 ≤ dflt) (h2 : dflt ≤ 100) :
    1 ≤ perPageUsed dflt perPage ∧ perPageUsed dflt perPage ≤ 100 := by
  unfold perPageUsed
  split <;> omega

/-- The test `perPage < 1 || perPage > 100` of the handlers picks the page size the
specification names. -/
theorem perPageUsed_eq (dflt perPage : Int) :
    (if perPage < 1 ∨ perPage > 100 then dflt else perPage) = perPageUsed dflt perPage := by
  unfold perPageUsed
  by_cases h : perPage < 1 ∨ perPage > 100
  · rw [if_pos h, if_neg (by omega)]
  · rw [if_neg h, if_pos (by omega)]

end spec

namespace handlers

/-- The handler `PromptHandler.List` on the page and page size the specification
names. -/
theorem PromptHandler_List_eq {D : Type} (query : List (String × String))
    (repoList : Int → Int → Bool → Except String (D × Int)) :
    PromptHandler.List query repoList =
      match repoList (spec.pageUsed (spec.pageInput query))
        (spec.perPageUsed 20 (spec.perPageInput query "20"))
        (decide (gin.Query query "show_hidden" = "true")) with
      | .error err =>
        .ok { status := http.StatusInternalServerError, body := .H [("error", .string err)] }
      | .ok (prompts, total) =>
        match goint.div (goint.sub (goint.add total
          (spec.perPageUsed 20 (spec.perPageInput query "20"))) 1)
          (spec.perPageUsed 20 (spec.perPageInput query "20")) with
        | .error p => .error p
        | .ok totalPages =>
          .ok { status := http.StatusOK,
                body := .page { Data := prompts, Page := spec.pageUsed (spec.pageInput query),
                                PerPage := spec.perPageUsed 20 (spec.perPageInput query "20"),
                                Total := total, TotalPages := totalPages } } := by
  unfold PromptHandler.List
  simp only [spec.perPageUsed_eq]
  rfl

theorem AuditHandler_List_eq {D : Type} (query : List (String × String))
    (repoList : Int → Int → String → String → Except String (D × Int)) :
    AuditHandler.List query repoList =
      match repoList (spec.pageUsed (spec.pageInput query))
        (spec.perPageUsed 20 (spec.perPageInput query "20"))
        (gin.Query query "entity_type") (gin.Query query "action") with
      | .error err =>
        .ok { status := http.StatusInternalServerError, body := .H [("error", .string err)] }
      | .ok (logs, total) =>
        match goint.div (goint.sub (goint.add total
          (spec.perPageUsed 20 (spec.perPageInput query "20"))) 1)
          (spec.perPageUsed 20 (spec.perPageInput query "20")) with
        | .error p => .error p
        | .ok totalPages =>
          .ok { status := http.StatusOK,
                body := .page { Data := logs, Page := spec.pageUsed (spec.pageInput query),
                                PerPage := spec.perPageUsed 20 (spec.perPageInput query "20"),
                                Total := total, TotalPages := totalPages } } := by
  unfold AuditHandler.List
  simp only [spec.perPageUsed_eq]
  rfl

theorem AuthorHandler_List_eq {D : Type} (query : List (String × String))
    (repoSearch : String → Except String D)
    (repoList : Int → Int → Except String (D × Int)) (hs : gin.Query query "search" = "") :
    AuthorHandler.List query repoSearch repoList =
      match repoList (spec.pageUsed (spec.pageInput query))
        (spec.perPageUsed 50 (spec.perPageInput query "50")) with
      | .error err =>
        .ok { status := http.StatusInternalServerError, body := .H [("error", .string err)] }
      | .ok (authors, total) =>
        match goint.div (goint.sub (goint.add total
          (spec.perPageUsed 50 (spec.perPageInput query "50"))) 1)
          (spec.perPageUsed 50 (spec.perPageInput query "50")) with
        | .error p => .error p
        | .ok totalPages =>
          .ok { status := http.StatusOK,
                body := .page { Data := authors, Page := spec.pageUsed (spec.pageInput query),
                                PerPage := spec.perPageUsed 50 (spec.perPageInput query "50"),
                                Total := total, TotalPages := totalPages } } := by
  unfold AuthorHandler.List
  simp only [spec.perPageUsed_eq, hs, ne_eq, not_true_eq_false, if_false]
  rfl

end handlers

/-! ## Claims C27 and C29: pages -/

/-- Claim C27, the code at the failing input. `PromptHandler.Search` and
`PromptHandler.ListByTag` hand `per_page` to the division as `strconv.Atoi` returns
it: for `per_page=0`, and for a `per_page` that is not a number, the divisor is 0 and,
whatever rows and total the repository returns, the handler panics with
`integer divide by zero`. -/
theorem C27_divide_by_zero {D : Type} (rows : D) (total : Int) :
    handlers.PromptHandler.Search [("q", "cat"), ("per_page", "0")]
        (fun _ _ _ => .ok (rows, total)) =
      .error "runtime error: integer divide by zero" ∧
    handlers.PromptHandler.Search [("q", "cat"), ("per_page", "abc")]
        (fun _ _ _ => .ok (rows, total)) =
      .error "runtime error: integer divide by zero" ∧
    handlers.PromptHandler.ListByTag "portrait" [("per_page", "0")]
        (fun _ _ _ => .ok (rows, total)) =
      .error "runtime error: integer divide by zero" ∧
    handlers.PromptHandler.ListByTag "portrait" [("per_page", "")]
        (fun _ _ _ => .ok (rows, total)) =
      .error "runtime error: integer divide by zero" := by
  have h0 : (strconv.Atoi "0").1 = 0 := by decide
  have habc : (strconv.Atoi "abc").1 = 0 := by decide
  have hempty : (strconv.Atoi "").1 = 0 := by decide
  have q1 : gin.Query [("q", "cat"), ("per_page", "0")] "q" = "cat" := by decide
  have q2 : gin.Query [("q", "cat"), ("per_page", "abc")] "q" = "cat" := by decide
  have p1 : gin.DefaultQuery [("q", "cat"), ("per_page", "0")] "per_page" "20" = "0" := by
    decide
  have p2 : gin.DefaultQuery [("q", "cat"), ("per_page", "abc")] "per_page" "20" = "abc" := by
    decide
  have p3 : gin.DefaultQuery [("per_page", "0")] "per_page" "20" = "0" := by decide
  have p4 : gin.DefaultQuery [("per_page", "")] "per_page" "20" = "" := by decide
  have hcat : ¬ ("cat" = "") := by decide
  refine ⟨?_, ?_, ?_, ?_⟩
  · unfold handlers.PromptHandler.Search
    simp only [q1, p1, h0, hcat, if_false, goint.div_zero]
  · unfold handlers.PromptHandler.Search
    simp only [q2, p2, habc, hcat, if_false, goint.div_zero]
  · unfold handlers.PromptHandler.ListByTag
    simp only [p3, h0, goint.div_zero]
  · unfold handlers.PromptHandler.ListByTag
    simp only [p4, hempty, goint.div_zero]

/-- Counterexample to C29 as stated: for `page=9223372036854775807` the handlers call
the repository with that page and page size 20, and the offset the repository
computes, `(page - 1) * perPage` on the 64-bit `int`, is -40. -/
theorem C29_counterexample :
    handlers.PromptHandler.List [("page", "9223372036854775807")]
        (fun page perPage _ => .ok ((page, perPage, repository.offset page perPage), 0)) =
      .ok { status := 200,
            body := .page { Data := (9223372036854775807, 20, -40),
                            Page := 9223372036854775807, PerPage := 20, Total := 0,
                            TotalPages := 0 } } ∧
    repository.offset 9223372036854775807 20 = -40 ∧ ¬ (0 : Int) ≤ -40 := by
  exact ⟨rfl, by decide, by decide⟩

/-- Claim C29, amended. In `PromptHandler.List`, `AuditHandler.List` and
`AuthorHandler.List` (without a search query), for every `page` and `per_page` input,
with `page` the page used and `perPage` the page size used (`perPageA` for authors):
the page is at least 1 (values below 1 become 1) and the page size lies in
`[1, 100]` (values outside become 20, or 50 for authors); when the page is at most
92233720368547758, so that the product fits the 64-bit `int`, the query offset
`(page - 1) * perPage` is not negative; and for every total between 0 and
`2^63 - 101` that the repository returns for that page and page size, the handler
answers 200 with the rows, the page, the page size, the total, and as `totalPages`
the ceiling of `total / perPage`: the least `n ≥ 0` with `n * perPage ≥ total`. -/
theorem C29_pagination {D : Type} (query : List (String × String))
    (page perPage perPageA : Int)
    (hpage : page = spec.pageUsed (spec.pageInput query))
    (hperPage : perPage = spec.perPageUsed 20 (spec.perPageInput query "20"))
    (hperPageA : perPageA = spec.perPageUsed 50 (spec.perPageInput query "50")) :
    1 ≤ page ∧ (1 ≤ perPage ∧ perPage ≤ 100) ∧ (1 ≤ perPageA ∧ perPageA ≤ 100) ∧
    (page ≤ 92233720368547758 →
      (repository.offset page perPage = (page - 1) * perPage ∧
        0 ≤ repository.offset page perPage) ∧
      (repository.offset page perPageA = (page - 1) * perPageA ∧
        0 ≤ repository.offset page perPageA)) ∧
    (∀ (repoList : Int → Int → Bool → Except String (D × Int)) (rows : D) (total : Int),
      repoList page perPage (decide (gin.Query query "show_hidden" = "true")) =
        .ok (rows, total) →
      0 ≤ total → total ≤ 9223372036854775707 →
      handlers.PromptHandler.List query repoList =
          .ok { status := 200,
                body := .page { Data := rows, Page := page, PerPage := perPage,
                                Total := total,
                                TotalPages := (total + perPage - 1) / perPage } } ∧
        spec.IsCeilDiv total perPage ((total + perPage - 1) / perPage)) ∧
    (∀ (repoList : Int → Int → String → String → Except String (D × Int)) (rows : D)
      (total : Int),
      repoList page perPage (gin.Query query "entity_type") (gin.Query query "action") =
        .ok (rows, total) →
      0 ≤ total → total ≤ 9223372036854775707 →
      handlers.AuditHandler.List query repoList =
          .ok { status := 200,
                body := .page { Data := rows, Page := page, PerPage := perPage,
                                Total := total,
                                TotalPages := (total + perPage - 1) / perPage } } ∧
        spec.IsCeilDiv total perPage ((total + perPage - 1) / perPage)) ∧
    (∀ (repoSearch : String → Except String D)
      (repoList : Int → Int → Except String (D × Int)) (rows : D) (total : Int),
      gin.Query query "search" = "" →
      repoList page perPageA = .ok (rows, total) →
      0 ≤ total → total ≤ 9223372036854775707 →
      handlers.AuthorHandler.List query repoSearch repoList =
          .ok { status := 200,
                body := .page { Data := rows, Page := page, PerPage := perPageA,
                                Total := total,
                                TotalPages := (total + perPageA - 1) / perPageA } } ∧
        spec.IsCeilDiv total perPageA ((total + perPageA - 1) / perPageA)) := by
  subst hpage hperPage hperPageA
  have hp := spec.pageUsed_ge (spec.pageInput query)
  have h20 := spec.perPageUsed_range 20 (spec.perPageInput query "20") (by decide) (by decide)
  have h50 := spec.perPageUsed_range 50 (spec.perPageInput query "50") (by decide) (by decide)
  refine ⟨hp, h20, h50, ?_, ?_, ?_, ?_⟩
  · intro hb
    exact ⟨repository.offset_nonneg _ _ hp hb h20.1 h20.2,
      repository.offset_nonneg _ _ hp hb h50.1 h50.2⟩
  · intro repoList rows total hrepo h0 ht
    obtain ⟨hdiv, hceil⟩ := goint.totalPages total _ h0 ht h20.1 h20.2
    refine ⟨?_, hceil⟩
    rw [handlers.PromptHandler_List_eq, hrepo]
    simp only [hdiv]
    rfl
  · intro repoList rows total hrepo h0 ht
    obtain ⟨hdiv, hceil⟩ := goint.totalPages total _ h0 ht h20.1 h20.2
    refine ⟨?_, hceil⟩
    rw [handlers.AuditHandler_List_eq, hrepo]
    simp only [hdiv]
    rfl
  · intro repoSearch repoList rows total hs hrepo h0 ht
    obtain ⟨hdiv, hceil⟩ := goint.totalPages total _ h0 ht h50.1 h50.2
    refine ⟨?_, hceil⟩
    rw [handlers.AuthorHandler_List_eq query repoSearch repoList hs, hrepo]
    simp only [hdiv]
    rfl

/-- Witness of C29: for `page=0` and `per_page=500` and a total of 41 the handler uses
page 1 and page size 20 and reports 3 pages. -/
theorem C29_pagination_witness :
    handlers.PromptHandler.List [("page", "0"), ("per_page", "500")]
        (fun _ _ _ => .ok ("rows", 41)) =
      .ok { status := 200,
            body := .page { Data := "rows", Page := 1, PerPage := 20, Total := 41,
                            TotalPages := 3 } } ∧
      spec.IsCeilDiv 41 20 3 :=
  (C29_pagination [("page", "0"), ("per_page", "500")] 1 20 50 (by decide) (by decide)
    (by decide)).2.2.2.2.1 (fun _ _ _ => .ok ("rows", 41)) "rows" 41 rfl (by decide) (by decide)

/-! ## Slugs -/

namespace repository

theorem slugRune_iff (c : Char) :
    slugRune c = true ↔ (('a' ≤ c ∧ c ≤ 'z') ∨ ('0' ≤ c ∧ c ≤ '9') ∨ c = '-') := by
  unfold slugRune
  simp only [Bool.or_eq_true, Bool.and_eq_true, decide_eq_true_eq, or_assoc]

/-- Every rune of a slug passed the test of the loop. -/
theorem slugRune_of_mem (toLower : Char → Char) (name : String) (c : Char)
    (h : c ∈ (generateSlug toLower name).data) : slugRune c = true := by
  unfold generateSlug at h
  exact (List.mem_filter.mp h).2

/-- A string of slug runes is its own slug, when `toLower` leaves slug runes alone. -/
theorem generateSlug_of_all (toLower : Char → Char)
    (htl : ∀ c, slugRune c = true → toLower c = c) (s : String)
    (hs : ∀ c ∈ s.data, slugRune c = true) : generateSlug toLower s = s := by
  have h1 : s.data.map toLower = s.data := by
    conv_rhs => rw [← List.map_id s.data]
    exact List.map_congr_left (fun c hc => htl c (hs c hc))
  have h2 : ∀ l : List Char, (∀ c ∈ l, slugRune c = true) →
      l.flatMap (fun c => if c = ' ' then "-".data else [c]) = l := by
    intro l
    induction l with
    | nil => intro _; rfl
    | cons x xs ih =>
      intro hl
      have hx : x ≠ ' ' := by
        intro e
        have := hl x (List.mem_cons_self _ _)
        rw [e] at this
        revert this
        decide
      rw [List.flatMap_cons, if_neg hx, ih (fun c hc => hl c (List.mem_cons_of_mem _ hc))]
      rfl
  unfold generateSlug strings.ReplaceAll strings.ToLower
  simp only [h1, h2 s.data hs]
  rw [List.filter_eq_self.mpr hs]

/-- The ASCII case map leaves the slug runes as they are. -/
theorem toLower_slugRune (c : Char)
    (hc : ('a' ≤ c ∧ c ≤ 'z') ∨ ('0' ≤ c ∧ c ≤ '9') ∨ c = '-') : Char.toLower c = c := by
  have hle : ∀ a b : Char, a ≤ b ↔ a.val.toNat ≤ b.val.toNat := fun a b => Iff.rfl
  have e1 : ('a' : Char).val.toNat = 97 := rfl
  have e3 : ('0' : Char).val.toNat = 48 := rfl
  have e4 : ('9' : Char).val.toNat = 57 := rfl
  have ht : c.toNat = c.val.toNat := rfl
  have hn : ¬ (c.toNat ≥ 65 ∧ c.toNat ≤ 90) := by
    rintro ⟨h1, h2⟩
    rcases hc with ⟨h3, _⟩ | ⟨_, h4⟩ | h3
    · rw [hle] at h3
      omega
    · rw [hle] at h4
      omega
    · subst h3
      revert h1
      decide
  unfold Char.toLower
  rw [if_neg hn]

end repository

/-! ## Claim C30: slugs -/

/-- Claim C30. For every name, the slug `generateSlug` returns consists of the
characters `a` to `z`, `0` to `9` and `-` only: no upper-case letter and no space is
in it; and `generateSlug` of a slug is that slug, given that `unicode.ToLower` leaves
these characters as they are. -/
theorem C30_slug_url_friendly (toLower : Char → Char) (name : String)
    (htl : ∀ c, (('a' ≤ c ∧ c ≤ 'z') ∨ ('0' ≤ c ∧ c ≤ '9') ∨ c = '-') → toLower c = c) :
    (∀ c ∈ (repository.generateSlug toLower name).data,
      ('a' ≤ c ∧ c ≤ 'z') ∨ ('0' ≤ c ∧ c ≤ '9') ∨ c = '-') ∧
    (∀ c ∈ (repository.generateSlug toLower name).data, ¬ ('A' ≤ c ∧ c ≤ 'Z') ∧ c ≠ ' ') ∧
    repository.generateSlug toLower (repository.generateSlug toLower name) =
      repository.generateSlug toLower name := by
  have hall : ∀ c ∈ (repository.generateSlug toLower name).data,
      repository.slugRune c = true :=
    fun c hc => repository.slugRune_of_mem toLower name c hc
  refine ⟨fun c hc => (repository.slugRune_iff c).mp (hall c hc), ?_, ?_⟩
  · intro c hc
    have h := (repository.slugRune_iff c).mp (hall c hc)
    have e1 : ('a' : Char).val.toNat = 97 := rfl
    have e2 : ('z' : Char).val.toNat = 122 := rfl
    have e3 : ('0' : Char).val.toNat = 48 := rfl
    have e4 : ('9' : Char).val.toNat = 57 := rfl
    have e5 : ('A' : Char).val.toNat = 65 := rfl
    have e6 : ('Z' : Char).val.toNat = 90 := rfl
    have hle : ∀ a b : Char, a ≤ b ↔ a.val.toNat ≤ b.val.toNat := fun a b => Iff.rfl
    constructor
    · rintro ⟨h1, h2⟩
      rw [hle] at h1 h2
      rcases h with ⟨h3, h4⟩ | ⟨h3, h4⟩ | h3
      · rw [hle] at h3 h4
        omega
      · rw [hle] at h3 h4
        omega
      · subst h3
        revert h1
        decide
    · rintro rfl
      revert h
      decide
  · exact repository.generateSlug_of_all toLower
      (fun c hc => htl c ((repository.slugRune_iff c).mp hc)) _ hall

/-- Witness of C30: with the ASCII case map, the slug of `Hello World 2!` is its own
slug. -/
theorem C30_slug_url_friendly_witness :
    repository.generateSlug Char.toLower
        (repository.generateSlug Char.toLower "Hello World 2!") =
      repository.generateSlug Char.toLower "Hello World 2!" :=
  (C30_slug_url_friendly Char.toLower "Hello World 2!" repository.toLower_slugRune).2.2
